import Mathlib

/-!
The file `crypto.c` of tinydtls: a shallow embedding and its verified properties.

Byte buffers are lists of naturals, a pointer into a buffer is the buffer
together with an offset, and a `(pointer, length)` pair of read-only input
bytes (key, label, seed, aad) is the list of those bytes.  The widths of the
C integer types are explicit: `int` has 32 bits, `size_t` has `ws` bits.
Sums of `size_t` values that are bounded by the size of one object plus a
digest length are not reduced, since no object reaches `SIZE_MAX` bytes.
A local array that the source hands on without having written all of it is
given its content on entry as a parameter.
-/

namespace TinyDTLS

/-! ## Memory and integer conversions -/

/-- Writes `bytes` to `mem` starting at index `off`, as `memcpy`/`memmove` and
the byte stores of the source do. -/
def store (mem : List Nat) (off : Nat) : List Nat → List Nat
  | [] => mem
  | b :: bs => store (mem.set off b) (off + 1) bs

/-- Reads `n` bytes of `mem` starting at index `off`. -/
def load (mem : List Nat) (off n : Nat) : List Nat :=
  (mem.drop off).take n

/-- Conversion of an integer value to `size_t`, an unsigned type of `ws` bits. -/
def to_size_t (ws : Nat) (x : Int) : Nat :=
  (x % (2 : Int) ^ ws).toNat

/-- Conversion of an integer value to `int`, 32 bits in two's complement. -/
def to_int (x : Int) : Int :=
  (x + 2 ^ 31) % 2 ^ 32 - 2 ^ 31

/-- Modelled from the spec: `dtls_int_to_uint8` of numeric.h, which is not
among the sources; it stores the low byte of the value. -/
def dtls_int_to_uint8 (value : Nat) : List Nat :=
  [value % 256]

/-- Modelled from the spec: `dtls_int_to_uint16` of numeric.h, which is not
among the sources; it stores a 16-bit value big-endian. -/
def dtls_int_to_uint16 (value : Nat) : List Nat :=
  [(value % 65536) / 256, value % 256]

/-- Modelled from the spec: `dtls_int_to_uint32` of numeric.h, which is not
among the sources; it stores a 32-bit value big-endian. -/
def dtls_int_to_uint32 (value : Nat) : List Nat :=
  [(value % 4294967296) / 16777216, (value / 65536) % 256, (value / 256) % 256, value % 256]

/-! ## HMAC provider -/

/-- Modelled from the spec: the HMAC provider (hmac.c is not among the
sources) is consumed through init/update/finalize.  A context is the key
together with the bytes fed so far. -/
structure dtls_hmac_context_t where
  key : List Nat
  data : List Nat
deriving DecidableEq, Repr

/-- Modelled from the spec: `dtls_hmac_init` starts a context for `key` with
nothing fed. -/
def dtls_hmac_init (key : List Nat) : dtls_hmac_context_t :=
  { key := key, data := [] }

/-- Modelled from the spec: `dtls_hmac_update` feeds `input` after what was
fed before. -/
def dtls_hmac_update (ctx : dtls_hmac_context_t) (input : List Nat) : dtls_hmac_context_t :=
  { ctx with data := ctx.data ++ input }

/-- Modelled from the spec: `dtls_hmac_finalize` yields the digest, the keyed
function `hmac` of the bytes fed; its length is the value the C function
returns. -/
def dtls_hmac_finalize (hmac : List Nat → List Nat → List Nat)
    (ctx : dtls_hmac_context_t) : List Nat :=
  hmac ctx.key ctx.data

/-- The macro `HMAC_UPDATE_SEED`: a NULL seed (`none`) is not fed at all. -/
def HMAC_UPDATE_SEED (ctx : dtls_hmac_context_t) (seed : Option (List Nat)) :
    dtls_hmac_context_t :=
  match seed with
  | none => ctx
  | some s => dtls_hmac_update ctx s

/-! ## Key derivation -/

/-- The `while (len < buflen)` loop of `dtls_p_hash`.  `A` and `dlen` are
the locals of the source, `A` and `tmp` holding the digest last written to
them; `fuel` bounds the number of iterations, and `none` means the loop has
not finished within `fuel` iterations. -/
def dtls_p_hash_loop (hmac : List Nat → List Nat → List Nat) (key : List Nat)
    (label random1 random2 : Option (List Nat)) (buflen : Nat) :
    Nat → List Nat → Nat → Nat → List Nat → Option (List Nat)
  | 0, _, _, _, _ => none
  | fuel + 1, A, dlen, len, buf =>
    if len < buflen then
      let h := dtls_hmac_init key
      let h := dtls_hmac_update h (A.take dlen)
      let h := HMAC_UPDATE_SEED h label
      let h := HMAC_UPDATE_SEED h random1
      let h := HMAC_UPDATE_SEED h random2
      let tmp := dtls_hmac_finalize hmac h
      let dlen := tmp.length
      if len + dlen < buflen then
        let buf := store buf len (tmp.take dlen)
        let len := len + dlen
        let h := dtls_hmac_init key
        let h := dtls_hmac_update h (A.take dlen)
        let A := dtls_hmac_finalize hmac h
        dtls_p_hash_loop hmac key label random1 random2 buflen fuel A dlen len buf
      else
        some (store buf len (tmp.take (buflen - len)))
    else
      some buf

/-- The function `dtls_p_hash`: returns `buflen` and the buffer written. -/
def dtls_p_hash (hmac : List Nat → List Nat → List Nat) (fuel : Nat) (key : List Nat)
    (label random1 random2 : Option (List Nat)) (buf : List Nat) (buflen : Nat) :
    Option (Nat × List Nat) :=
  let h := dtls_hmac_init key
  let h := HMAC_UPDATE_SEED h label
  let h := HMAC_UPDATE_SEED h random1
  let h := HMAC_UPDATE_SEED h random2
  let A := dtls_hmac_finalize hmac h
  let dlen := A.length
  match dtls_p_hash_loop hmac key label random1 random2 buflen fuel A dlen 0 buf with
  | none => none
  | some out => some (buflen, out)

/-- The function `dtls_prf`: clears the first `buflen` bytes, then runs
`dtls_p_hash`. -/
def dtls_prf (hmac : List Nat → List Nat → List Nat) (fuel : Nat) (key : List Nat)
    (label random1 random2 : Option (List Nat)) (buf : List Nat) (buflen : Nat) :
    Option (Nat × List Nat) :=
  dtls_p_hash hmac fuel key label random1 random2 (store buf 0 (List.replicate buflen 0)) buflen

/-- The function `dtls_mac`: feeds the context and finalises into `buf`. -/
def dtls_mac (hmac : List Nat → List Nat → List Nat) (hmac_ctx : dtls_hmac_context_t)
    (record packet : List Nat) (length : Nat) (buf : List Nat) : List Nat :=
  let L := dtls_int_to_uint16 length
  let c := dtls_hmac_update hmac_ctx (load record 3 (2 + 6))
  let c := dtls_hmac_update c (load record 0 (1 + 2))
  let c := dtls_hmac_update c (load L 0 2)
  let c := dtls_hmac_update c (load packet 0 length)
  store buf 0 (dtls_hmac_finalize hmac c)

/-! ## Cipher context, CCM and the AEAD entry points -/

/-- The CCM parameters of one call: nonce, tag length M, length-field width L. -/
structure dtls_ccm_params_t where
  nonce : List Nat
  tag_length : Nat
  l : Nat
deriving DecidableEq, Repr

/-- The working area `aes128_ccm_t`: key schedule, tag length and L. -/
structure aes128_ccm_t (KS : Type) where
  ctx : KS
  tag_length : Nat
  l : Nat
deriving DecidableEq, Repr

/-- Modelled from the spec: the block cipher and the CCM transform (rijndael.c
and ccm.c are not among the sources), consumed through three operations.
`rijndael_set_key_enc_only ctx key bits` yields the `int` result and the new
key schedule; the two message transforms take the key schedule, M, L, the
nonce, the message buffer, the message length and the aad, and yield their
`long` result and the buffer they leave. -/
structure CipherProvider (KS : Type) where
  rijndael_set_key_enc_only : KS → List Nat → Int → Int × KS
  dtls_ccm_encrypt_message : KS → Nat → Nat → List Nat → List Nat → Nat → List Nat → Int × List Nat
  dtls_ccm_decrypt_message : KS → Nat → Nat → List Nat → List Nat → Nat → List Nat → Int × List Nat

/-- What happens to the shared cipher context, in order.  The provider
operations record whether the mutex was held when they ran. -/
inductive Event where
  | mutex_lock
  | mutex_unlock
  | key_install (held : Bool)
  | ccm_encrypt (held : Bool)
  | ccm_decrypt (held : Bool)
deriving DecidableEq, Repr

/-- The static state of crypto.c: `cipher_context`, `cipher_context_mutex`
(true when locked), and the history of events. -/
structure World (KS : Type) where
  cipher_context : aes128_ccm_t KS
  cipher_context_mutex : Bool
  trace : List Event
deriving DecidableEq, Repr

/-- The function `dtls_cipher_context_get`: locks the mutex; a caller that
finds it locked waits for ever (`none`). -/
def dtls_cipher_context_get {KS : Type} (w : World KS) : Option (World KS) :=
  if w.cipher_context_mutex then none
  else some { w with cipher_context_mutex := true, trace := w.trace ++ [Event.mutex_lock] }

/-- The function `dtls_cipher_context_release`: unlocks the mutex. -/
def dtls_cipher_context_release {KS : Type} (w : World KS) : World KS :=
  { w with cipher_context_mutex := false, trace := w.trace ++ [Event.mutex_unlock] }

/-- The function `dtls_ccm_encrypt`: calls the transform on `buf` and
converts its `long` result to `size_t`. -/
def dtls_ccm_encrypt {KS : Type} (ws : Nat) (P : CipherProvider KS) (w : World KS)
    (ccm_ctx : aes128_ccm_t KS) (srclen : Nat) (buf nonce aad : List Nat) :
    Nat × List Nat × World KS :=
  let r := P.dtls_ccm_encrypt_message ccm_ctx.ctx ccm_ctx.tag_length ccm_ctx.l nonce buf srclen aad
  (to_size_t ws r.1, r.2,
    { w with trace := w.trace ++ [Event.ccm_encrypt w.cipher_context_mutex] })

/-- The function `dtls_ccm_decrypt`: calls the transform on `buf` and
converts its `long` result to `size_t`. -/
def dtls_ccm_decrypt {KS : Type} (ws : Nat) (P : CipherProvider KS) (w : World KS)
    (ccm_ctx : aes128_ccm_t KS) (srclen : Nat) (buf nonce aad : List Nat) :
    Nat × List Nat × World KS :=
  let r := P.dtls_ccm_decrypt_message ccm_ctx.ctx ccm_ctx.tag_length ccm_ctx.l nonce buf srclen aad
  (to_size_t ws r.1, r.2,
    { w with trace := w.trace ++ [Event.ccm_decrypt w.cipher_context_mutex] })

/-- The step `if (src != buf) memmove(buf, src, length)`: `none` is a source
that is the destination itself, `some s` a distinct source buffer. -/
def memmove_src (src : Option (List Nat)) (length : Nat) (buf : List Nat) : List Nat :=
  match src with
  | none => buf
  | some s => store buf 0 (load s 0 length)

/-- The key install of both entry points: M and L are copied from `params`,
then `rijndael_set_key_enc_only` runs with `8 * keylen` bits. -/
def install_key {KS : Type} (ws : Nat) (P : CipherProvider KS) (w : World KS)
    (params : dtls_ccm_params_t) (key : List Nat) : Int × World KS :=
  let r := P.rijndael_set_key_enc_only w.cipher_context.ctx key
    (to_int (to_size_t ws (8 * key.length)))
  (r.1, { w with
    cipher_context := { ctx := r.2, tag_length := params.tag_length, l := params.l },
    trace := w.trace ++ [Event.key_install w.cipher_context_mutex] })

/-- The function `dtls_encrypt_params`: result `int`, buffer `buf` and state
after the call. -/
def dtls_encrypt_params {KS : Type} (ws : Nat) (P : CipherProvider KS) (w : World KS)
    (params : dtls_ccm_params_t) (src : Option (List Nat)) (length : Nat)
    (buf key aad : List Nat) : Option (Int × List Nat × World KS) :=
  match dtls_cipher_context_get w with
  | none => none
  | some w =>
    let r := install_key ws P w params key
    if r.1 < 0 then
      some (r.1, buf, dtls_cipher_context_release r.2)
    else
      let buf := memmove_src src length buf
      let e := dtls_ccm_encrypt ws P r.2 r.2.cipher_context length buf params.nonce aad
      some (to_int e.1, e.2.1, dtls_cipher_context_release e.2.2)

/-- The function `dtls_decrypt_params`: result `int`, buffer `buf` and state
after the call. -/
def dtls_decrypt_params {KS : Type} (ws : Nat) (P : CipherProvider KS) (w : World KS)
    (params : dtls_ccm_params_t) (src : Option (List Nat)) (length : Nat)
    (buf key aad : List Nat) : Option (Int × List Nat × World KS) :=
  match dtls_cipher_context_get w with
  | none => none
  | some w =>
    let r := install_key ws P w params key
    if r.1 < 0 then
      some (r.1, buf, dtls_cipher_context_release r.2)
    else
      let buf := memmove_src src length buf
      let e := dtls_ccm_decrypt ws P r.2 r.2.cipher_context length buf params.nonce aad
      some (to_int e.1, e.2.1, dtls_cipher_context_release e.2.2)

/-- The input bytes of one call: the first `length` bytes of the source, which
is the destination itself when `src` is `none`. -/
def source_bytes (src : Option (List Nat)) (length : Nat) (buf : List Nat) : List Nat :=
  match src with
  | none => buf.take length
  | some s => s.take length

/-- The assumption of the round trip: with the schedule installed from one
key, the decrypt transform applied to the first `m` bytes the encrypt
transform produced reports the plaintext length and restores the plaintext. -/
def ccm_inverts {KS : Type} (P : CipherProvider KS) : Prop :=
  ∀ (ks ks' : KS) (key : List Nat) (bits : Int) (M L : Nat)
    (nonce aad buf buf2 : List Nat) (n : Nat),
    0 ≤ (P.rijndael_set_key_enc_only ks key bits).1 →
    0 ≤ (P.rijndael_set_key_enc_only ks' key bits).1 →
    n ≤ buf.length →
    0 ≤ (P.dtls_ccm_encrypt_message (P.rijndael_set_key_enc_only ks key bits).2
          M L nonce buf n aad).1 →
    buf2.take (P.dtls_ccm_encrypt_message (P.rijndael_set_key_enc_only ks key bits).2
          M L nonce buf n aad).1.toNat
      = (P.dtls_ccm_encrypt_message (P.rijndael_set_key_enc_only ks key bits).2
          M L nonce buf n aad).2.take
          (P.dtls_ccm_encrypt_message (P.rijndael_set_key_enc_only ks key bits).2
            M L nonce buf n aad).1.toNat →
    (P.dtls_ccm_decrypt_message (P.rijndael_set_key_enc_only ks' key bits).2 M L nonce buf2
        (P.dtls_ccm_encrypt_message (P.rijndael_set_key_enc_only ks key bits).2
          M L nonce buf n aad).1.toNat aad).1 = (n : Int)
    ∧ (P.dtls_ccm_decrypt_message (P.rijndael_set_key_enc_only ks' key bits).2 M L nonce buf2
        (P.dtls_ccm_encrypt_message (P.rijndael_set_key_enc_only ks key bits).2
          M L nonce buf n aad).1.toNat aad).2.take n = buf.take n

/-- A toy cipher provider used to evaluate the definitions: the key schedule
is the key (16, 24 or 32 bytes), encryption adds one to every message byte and
appends `M` tag bytes, each the sum of key, nonce and aad bytes; decryption
checks the tag and subtracts one, and reports `fail_code` on a mismatch. -/
def toy_cipher (fail_code : Int) : CipherProvider (List Nat) where
  rijndael_set_key_enc_only := fun ks key bits =>
    if bits = 128 ∨ bits = 192 ∨ bits = 256 then (0, key) else (-1, ks)
  dtls_ccm_encrypt_message := fun ks M _ nonce buf n aad =>
    ((n : Int) + M,
      (buf.take n).map (fun x => x + 1)
        ++ List.replicate M (ks.sum + nonce.sum + aad.sum) ++ buf.drop (n + M))
  dtls_ccm_decrypt_message := fun ks M _ nonce buf m aad =>
    if M ≤ m then
      if load buf (m - M) M = List.replicate M (ks.sum + nonce.sum + aad.sum) then
        (((m - M : Nat) : Int), (buf.take (m - M)).map (fun x => x - 1) ++ buf.drop (m - M))
      else (fail_code, buf)
    else (fail_code, buf)

/-- An initial state: mutex free, nothing recorded. -/
def world0 : World (List Nat) :=
  { cipher_context := { ctx := [], tag_length := 0, l := 0 },
    cipher_context_mutex := false, trace := [] }

/-- A 16-byte key. -/
def key16 : List Nat := [1, 2, 3, 4, 5, 6, 7, 8, 9, 10, 11, 12, 13, 14, 15, 16]

/-! ## EC keys and their ASN.1 encoding -/

/-- The loop of `dtls_ec_key_from_uint32`, with the counter `n = i + 1`: it
stores `key[i]` big-endian and advances `result` by 4, for `i` going down to 0. -/
def ec_key_from_uint32_loop (key : List Nat) : Nat → List Nat → Nat → List Nat
  | 0, result, _ => result
  | i + 1, result, off =>
    ec_key_from_uint32_loop key i (store result off (dtls_int_to_uint32 (key.getD i 0))) (off + 4)

/-- The function `dtls_ec_key_from_uint32`, writing at `result + off`; the
`int i` starts at `(key_size / sizeof(uint32_t)) - 1`, computed in `size_t`. -/
def dtls_ec_key_from_uint32 (ws : Nat) (key : List Nat) (key_size : Nat)
    (result : List Nat) (off : Nat) : List Nat :=
  let i : Int := to_int (to_size_t ws (((key_size / 4 : Nat) : Int) - 1))
  ec_key_from_uint32_loop key (i + 1).toNat result off

/-- The loop `while (i < (int)key_size && buf[i] == 0) ++i` over the bytes at
`buf + off`; `rem` is `(int)key_size - i`. -/
def skip_leading_zeros (buf : List Nat) (off : Nat) : Nat → Nat → Nat
  | 0, i => i
  | rem + 1, i =>
    if buf.getD (off + i) 0 = 0 then skip_leading_zeros buf off rem (i + 1) else i

/-- The statements `if (i > 0) { ... } else if (i == -1) { ... }` of
`dtls_ec_key_asn1_from_uint32`: the buffer and `key_size` after them.  The
value starts at index 2 of `buf`. -/
def ec_key_asn1_move (ws : Nat) (key_size : Nat) (buf : List Nat) (i : Int) : List Nat × Nat :=
  if i > 0 then
    let key_size := to_size_t ws ((key_size : Int) - i)
    (store buf 2 (load buf (2 + i.toNat) key_size), key_size)
  else if i = -1 then
    let buf := store buf 3 (load buf 2 key_size)
    (buf.set 2 0, to_size_t ws ((key_size : Int) + 1))
  else (buf, key_size)

/-- The statements of `dtls_ec_key_asn1_from_uint32` after the call of
`dtls_ec_key_from_uint32`: `buf` is the whole output buffer, the tag at index
0, `lptr` at index 1 and the value from index 2 on.  The `assert` is the
empty macro of the build without assert.h. -/
def ec_key_asn1_strip (ws : Nat) (key_size : Nat) (buf : List Nat) : Int × List Nat :=
  let i : Int := (skip_leading_zeros buf 2 (to_int key_size).toNat 0 : Nat)
  if i = to_int key_size then (0, buf)
  else
    let i : Int := if buf.getD (2 + i.toNat) 0 ≥ 0x80 then i - 1 else i
    let r := ec_key_asn1_move ws key_size buf i
    (to_int (to_size_t ws ((r.2 : Int) + 2)), store r.1 1 (dtls_int_to_uint8 r.2))

/-- The function `dtls_ec_key_asn1_from_uint32`: result `int` and the buffer. -/
def dtls_ec_key_asn1_from_uint32 (ws : Nat) (key : List Nat) (key_size : Nat)
    (buf : List Nat) : Int × List Nat :=
  let buf := store buf 0 (dtls_int_to_uint8 0x02)
  let buf := dtls_ec_key_from_uint32 ws key key_size buf 2
  ec_key_asn1_strip ws key_size buf

/-- The bytes the loop of `dtls_ec_key_from_uint32` writes for `n` words:
word `n - 1` first, each word big-endian. -/
def ec_key_bytes (key : List Nat) : Nat → List Nat
  | 0 => []
  | i + 1 => dtls_int_to_uint32 (key.getD i 0) ++ ec_key_bytes key i

/-- The `key_size`-byte string that `dtls_ec_key_from_uint32` produces. -/
def ec_key_from_uint32_bytes (ws : Nat) (key : List Nat) (key_size : Nat) : List Nat :=
  load (dtls_ec_key_from_uint32 ws key key_size (List.replicate key_size 0) 0) 0 key_size

/-- The value bytes the specification asks for: the leading zero bytes of `b`
removed, then one 0x00 put in front when the first remaining byte is >= 0x80. -/
def asn1_value (b : List Nat) : List Nat :=
  let s := b.dropWhile (fun x => x = 0)
  if s.headD 0 ≥ 0x80 then 0 :: s else s

/-- The unsigned integer a byte string denotes, big-endian. -/
def be_value (b : List Nat) : Nat :=
  b.foldl (fun acc x => acc * 256 + x) 0

/-! ## Specification-side definitions for the key derivation -/

/-- The bytes a possibly absent seed part contributes. -/
def seed_bytes : Option (List Nat) → List Nat
  | none => []
  | some s => s

/-- The chain of the specification: A(0) = S, A(i) = HMAC(key, A(i-1)). -/
def p_hash_A (hmac : List Nat → List Nat → List Nat) (key S : List Nat) : Nat → List Nat
  | 0 => S
  | i + 1 => hmac key (p_hash_A hmac key S i)

/-- The output blocks `j+1, ..., j+k` of the specification, concatenated:
block `i` is HMAC(key, A(i) ++ S). -/
def p_hash_blocks (hmac : List Nat → List Nat → List Nat) (key S : List Nat) (j : Nat) :
    Nat → List Nat
  | 0 => []
  | k + 1 => hmac key (p_hash_A hmac key S (j + 1) ++ S) ++ p_hash_blocks hmac key S (j + 1) k

/-- A toy keyed function with a two-byte digest, used to evaluate the
definitions on concrete inputs. -/
def toy_hmac (key data : List Nat) : List Nat :=
  [(key.sum + 3 * data.sum + data.length) % 256, (7 * key.length + data.sum) % 256]

/-! ## PSK pre-master secret -/

/-- The function `dtls_psk_pre_master_secret` (build with DTLS_PSK): result
`int` and the buffer `result`; `key` holds the `keylen` bytes of the PSK. -/
def dtls_psk_pre_master_secret (ws : Nat) (key : List Nat) (result : List Nat)
    (result_len : Nat) : Int × List Nat :=
  let keylen := key.length
  if result_len < to_size_t ws (2 * (2 + (keylen : Int))) then (-1, result)
  else
    let result := store result 0 (dtls_int_to_uint16 keylen)
    let result := store result 2 (List.replicate keylen 0)
    let result := store result (2 + keylen) (load result 0 2)
    let result := store result (2 + keylen + 2) (load key 0 keylen)
    (to_int (to_size_t ws (2 * (2 + (keylen : Int)))), result)

/-! ## Elliptic curves: registry, ECDH and ECDSA (build with DTLS_ECC) -/

/-- Modelled from the spec: the identifier of the one curve of the registry;
the constant is declared outside crypto.c, 23 is the registered number of
secp256r1. -/
def TLS_EXT_ELLIPTIC_CURVES_SECP256R1 : Nat := 23

/-- Modelled from the spec: the constant `DTLS_EC_KEY_SIZE` of crypto.h, the
size in bytes of one coordinate of the supported curve. -/
def DTLS_EC_KEY_SIZE : Nat := 32

/-- Modelled from the spec: the constant `DTLS_HMAC_DIGEST_SIZE`, the size in
bytes of the digest of the one supported hash. -/
def DTLS_HMAC_DIGEST_SIZE : Nat := 32

/-- The constant `default_curve` (build with uECC_SUPPORTS_secp256r1). -/
def default_curve : Nat := TLS_EXT_ELLIPTIC_CURVES_SECP256R1

/-- Modelled from the spec: `dtls_uint32_to_int` of numeric.h, which is not
among the sources; it reads four bytes as a big-endian 32-bit value. -/
def dtls_uint32_to_int (field : List Nat) : Nat :=
  field.getD 0 0 * 16777216 + field.getD 1 0 * 65536 + field.getD 2 0 * 256 + field.getD 3 0

/-- Modelled from the spec: the curve provider (micro-ecc is not among the
sources), consumed through its operations.  A curve is a handle; an operation
that fills a buffer yields its `int` result and the bytes it leaves there.
`make_key` takes the buffers `public_key`, `private_key`; `shared_secret` takes
`public_key`, `private_key` and the buffer `secret`; `sign` takes
`private_key`, `message_hash`, `hash_size` and yields the bytes of
`signature`; `verify` takes `public_key`, `message_hash`, `hash_size` and
`signature`. -/
structure uECC where
  secp256r1 : Nat
  curve_private_key_size : Nat → Int
  curve_public_key_size : Nat → Int
  make_key : List Nat → List Nat → Nat → Int × List Nat × List Nat
  valid_public_key : List Nat → Nat → Int
  shared_secret : List Nat → List Nat → List Nat → Nat → Int × List Nat
  sign : List Nat → List Nat → Nat → Nat → Int × List Nat
  verify : List Nat → List Nat → Nat → List Nat → Nat → Int

/-- The provider operations a call invokes, in order. -/
inductive CurveOp where
  | make_key
  | valid_public_key
  | shared_secret
  | sign
  | verify
deriving DecidableEq, Repr

/-- The table `known_curves` of `get_uecc_curve` (build with
uECC_SUPPORTS_secp256r1): pairs of identifier and curve handle. -/
def known_curves (U : uECC) : List (Nat × Nat) :=
  [(TLS_EXT_ELLIPTIC_CURVES_SECP256R1, U.secp256r1)]

/-- The loop of `get_uecc_curve` over the table. -/
def get_uecc_curve_loop (curve : Nat) : List (Nat × Nat) → Int × Option Nat
  | [] => (0, none)
  | e :: rest => if e.1 = curve then (1, some e.2) else get_uecc_curve_loop curve rest

/-- The function `get_uecc_curve`: its `int` result and the handle stored to
`*result`, if any. -/
def get_uecc_curve (U : uECC) (curve : Nat) : Int × Option Nat :=
  get_uecc_curve_loop curve (known_curves U)

/-- The function `dtls_ecdh_pre_master_secret2`: result `int`, the buffer
`result` and the provider operations invoked. -/
def dtls_ecdh_pre_master_secret2 (U : uECC) (priv_key pub_key : List Nat) (key_size : Nat)
    (curve : Nat) (result : List Nat) (result_len : Nat) : Int × List Nat × List CurveOp :=
  let g := get_uecc_curve U curve
  if g.1 = 0 then (-1, result, [])
  else
    let uecc_curve := g.2.getD 0
    if result_len < key_size then (-1, result, [])
    else
      let _valid := U.valid_public_key pub_key uecc_curve
      let s := U.shared_secret pub_key priv_key result uecc_curve
      if s.1 = 0 then (0, s.2, [CurveOp.valid_public_key, CurveOp.shared_secret])
      else (to_int key_size, s.2, [CurveOp.valid_public_key, CurveOp.shared_secret])

/-- The function `dtls_ecdh_pre_master_secret`; the local `pub_key` starts
as zero bytes. -/
def dtls_ecdh_pre_master_secret (U : uECC) (priv_key pub_key_x pub_key_y : List Nat)
    (key_size : Nat) (result : List Nat) (result_len : Nat) : Int × List Nat × List CurveOp :=
  let curve := default_curve
  if result_len < key_size then (-1, result, [])
  else
    let pub_key := List.replicate (2 * DTLS_EC_KEY_SIZE) 0
    let pub_key := store pub_key 0 (load pub_key_x 0 DTLS_EC_KEY_SIZE)
    let pub_key := store pub_key DTLS_EC_KEY_SIZE (load pub_key_y 0 DTLS_EC_KEY_SIZE)
    dtls_ecdh_pre_master_secret2 U priv_key pub_key key_size curve result result_len

/-- The function `dtls_ecdsa_generate_key2`: result `int`, the buffers
`priv_key` and `pub_key`, and the provider operations invoked.  The asserts
are the empty macro. -/
def dtls_ecdsa_generate_key2 (U : uECC) (priv_key pub_key : List Nat) (key_size : Nat)
    (curve : Nat) : Int × List Nat × List Nat × List CurveOp :=
  let g := get_uecc_curve U curve
  if g.1 = 0 then (-1, priv_key, pub_key, [])
  else
    let uecc_curve := g.2.getD 0
    let m := U.make_key pub_key priv_key uecc_curve
    if m.1 = 0 then (0, m.2.2, m.2.1, [CurveOp.make_key])
    else if U.valid_public_key m.2.1 uecc_curve = 0 then
      (0, m.2.2, m.2.1, [CurveOp.make_key, CurveOp.valid_public_key])
    else
      (U.curve_private_key_size uecc_curve, m.2.2, m.2.1,
        [CurveOp.make_key, CurveOp.valid_public_key])

/-- The loop of `dtls_ec_key_to_uint32`, with the counter `n = i + 1`: it
stores the big-endian word at `key + koff + 4 * i` and advances `result` by
one word, for `i` going down to 0. -/
def ec_key_to_uint32_loop (key : List Nat) (koff : Nat) : Nat → List Nat → Nat → List Nat
  | 0, result, _ => result
  | i + 1, result, off =>
    ec_key_to_uint32_loop key koff i
      (result.set off (dtls_uint32_to_int (load key (koff + i * 4) 4))) (off + 1)

/-- The function `dtls_ec_key_to_uint32`, reading at `key + koff` and writing
the words of `result` from index 0. -/
def dtls_ec_key_to_uint32 (ws : Nat) (key : List Nat) (koff : Nat) (key_size : Nat)
    (result : List Nat) : List Nat :=
  let i : Int := to_int (to_size_t ws (((key_size / 4 : Nat) : Int) - 1))
  ec_key_to_uint32_loop key koff (i + 1).toNat result 0

/-- The function `dtls_ecdsa_create_sig_hash2`: result `int`, the word arrays
`point_r` and `point_s`, and the provider operations invoked.  The asserts are
the empty macro; the local `sign` holds what the provider leaves in it. -/
def dtls_ecdsa_create_sig_hash2 (ws : Nat) (U : uECC) (priv_key : List Nat) (key_size : Nat)
    (sign_hash : List Nat) (sign_hash_size : Nat) (curve : Nat)
    (point_r point_s : List Nat) : Int × List Nat × List Nat × List CurveOp :=
  let g := get_uecc_curve U curve
  if g.1 = 0 then (-1, point_r, point_s, [])
  else
    let uecc_curve := g.2.getD 0
    let curve_size := U.curve_private_key_size uecc_curve
    let s := U.sign priv_key sign_hash sign_hash_size uecc_curve
    if s.1 = 0 then (-1, point_r, point_s, [CurveOp.sign])
    else
      let point_r := dtls_ec_key_to_uint32 ws s.2 0 (to_size_t ws curve_size) point_r
      let point_s := dtls_ec_key_to_uint32 ws s.2 curve_size.toNat (to_size_t ws curve_size)
        point_s
      (to_int (2 * curve_size), point_r, point_s, [CurveOp.sign])

/-- The function `dtls_ecdsa_create_sig_hash`: the word arrays and the
provider operations; the result of the call it makes is dropped. -/
def dtls_ecdsa_create_sig_hash (ws : Nat) (U : uECC) (priv_key : List Nat) (key_size : Nat)
    (sign_hash : List Nat) (sign_hash_size : Nat) (point_r point_s : List Nat) :
    List Nat × List Nat × List CurveOp :=
  (dtls_ecdsa_create_sig_hash2 ws U priv_key key_size sign_hash sign_hash_size default_curve
    point_r point_s).2

/-- Modelled from the spec: the hash provider, consumed through
init/update/finalize; the digest is the function `hash` of the bytes fed. -/
def dtls_hash_finalize (hash : List Nat → List Nat) (data : List Nat) : List Nat :=
  hash data

/-- The digest both `dtls_ecdsa_create_sig` and `dtls_ecdsa_verify_sig` compute:
the context is fed client random, server random and key exchange parameters. -/
def keyx_digest (hash : List Nat → List Nat) (client_random server_random keyx_params : List Nat) :
    List Nat :=
  let data : List Nat := []
  let data := data ++ client_random
  let data := data ++ server_random
  let data := data ++ keyx_params
  dtls_hash_finalize hash data

/-- The function `dtls_ecdsa_create_sig`. -/
def dtls_ecdsa_create_sig (ws : Nat) (U : uECC) (hash : List Nat → List Nat)
    (priv_key : List Nat) (key_size : Nat) (client_random server_random keyx_params : List Nat)
    (point_r point_s : List Nat) : List Nat × List Nat × List CurveOp :=
  let sha256hash := keyx_digest hash client_random server_random keyx_params
  dtls_ecdsa_create_sig_hash ws U priv_key key_size sha256hash DTLS_HMAC_DIGEST_SIZE
    point_r point_s

/-- The function `dtls_ecdsa_verify_sig_hash2`: result `int` and the provider
operations invoked.  `result_r` and `result_s` are cast to void; the local
`sign` is cleared and handed to the provider.  The asserts are the empty
macro. -/
def dtls_ecdsa_verify_sig_hash2 (U : uECC) (pub_key : List Nat) (key_size : Nat)
    (sign_hash : List Nat) (sign_hash_size : Nat) (curve : Nat)
    (result_r result_s : List Nat) : Int × List CurveOp :=
  let g := get_uecc_curve U curve
  if g.1 = 0 then (-1, [])
  else
    let uecc_curve := g.2.getD 0
    let sign := List.replicate (2 * DTLS_EC_KEY_SIZE) 0
    (U.verify pub_key sign_hash sign_hash_size sign uecc_curve, [CurveOp.verify])

/-- The function `dtls_ecdsa_verify_sig_hash`.  The source does not initialise
the local array `pub_key` of 2 * DTLS_EC_KEY_SIZE bytes: `stack` is what the
array holds on entry.  The two `memcpy` write `key_size` bytes each, so bytes
of `stack` from index `2 * key_size` on reach the provider.  The result is
`none` when `key_size * 2` exceeds the array: the assert fails or, with the
empty assert macro, the copies write past the array. -/
def dtls_ecdsa_verify_sig_hash (U : uECC) (stack pub_key_x pub_key_y : List Nat)
    (key_size : Nat) (sign_hash : List Nat) (sign_hash_size : Nat)
    (result_r result_s : List Nat) : Option (Int × List CurveOp) :=
  let curve := default_curve
  let pub_key := stack
  if 2 * DTLS_EC_KEY_SIZE < key_size * 2 then none
  else
    let pub_key := store pub_key 0 (load pub_key_x 0 key_size)
    let pub_key := store pub_key key_size (load pub_key_y 0 key_size)
    some (dtls_ecdsa_verify_sig_hash2 U pub_key (key_size * 2) sign_hash sign_hash_size curve
      result_r result_s)

/-- The function `dtls_ecdsa_verify_sig`; `stack` is what the local `pub_key`
of the function it calls holds on entry. -/
def dtls_ecdsa_verify_sig (U : uECC) (hash : List Nat → List Nat)
    (stack pub_key_x pub_key_y : List Nat) (key_size : Nat)
    (client_random server_random keyx_params : List Nat) (result_r result_s : List Nat) :
    Option (Int × List CurveOp) :=
  let sha256hash := keyx_digest hash client_random server_random keyx_params
  dtls_ecdsa_verify_sig_hash U stack pub_key_x pub_key_y key_size sha256hash
    DTLS_HMAC_DIGEST_SIZE result_r result_s

/-- The 64 signature bytes of the toy curve provider, none of them zero. -/
def toy_signature (priv_key message_hash : List Nat) : List Nat :=
  (List.range 64).map (fun i => (i + priv_key.sum + message_hash.sum) % 251 + 1)

/-- A toy curve provider used to evaluate the definitions: the public key of
a private key is the private key twice, a private key of zero bytes makes
`shared_secret` and `sign` fail, the shared secret is the bytewise sum, and
`verify` accepts exactly the signature `sign` produces for the key pair. -/
def toy_uecc : uECC where
  secp256r1 := 1
  curve_private_key_size := fun _ => 32
  curve_public_key_size := fun _ => 64
  make_key := fun _ _ _ => (1, List.replicate 64 7, List.replicate 32 7)
  valid_public_key := fun public_key _ =>
    if public_key.take 32 = (public_key.drop 32).take 32 then 1 else 0
  shared_secret := fun public_key private_key secret _ =>
    if private_key.sum = 0 then (0, secret)
    else (1, store secret 0
      (List.zipWith (fun a b => (a + b) % 256) (public_key.take 32) (private_key.take 32)))
  sign := fun private_key message_hash _ _ =>
    if private_key.sum = 0 then (0, []) else (1, toy_signature private_key message_hash)
  verify := fun public_key message_hash _ signature _ =>
    if signature = toy_signature (public_key.take 32) message_hash then 1 else 0

/-- A toy hash with a 32-byte digest. -/
def toy_hash (data : List Nat) : List Nat :=
  List.replicate 32 ((data.sum + data.length) % 256)

/-- A 32-byte private key of the toy provider. -/
def toy_priv : List Nat := List.replicate 32 3

/-- The words the loop of `dtls_ec_key_to_uint32` writes for `n` words: the
word read at byte offset `4 * (n - 1)` first. -/
def ec_key_words (key : List Nat) (koff : Nat) : Nat → List Nat
  | 0 => []
  | i + 1 => dtls_uint32_to_int (load key (koff + i * 4) 4) :: ec_key_words key koff i

/-- The eight words the code leaves for the 32 bytes at `sig + off`: word `j`
is the big-endian value of the four bytes at `off + 4 * (7 - j)`, so the
least-significant word comes first. -/
def sig_words (sig : List Nat) (off : Nat) : List Nat :=
  (List.range 8).map (fun j => be_value (load sig (off + 4 * (7 - j)) 4))

/-- A curve provider whose `verify` answers with the byte at index 32 of the
public key it is handed; it makes visible which bytes reach the provider. -/
def probe_uecc : uECC :=
  { toy_uecc with verify := fun public_key _ _ _ _ => (public_key.getD 32 0 : Nat) }

/-! ## Lemmas on memory and on the key derivation loop -/

theorem store_length (bs : List Nat) : ∀ (mem : List Nat) (off : Nat),
    (store mem off bs).length = mem.length := by
  induction bs with
  | nil => intro mem off; rfl
  | cons b bs ih => intro mem off; simp [store, ih]

theorem store_append (bs : List Nat) : ∀ (pre rest : List Nat),
    bs.length ≤ rest.length →
    store (pre ++ rest) pre.length bs = pre ++ bs ++ rest.drop bs.length := by
  induction bs with
  | nil => intro pre rest _; simp [store]
  | cons b bs ih =>
    intro pre rest h
    cases rest with
    | nil => simp at h
    | cons r rs =>
      have h2 : bs.length ≤ rs.length := by simpa using h
      have e : (pre ++ r :: rs).set pre.length b = (pre ++ [b]) ++ rs := by
        simp [List.set_append]
      have e2 : pre.length + 1 = (pre ++ [b]).length := by simp
      simp only [store]
      rw [e, e2, ih (pre ++ [b]) rs h2]
      simp

theorem store_zero (bs mem : List Nat) (h : bs.length ≤ mem.length) :
    store mem 0 bs = bs ++ mem.drop bs.length := by
  have := store_append bs [] mem h
  simpa using this

theorem update_seeds (c : dtls_hmac_context_t) (label r1 r2 : Option (List Nat)) :
    HMAC_UPDATE_SEED (HMAC_UPDATE_SEED (HMAC_UPDATE_SEED c label) r1) r2 =
      { key := c.key, data := c.data ++ (seed_bytes label ++ seed_bytes r1 ++ seed_bytes r2) } := by
  cases label <;> cases r1 <;> cases r2 <;>
    simp [HMAC_UPDATE_SEED, dtls_hmac_update, seed_bytes]

theorem p_hash_loop_spec (hmac : List Nat → List Nat → List Nat) (key : List Nat)
    (label r1 r2 : Option (List Nat)) (S : List Nat)
    (hS : seed_bytes label ++ seed_bytes r1 ++ seed_bytes r2 = S) (buflen d : Nat)
    (hd : ∀ k m, (hmac k m).length = d) (hpos : 0 < d) :
    ∀ (fuel j c : Nat) (pre rest : List Nat),
      pre.length = j * d → buflen - j * d < fuel → j * d ≤ buflen →
      buflen - j * d ≤ rest.length → buflen - j * d ≤ c * d →
      dtls_p_hash_loop hmac key label r1 r2 buflen fuel (p_hash_A hmac key S (j + 1))
          d (j * d) (pre ++ rest)
        = some (pre ++ (p_hash_blocks hmac key S j c).take (buflen - j * d)
            ++ rest.drop (buflen - j * d)) := by
  intro fuel
  induction fuel with
  | zero => intro j c pre rest _ h; omega
  | succ fuel ih =>
    intro j c pre rest hpre hfuel hle hrest hc
    have hA : (p_hash_A hmac key S (j + 1)).length = d := hd _ _
    simp only [dtls_p_hash_loop, update_seeds, dtls_hmac_finalize, dtls_hmac_init,
      dtls_hmac_update, List.nil_append, hd, hS]
    rw [List.take_of_length_le (le_of_eq hA)]
    by_cases h1 : j * d < buflen
    · rw [if_pos h1]
      have hc1 : 1 ≤ c := by
        rcases c with _ | c
        · simp at hc; omega
        · omega
      obtain ⟨c', rfl⟩ : ∃ c', c = c' + 1 := ⟨c - 1, by omega⟩
      have hlen : (hmac key (p_hash_A hmac key S (j + 1) ++ S)).length = d := hd _ _
      by_cases h2 : j * d + d < buflen
      · rw [if_pos h2]
        have hjd : (j + 1) * d = j * d + d := by ring
        have hc' : (c' + 1) * d = c' * d + d := by ring
        rw [hc'] at hc
        rw [List.take_of_length_le (le_of_eq hlen), ← hpre,
          store_append _ pre rest (by rw [hlen]; omega), hlen]
        have hpre' : (pre ++ hmac key (p_hash_A hmac key S (j + 1) ++ S)).length
            = (j + 1) * d := by
          rw [List.length_append, hlen, hpre, hjd]
        have hdrop : (rest.drop d).length = rest.length - d := List.length_drop _ _
        have := ih (j + 1) c' (pre ++ hmac key (p_hash_A hmac key S (j + 1) ++ S))
          (rest.drop d) hpre' (by rw [hjd]; omega) (by rw [hjd]; omega)
          (by rw [hjd]; omega) (by rw [hjd]; omega)
        rw [hjd, ← hpre] at this
        rw [show p_hash_A hmac key S (j + 1 + 1) = hmac key (p_hash_A hmac key S (j + 1))
          from rfl] at this
        rw [this]
        simp only [p_hash_blocks, List.take_append_eq_append_take, hlen, List.drop_drop,
          List.append_assoc]
        rw [List.take_of_length_le (i := buflen - pre.length) (by rw [hlen]; omega)]
        congr 4
        · congr 1; omega
        · congr 1; omega
      · rw [if_neg h2, ← hpre]
        have hl2 : ((hmac key (p_hash_A hmac key S (j + 1) ++ S)).take
                (buflen - pre.length)).length = buflen - pre.length := by
          rw [List.length_take, hlen]; omega
        rw [store_append _ pre rest (by rw [hl2]; omega), hl2]
        simp only [p_hash_blocks]
        rw [List.take_append_of_le_length (by rw [hlen]; omega)]
    · rw [if_neg h1]
      have : buflen - j * d = 0 := by omega
      simp [this]


theorem p_hash_loop_congr (hmac : List Nat → List Nat → List Nat) (key : List Nat)
    (label r1 r2 r1' r2' : Option (List Nat)) (buflen : Nat)
    (h : seed_bytes r1 ++ seed_bytes r2 = seed_bytes r1' ++ seed_bytes r2') :
    ∀ (fuel : Nat) (A : List Nat) (dlen len : Nat) (buf : List Nat),
      dtls_p_hash_loop hmac key label r1 r2 buflen fuel A dlen len buf
        = dtls_p_hash_loop hmac key label r1' r2' buflen fuel A dlen len buf := by
  have hS : seed_bytes label ++ seed_bytes r1 ++ seed_bytes r2
      = seed_bytes label ++ seed_bytes r1' ++ seed_bytes r2' := by
    rw [List.append_assoc, h, List.append_assoc]
  intro fuel
  induction fuel with
  | zero => intro A dlen len buf; rfl
  | succ fuel ih =>
    intro A dlen len buf
    simp only [dtls_p_hash_loop, update_seeds, hS, ih]

theorem p_hash_blocks_length (hmac : List Nat → List Nat → List Nat) (key S : List Nat)
    (d : Nat) (hd : ∀ k m, (hmac k m).length = d) :
    ∀ (k j : Nat), (p_hash_blocks hmac key S j k).length = k * d := by
  intro k
  induction k with
  | zero => intro j; simp [p_hash_blocks]
  | succ k ih => intro j; simp [p_hash_blocks, hd, ih]; ring

theorem dtls_p_hash_eq (hmac : List Nat → List Nat → List Nat) (d : Nat)
    (hd : ∀ k m, (hmac k m).length = d) (hpos : 0 < d)
    (key : List Nat) (label seed1 seed2 : Option (List Nat)) (buf : List Nat) (n fuel k : Nat)
    (hfuel : n < fuel) (hn : n ≤ buf.length) (hk : n ≤ k * d) :
    dtls_p_hash hmac fuel key label seed1 seed2 buf n
      = some (n, (p_hash_blocks hmac key
          (seed_bytes label ++ seed_bytes seed1 ++ seed_bytes seed2) 0 k).take n
            ++ buf.drop n) := by
  have := p_hash_loop_spec hmac key label seed1 seed2 _ rfl n d hd hpos fuel 0 k [] buf
    (by simp) (by simpa using hfuel) (by simp) (by simpa using hn) (by simpa using hk)
  simp only [Nat.zero_mul, Nat.sub_zero, List.nil_append] at this
  simp only [dtls_p_hash, update_seeds, dtls_hmac_finalize, dtls_hmac_init, List.nil_append, hd]
  rw [show hmac key (seed_bytes label ++ seed_bytes seed1 ++ seed_bytes seed2)
    = p_hash_A hmac key (seed_bytes label ++ seed_bytes seed1 ++ seed_bytes seed2) (0 + 1)
    from rfl, this]

theorem dtls_prf_eq (hmac : List Nat → List Nat → List Nat) (d : Nat)
    (hd : ∀ k m, (hmac k m).length = d) (hpos : 0 < d)
    (key : List Nat) (label seed1 seed2 : Option (List Nat)) (buf : List Nat) (n fuel k : Nat)
    (hfuel : n < fuel) (hn : n ≤ buf.length) (hk : n ≤ k * d) :
    dtls_prf hmac fuel key label seed1 seed2 buf n
      = some (n, (p_hash_blocks hmac key
          (seed_bytes label ++ seed_bytes seed1 ++ seed_bytes seed2) 0 k).take n
            ++ buf.drop n) := by
  have hz : store buf 0 (List.replicate n 0) = List.replicate n 0 ++ buf.drop n := by
    have := store_zero (List.replicate n 0) buf (by simpa using hn)
    simpa using this
  unfold dtls_prf
  rw [hz, dtls_p_hash_eq hmac d hd hpos key label seed1 seed2 _ n fuel k hfuel
    (by simp) hk]
  simp

/-- C1: with HMAC a function of fixed digest length `d > 0`, `dtls_p_hash` and
`dtls_prf` return `n` and leave in `buf[0..n)` the first `n` bytes of
HMAC(key, A(1)||S) || HMAC(key, A(2)||S) || ... with S = label||seed1||seed2,
A(0) = S, A(i) = HMAC(key, A(i-1)); the bytes of `buf` from index `n` on are
unchanged.  This holds for every fuel above `n`. -/
theorem dtls_p_hash_spec (hmac : List Nat → List Nat → List Nat) (d : Nat)
    (hd : ∀ k m, (hmac k m).length = d) (hpos : 0 < d)
    (key : List Nat) (label seed1 seed2 : Option (List Nat)) (buf : List Nat) (n fuel k : Nat)
    (hfuel : n < fuel) (hn : n ≤ buf.length) (hk : n ≤ k * d) :
    (dtls_p_hash hmac fuel key label seed1 seed2 buf n
      = some (n, (p_hash_blocks hmac key
          (seed_bytes label ++ seed_bytes seed1 ++ seed_bytes seed2) 0 k).take n
            ++ buf.drop n))
    ∧ (dtls_prf hmac fuel key label seed1 seed2 buf n
      = some (n, (p_hash_blocks hmac key
          (seed_bytes label ++ seed_bytes seed1 ++ seed_bytes seed2) 0 k).take n
            ++ buf.drop n))
    ∧ ((p_hash_blocks hmac key
          (seed_bytes label ++ seed_bytes seed1 ++ seed_bytes seed2) 0 k).take n).length = n := by
  refine ⟨dtls_p_hash_eq hmac d hd hpos key label seed1 seed2 buf n fuel k hfuel hn hk,
    dtls_prf_eq hmac d hd hpos key label seed1 seed2 buf n fuel k hfuel hn hk, ?_⟩
  · rw [List.length_take, p_hash_blocks_length hmac key _ d hd]
    omega

/-- Witness for C1: the toy keyed function, a 7-byte buffer, 5 bytes asked. -/
theorem dtls_p_hash_spec_witness :
    (dtls_p_hash toy_hmac 6 [1, 2] (some [5]) (some [6, 7]) none [9, 9, 9, 9, 9, 9, 9] 5
      = some (5, (p_hash_blocks toy_hmac [1, 2]
          (seed_bytes (some [5]) ++ seed_bytes (some [6, 7]) ++ seed_bytes none) 0 3).take 5
            ++ [9, 9, 9, 9, 9, 9, 9].drop 5))
    ∧ (dtls_prf toy_hmac 6 [1, 2] (some [5]) (some [6, 7]) none [9, 9, 9, 9, 9, 9, 9] 5
      = some (5, (p_hash_blocks toy_hmac [1, 2]
          (seed_bytes (some [5]) ++ seed_bytes (some [6, 7]) ++ seed_bytes none) 0 3).take 5
            ++ [9, 9, 9, 9, 9, 9, 9].drop 5))
    ∧ ((p_hash_blocks toy_hmac [1, 2]
          (seed_bytes (some [5]) ++ seed_bytes (some [6, 7]) ++ seed_bytes none) 0 3).take 5).length
        = 5 :=
  dtls_p_hash_spec toy_hmac 2 (fun _ _ => rfl) (by decide) [1, 2] (some [5]) (some [6, 7]) none
    [9, 9, 9, 9, 9, 9, 9] 5 6 3 (by decide) (by decide) (by decide)

/-- C2: the output of `dtls_prf` depends only on seed1||seed2, a NULL seed
part counting as the empty string; and with a fixed digest length `d > 0`
and fuel above the output length both calls do return. -/
theorem dtls_prf_seed_concat (hmac : List Nat → List Nat → List Nat) (fuel : Nat)
    (key : List Nat) (label seed1 seed2 seed1' seed2' : Option (List Nat))
    (buf : List Nat) (buflen : Nat)
    (h : seed_bytes seed1 ++ seed_bytes seed2 = seed_bytes seed1' ++ seed_bytes seed2') :
    dtls_prf hmac fuel key label seed1 seed2 buf buflen
        = dtls_prf hmac fuel key label seed1' seed2' buf buflen
    ∧ (∀ d, (∀ k m, (hmac k m).length = d) → 0 < d → buflen < fuel → buflen ≤ buf.length →
        (dtls_prf hmac fuel key label seed1 seed2 buf buflen).isSome = true) := by
  constructor
  · have hS : seed_bytes label ++ seed_bytes seed1 ++ seed_bytes seed2
        = seed_bytes label ++ seed_bytes seed1' ++ seed_bytes seed2' := by
      rw [List.append_assoc, h, List.append_assoc]
    simp only [dtls_prf, dtls_p_hash, update_seeds, hS,
      p_hash_loop_congr hmac key label seed1 seed2 seed1' seed2' buflen h]
  · intro d hd hpos hfuel hn
    have := dtls_prf_eq hmac d hd hpos key label seed1 seed2 buf buflen fuel buflen
      hfuel hn (Nat.le_mul_of_pos_right buflen hpos)
    simp [this]

/-- Witness for C2: the seed "6,7,8" split as NULL + [6,7,8] and as [6] + [7,8]. -/
theorem dtls_prf_seed_concat_witness :
    dtls_prf toy_hmac 6 [1, 2] (some [5]) none (some [6, 7, 8]) [9, 9, 9, 9, 9, 9, 9] 5
        = dtls_prf toy_hmac 6 [1, 2] (some [5]) (some [6]) (some [7, 8]) [9, 9, 9, 9, 9, 9, 9] 5
    ∧ (∀ d, (∀ k m, (toy_hmac k m).length = d) → 0 < d → 5 < 6 →
        5 ≤ [9, 9, 9, 9, 9, 9, 9].length →
        (dtls_prf toy_hmac 6 [1, 2] (some [5]) none (some [6, 7, 8])
          [9, 9, 9, 9, 9, 9, 9] 5).isSome = true) :=
  dtls_prf_seed_concat toy_hmac 6 [1, 2] (some [5]) none (some [6, 7, 8]) (some [6]) (some [7, 8])
    [9, 9, 9, 9, 9, 9, 9] 5 (by decide)

/-- C3: `dtls_mac` leaves in the tag buffer the finalisation of the context
after it was fed the 8 epoch/sequence bytes `E` = record[3..11), then the 3
type/version bytes `H` = record[0..3), then [n div 256, n mod 256], then the
`n` payload bytes, in this order. -/
theorem dtls_mac_spec (hmac : List Nat → List Nat → List Nat) (c : dtls_hmac_context_t)
    (H E rest payload extra buf : List Nat)
    (hH : H.length = 3) (hE : E.length = 8) (hn : payload.length < 65536)
    (hbuf : (hmac c.key (c.data ++ E ++ H ++ [payload.length / 256, payload.length % 256]
      ++ payload)).length ≤ buf.length) :
    dtls_mac hmac c (H ++ E ++ rest) (payload ++ extra) payload.length buf
      = dtls_hmac_finalize hmac
          (dtls_hmac_update (dtls_hmac_update (dtls_hmac_update (dtls_hmac_update c E) H)
            [payload.length / 256, payload.length % 256]) payload)
        ++ buf.drop (hmac c.key (c.data ++ E ++ H
            ++ [payload.length / 256, payload.length % 256] ++ payload)).length
    ∧ dtls_hmac_finalize hmac
          (dtls_hmac_update (dtls_hmac_update (dtls_hmac_update (dtls_hmac_update c E) H)
            [payload.length / 256, payload.length % 256]) payload)
        = hmac c.key (c.data ++ E ++ H ++ [payload.length / 256, payload.length % 256]
            ++ payload) := by
  have e1 : load (H ++ E ++ rest) 3 (2 + 6) = E := by
    simp [load, List.append_assoc, List.drop_append_eq_append_drop, hH, hE,
      List.take_append_eq_append_take]
  have e2 : load (H ++ E ++ rest) 0 (1 + 2) = H := by
    simp [load, List.append_assoc, List.take_append_eq_append_take, hH]
  have e3 : load (dtls_int_to_uint16 payload.length) 0 2
      = [payload.length / 256, payload.length % 256] := by
    simp [load, dtls_int_to_uint16, Nat.mod_eq_of_lt hn]
  have e4 : load (payload ++ extra) 0 payload.length = payload := by
    simp [load]
  have e5 : dtls_hmac_finalize hmac
          (dtls_hmac_update (dtls_hmac_update (dtls_hmac_update (dtls_hmac_update c E) H)
            [payload.length / 256, payload.length % 256]) payload)
        = hmac c.key (c.data ++ E ++ H ++ [payload.length / 256, payload.length % 256]
            ++ payload) := by
    simp [dtls_hmac_finalize, dtls_hmac_update]
  refine ⟨?_, e5⟩
  unfold dtls_mac
  simp only [e1, e2, e3, e4]
  rw [e5, store_zero _ _ hbuf]

/-- Witness for C3: a 13-byte record and the 5-byte payload of the scenario. -/
theorem dtls_mac_spec_witness :
    dtls_mac toy_hmac (dtls_hmac_init [1, 2])
        ([23, 254, 253] ++ [0, 1, 0, 0, 0, 0, 0, 7] ++ [0, 5])
        ([10, 11, 12, 13, 14] ++ [99]) [10, 11, 12, 13, 14].length [0, 0, 0, 0]
      = dtls_hmac_finalize toy_hmac
          (dtls_hmac_update (dtls_hmac_update (dtls_hmac_update
            (dtls_hmac_update (dtls_hmac_init [1, 2]) [0, 1, 0, 0, 0, 0, 0, 7]) [23, 254, 253])
            [[10, 11, 12, 13, 14].length / 256, [10, 11, 12, 13, 14].length % 256])
            [10, 11, 12, 13, 14])
        ++ [0, 0, 0, 0].drop (toy_hmac (dtls_hmac_init [1, 2]).key
            ((dtls_hmac_init [1, 2]).data ++ [0, 1, 0, 0, 0, 0, 0, 7] ++ [23, 254, 253]
              ++ [[10, 11, 12, 13, 14].length / 256, [10, 11, 12, 13, 14].length % 256]
              ++ [10, 11, 12, 13, 14])).length
    ∧ dtls_hmac_finalize toy_hmac
          (dtls_hmac_update (dtls_hmac_update (dtls_hmac_update
            (dtls_hmac_update (dtls_hmac_init [1, 2]) [0, 1, 0, 0, 0, 0, 0, 7]) [23, 254, 253])
            [[10, 11, 12, 13, 14].length / 256, [10, 11, 12, 13, 14].length % 256])
            [10, 11, 12, 13, 14])
        = toy_hmac (dtls_hmac_init [1, 2]).key
            ((dtls_hmac_init [1, 2]).data ++ [0, 1, 0, 0, 0, 0, 0, 7] ++ [23, 254, 253]
              ++ [[10, 11, 12, 13, 14].length / 256, [10, 11, 12, 13, 14].length % 256]
              ++ [10, 11, 12, 13, 14]) :=
  dtls_mac_spec toy_hmac (dtls_hmac_init [1, 2]) [23, 254, 253] [0, 1, 0, 0, 0, 0, 0, 7] [0, 5]
    [10, 11, 12, 13, 14] [99] [0, 0, 0, 0] (by decide) (by decide) (by decide) (by decide)


/-! ## Lemmas on the integer conversions and the AEAD entry points -/

theorem to_int_to_size_t (ws : Nat) (hws : 32 ≤ ws) (r : Int)
    (hlo : -2 ^ 31 ≤ r) (hhi : r < 2 ^ 31) : to_int (to_size_t ws r) = r := by
  unfold to_int to_size_t
  have hpos : (0 : Int) < 2 ^ ws := by positivity
  rw [Int.toNat_of_nonneg (Int.emod_nonneg _ (ne_of_gt hpos))]
  have hdvd : ((2 : Int) ^ 32) ∣ 2 ^ ws := pow_dvd_pow 2 hws
  have h1 : (r % 2 ^ ws + 2 ^ 31) % 2 ^ 32 = (r + 2 ^ 31) % 2 ^ 32 := by
    rw [Int.add_emod, Int.emod_emod_of_dvd _ hdvd, ← Int.add_emod]
  rw [h1, Int.emod_eq_of_lt (by omega) (by omega)]
  omega

theorem to_int_to_size_t_nat (ws : Nat) (hws : 32 ≤ ws) (n : Nat) (hhi : n < 2 ^ 31) :
    to_int (to_size_t ws (n : Int)) = (n : Int) :=
  to_int_to_size_t ws hws n (by omega) (by exact_mod_cast hhi)


theorem dtls_encrypt_params_eq {KS : Type} (ws : Nat) (P : CipherProvider KS) (w : World KS)
    (hfree : w.cipher_context_mutex = false) (params : dtls_ccm_params_t)
    (src : Option (List Nat)) (length : Nat) (buf key aad : List Nat) :
    dtls_encrypt_params ws P w params src length buf key aad
      = if (P.rijndael_set_key_enc_only w.cipher_context.ctx key
            (to_int (to_size_t ws (8 * key.length)))).1 < 0 then
          some ((P.rijndael_set_key_enc_only w.cipher_context.ctx key
              (to_int (to_size_t ws (8 * key.length)))).1, buf,
            { cipher_context :=
                { ctx := (P.rijndael_set_key_enc_only w.cipher_context.ctx key
                    (to_int (to_size_t ws (8 * key.length)))).2,
                  tag_length := params.tag_length, l := params.l },
              cipher_context_mutex := false,
              trace := w.trace ++ [Event.mutex_lock, Event.key_install true,
                Event.mutex_unlock] })
        else
          some (to_int (to_size_t ws (P.dtls_ccm_encrypt_message
                (P.rijndael_set_key_enc_only w.cipher_context.ctx key
                  (to_int (to_size_t ws (8 * key.length)))).2
                params.tag_length params.l params.nonce (memmove_src src length buf)
                length aad).1),
            (P.dtls_ccm_encrypt_message
                (P.rijndael_set_key_enc_only w.cipher_context.ctx key
                  (to_int (to_size_t ws (8 * key.length)))).2
                params.tag_length params.l params.nonce (memmove_src src length buf)
                length aad).2,
            { cipher_context :=
                { ctx := (P.rijndael_set_key_enc_only w.cipher_context.ctx key
                    (to_int (to_size_t ws (8 * key.length)))).2,
                  tag_length := params.tag_length, l := params.l },
              cipher_context_mutex := false,
              trace := w.trace ++ [Event.mutex_lock, Event.key_install true,
                Event.ccm_encrypt true, Event.mutex_unlock] }) := by
  simp only [dtls_encrypt_params, dtls_cipher_context_get, hfree, install_key,
    dtls_cipher_context_release, dtls_ccm_encrypt, Bool.false_eq_true, if_false,
    List.append_assoc, List.singleton_append, List.cons_append, List.nil_append]

theorem dtls_decrypt_params_eq {KS : Type} (ws : Nat) (P : CipherProvider KS) (w : World KS)
    (hfree : w.cipher_context_mutex = false) (params : dtls_ccm_params_t)
    (src : Option (List Nat)) (length : Nat) (buf key aad : List Nat) :
    dtls_decrypt_params ws P w params src length buf key aad
      = if (P.rijndael_set_key_enc_only w.cipher_context.ctx key
            (to_int (to_size_t ws (8 * key.length)))).1 < 0 then
          some ((P.rijndael_set_key_enc_only w.cipher_context.ctx key
              (to_int (to_size_t ws (8 * key.length)))).1, buf,
            { cipher_context :=
                { ctx := (P.rijndael_set_key_enc_only w.cipher_context.ctx key
                    (to_int (to_size_t ws (8 * key.length)))).2,
                  tag_length := params.tag_length, l := params.l },
              cipher_context_mutex := false,
              trace := w.trace ++ [Event.mutex_lock, Event.key_install true,
                Event.mutex_unlock] })
        else
          some (to_int (to_size_t ws (P.dtls_ccm_decrypt_message
                (P.rijndael_set_key_enc_only w.cipher_context.ctx key
                  (to_int (to_size_t ws (8 * key.length)))).2
                params.tag_length params.l params.nonce (memmove_src src length buf)
                length aad).1),
            (P.dtls_ccm_decrypt_message
                (P.rijndael_set_key_enc_only w.cipher_context.ctx key
                  (to_int (to_size_t ws (8 * key.length)))).2
                params.tag_length params.l params.nonce (memmove_src src length buf)
                length aad).2,
            { cipher_context :=
                { ctx := (P.rijndael_set_key_enc_only w.cipher_context.ctx key
                    (to_int (to_size_t ws (8 * key.length)))).2,
                  tag_length := params.tag_length, l := params.l },
              cipher_context_mutex := false,
              trace := w.trace ++ [Event.mutex_lock, Event.key_install true,
                Event.ccm_decrypt true, Event.mutex_unlock] }) := by
  simp only [dtls_decrypt_params, dtls_cipher_context_get, hfree, install_key,
    dtls_cipher_context_release, dtls_ccm_decrypt, Bool.false_eq_true, if_false,
    List.append_assoc, List.singleton_append, List.cons_append, List.nil_append]

theorem toy_cipher_inverts (fail_code : Int) : ccm_inverts (toy_cipher fail_code) := by
  intro ks ks' key bits M L nonce aad buf buf2 n h1 h2 hn _ h
  have hb : bits = 128 ∨ bits = 192 ∨ bits = 256 := by
    by_contra hb
    simp [toy_cipher, hb] at h1
  have k1 : ((toy_cipher fail_code).rijndael_set_key_enc_only ks key bits).2 = key := by
    simp [toy_cipher, hb]
  have k2 : ((toy_cipher fail_code).rijndael_set_key_enc_only ks' key bits).2 = key := by
    simp [toy_cipher, hb]
  rw [k1] at h ⊢
  rw [k2]
  have e1 : ((toy_cipher fail_code).dtls_ccm_encrypt_message key M L nonce buf n aad).1
      = ((n + M : Nat) : Int) := by simp [toy_cipher]
  have e2 : ((toy_cipher fail_code).dtls_ccm_encrypt_message key M L nonce buf n aad).2
      = (buf.take n).map (fun x => x + 1)
        ++ List.replicate M (key.sum + nonce.sum + aad.sum) ++ buf.drop (n + M) := by
    simp [toy_cipher]
  rw [e1, e2] at h
  rw [e1]
  simp only [Int.toNat_ofNat] at h ⊢
  have hX : ((buf.take n).map (fun x => x + 1)).length = n := by simp [hn]
  have h' : buf2.take (n + M) = (buf.take n).map (fun x => x + 1)
      ++ List.replicate M (key.sum + nonce.sum + aad.sum) := by
    rw [h, List.take_append_of_le_length (by simp [hn])]
    rw [List.take_of_length_le (by simp [hn])]
  have h3 : buf2.take n = (buf.take n).map (fun x => x + 1) := by
    have : (buf2.take (n + M)).take n = buf2.take n := by
      rw [List.take_take]; congr 1; omega
    rw [← this, h', List.take_append_of_le_length (by rw [hX]), List.take_of_length_le (by rw [hX])]
  have h4 : load buf2 n M = List.replicate M (key.sum + nonce.sum + aad.sum) := by
    unfold load
    have : (buf2.take (n + M)).drop n = (buf2.drop n).take M := by
      rw [List.drop_take]; congr 1; omega
    rw [← this, h', List.drop_append_of_le_length (by rw [hX])]
    rw [List.drop_of_length_le (by rw [hX])]
    simp
  have hsub : n + M - M = n := by omega
  simp only [toy_cipher, Nat.le_add_left, if_true, hsub, h4]
  refine ⟨trivial, ?_⟩
  rw [List.take_append_of_le_length (by simp [h3, hn])]
  rw [h3, List.take_of_length_le (by simp [hn])]
  simp [Function.comp_def]


theorem memmove_src_length (src : Option (List Nat)) (n : Nat) (buf : List Nat) :
    (memmove_src src n buf).length = buf.length := by
  cases src with
  | none => rfl
  | some s => simp [memmove_src, store_length]

theorem memmove_src_take (src : Option (List Nat)) (n : Nat) (buf : List Nat)
    (hcap : n ≤ buf.length) (hsrc : (source_bytes src n buf).length = n) :
    (memmove_src src n buf).take n = source_bytes src n buf := by
  cases src with
  | none => rfl
  | some s =>
    simp only [source_bytes] at hsrc ⊢
    have hl : (load s 0 n).length = n := by simpa [load] using hsrc
    simp only [memmove_src]
    rw [store_zero _ _ (by rw [hl]; exact hcap)]
    rw [List.take_append_of_le_length (by rw [hl]), List.take_of_length_le (by rw [hl])]
    simp [load]

/-- C4, amended: for a key the block cipher accepts and a plaintext `p` of
fewer than 2^31 bytes, if the CCM encrypt transform reports a length in
[0, 2^31) then `dtls_encrypt_params` returns that length `m` with output `c`,
and `dtls_decrypt_params` with the same params, key and aad on `c[0..m)`
returns `|p|` and leaves `p` in the first `|p|` bytes of its destination, in
place (`none`) and with distinct source and destination (`some`), given
that the decrypt transform inverts the encrypt transform. -/
theorem encrypt_decrypt_roundtrip {KS : Type} (ws : Nat) (hws : 32 ≤ ws)
    (P : CipherProvider KS) (hinv : ccm_inverts P) (w w2 : World KS)
    (hfree : w.cipher_context_mutex = false) (hfree2 : w2.cipher_context_mutex = false)
    (params : dtls_ccm_params_t) (key aad : List Nat)
    (hkey : ∀ ks, 0 ≤ (P.rijndael_set_key_enc_only ks key
      (to_int (to_size_t ws (8 * key.length)))).1)
    (src : Option (List Nat)) (buf p : List Nat)
    (hp : source_bytes src p.length buf = p) (hcap : p.length ≤ buf.length)
    (hn31 : p.length < 2 ^ 31)
    (hrep0 : 0 ≤ (P.dtls_ccm_encrypt_message
      (P.rijndael_set_key_enc_only w.cipher_context.ctx key
        (to_int (to_size_t ws (8 * key.length)))).2
      params.tag_length params.l params.nonce (memmove_src src p.length buf) p.length aad).1)
    (hrep31 : (P.dtls_ccm_encrypt_message
      (P.rijndael_set_key_enc_only w.cipher_context.ctx key
        (to_int (to_size_t ws (8 * key.length)))).2
      params.tag_length params.l params.nonce (memmove_src src p.length buf) p.length aad).1
        < 2 ^ 31)
    (m : Int) (c : List Nat) (w' : World KS)
    (henc : dtls_encrypt_params ws P w params src p.length buf key aad = some (m, c, w'))
    (src2 : Option (List Nat)) (buf2 : List Nat)
    (hmc : m.toNat ≤ c.length) (hcap2 : m.toNat ≤ buf2.length)
    (hc2 : source_bytes src2 m.toNat buf2 = c.take m.toNat) :
    m = (P.dtls_ccm_encrypt_message
      (P.rijndael_set_key_enc_only w.cipher_context.ctx key
        (to_int (to_size_t ws (8 * key.length)))).2
      params.tag_length params.l params.nonce (memmove_src src p.length buf) p.length aad).1
    ∧ ∃ out w2',
      dtls_decrypt_params ws P w2 params src2 m.toNat buf2 key aad
        = some ((p.length : Int), out, w2')
      ∧ out.take p.length = p := by
  rw [dtls_encrypt_params_eq ws P w hfree, if_neg (not_lt.mpr (hkey _))] at henc
  simp only [Option.some.injEq, Prod.mk.injEq] at henc
  obtain ⟨hm, hc, _⟩ := henc
  rw [to_int_to_size_t ws hws _ (by omega) hrep31] at hm
  refine ⟨hm.symm, ?_⟩
  have hb2 : (memmove_src src2 m.toNat buf2).take m.toNat = c.take m.toNat := by
    rw [memmove_src_take src2 _ buf2 hcap2 (by rw [hc2, List.length_take]; omega), hc2]
  have hb : (memmove_src src p.length buf).take p.length = p := by
    rw [memmove_src_take src _ buf hcap (by rw [hp]), hp]
  have hi := hinv w.cipher_context.ctx w2.cipher_context.ctx key
    (to_int (to_size_t ws (8 * key.length))) params.tag_length params.l params.nonce aad
    (memmove_src src p.length buf) (memmove_src src2 m.toNat buf2) p.length
    (hkey _) (hkey _) (by rw [memmove_src_length]; exact hcap) hrep0
    (by rw [hm, hc]; exact hb2)
  rw [hm] at hi
  rw [dtls_decrypt_params_eq ws P w2 hfree2, if_neg (not_lt.mpr (hkey _))]
  rw [hi.1, to_int_to_size_t_nat ws hws _ hn31]
  exact ⟨_, _, rfl, by rw [hi.2, hb]⟩

theorem key16_bits : to_int (to_size_t 64 (8 * key16.length)) = 128 := by decide

theorem toy_cipher_accepts_key16 (fail_code : Int) (ks : List Nat) :
    (toy_cipher fail_code).rijndael_set_key_enc_only ks key16
      (to_int (to_size_t 64 (8 * key16.length))) = (0, key16) := by
  rw [key16_bits]; rfl

/-- Witness for C4: the toy cipher, a 3-byte plaintext in a distinct source,
M = 2, decryption in place. -/
theorem encrypt_decrypt_roundtrip_witness :
    (5 : Int) = ((toy_cipher (-1)).dtls_ccm_encrypt_message
      (((toy_cipher (-1)).rijndael_set_key_enc_only world0.cipher_context.ctx key16
        (to_int (to_size_t 64 (8 * key16.length)))).2)
      (dtls_ccm_params_t.mk [1, 2] 2 3).tag_length (dtls_ccm_params_t.mk [1, 2] 2 3).l
      (dtls_ccm_params_t.mk [1, 2] 2 3).nonce
      (memmove_src (some [10, 20, 30]) [10, 20, 30].length [0, 0, 0, 0, 0, 0])
      [10, 20, 30].length [5]).1
    ∧ ∃ out w2',
      dtls_decrypt_params 64 (toy_cipher (-1)) world0 (dtls_ccm_params_t.mk [1, 2] 2 3) none
          (5 : Int).toNat [11, 21, 31, 144, 144, 0] key16 [5]
        = some (([10, 20, 30].length : Int), out, w2')
      ∧ out.take [10, 20, 30].length = [10, 20, 30] :=
  encrypt_decrypt_roundtrip 64 (by decide) (toy_cipher (-1)) (toy_cipher_inverts (-1))
    world0 world0 rfl rfl (dtls_ccm_params_t.mk [1, 2] 2 3) key16 [5]
    (fun ks => by rw [toy_cipher_accepts_key16]) (some [10, 20, 30]) [0, 0, 0, 0, 0, 0] [10, 20, 30]
    (by decide) (by decide) (by decide) (by decide) (by decide)
    5 [11, 21, 31, 144, 144, 0]
    { cipher_context := { ctx := key16, tag_length := 2, l := 3 },
      cipher_context_mutex := false,
      trace := [Event.mutex_lock, Event.key_install true, Event.ccm_encrypt true,
        Event.mutex_unlock] }
    (by decide) none [11, 21, 31, 144, 144, 0] (by decide) (by decide) (by decide)


/-- C5, amended: when the key install succeeds and the CCM decrypt transform
reports a `long` value `r` with -2^31 <= r < 2^31, `dtls_decrypt_params`
returns `r` itself: a negative value for a failure reported as a negative
`r >= -2^31`, and the plaintext length for a success `0 <= r < 2^31`; so the
result is negative exactly when the transform reported a failure. -/
theorem dtls_decrypt_params_result {KS : Type} (ws : Nat) (hws : 32 ≤ ws)
    (P : CipherProvider KS) (w : World KS) (hfree : w.cipher_context_mutex = false)
    (params : dtls_ccm_params_t) (src : Option (List Nat)) (length : Nat)
    (buf key aad : List Nat)
    (hkey : 0 ≤ (P.rijndael_set_key_enc_only w.cipher_context.ctx key
      (to_int (to_size_t ws (8 * key.length)))).1)
    (r : Int)
    (hr : (P.dtls_ccm_decrypt_message
      (P.rijndael_set_key_enc_only w.cipher_context.ctx key
        (to_int (to_size_t ws (8 * key.length)))).2
      params.tag_length params.l params.nonce (memmove_src src length buf) length aad).1 = r)
    (hlo : -2 ^ 31 ≤ r) (hhi : r < 2 ^ 31) :
    ∃ ret out w',
      dtls_decrypt_params ws P w params src length buf key aad = some (ret, out, w')
      ∧ ret = r ∧ (ret < 0 ↔ r < 0) := by
  rw [dtls_decrypt_params_eq ws P w hfree, if_neg (not_lt.mpr hkey), hr,
    to_int_to_size_t ws hws r hlo hhi]
  exact ⟨_, _, _, rfl, rfl, Iff.rfl⟩

/-- Witness for C5: the toy cipher reporting -1 for a tampered tag. -/
theorem dtls_decrypt_params_result_witness :
    ∃ ret out w',
      dtls_decrypt_params 64 (toy_cipher (-1)) world0 (dtls_ccm_params_t.mk [1, 2] 2 3) none 5
        [11, 21, 31, 144, 145, 0] key16 [5] = some (ret, out, w')
      ∧ ret = -1 ∧ (ret < 0 ↔ (-1 : Int) < 0) :=
  dtls_decrypt_params_result 64 (by decide) (toy_cipher (-1)) world0 rfl
    (dtls_ccm_params_t.mk [1, 2] 2 3) none 5 [11, 21, 31, 144, 145, 0] key16 [5]
    (by decide) (-1) (by decide) (by decide) (by decide)

/-- C5 as stated fails: with a 64-bit `long` and `size_t`, a decrypt transform
that reports the authentication failure as the negative `long` -2^32 makes
`dtls_decrypt_params` return 0, the result of a valid zero-length plaintext. -/
theorem dtls_decrypt_params_result_counterexample :
    ((toy_cipher (-4294967296)).dtls_ccm_decrypt_message key16 2 3 [1, 2]
        [11, 21, 31, 144, 145, 0] 5 [5]).1 = -4294967296
    ∧ (dtls_decrypt_params 64 (toy_cipher (-4294967296)) world0
        (dtls_ccm_params_t.mk [1, 2] 2 3) none 5 [11, 21, 31, 144, 145, 0] key16 [5]).map
          Prod.fst = some 0
    ∧ ((toy_cipher (-4294967296)).dtls_ccm_decrypt_message key16 2 3 [1, 2]
        [144, 144, 0] 2 [5]).1 = 0
    ∧ (dtls_decrypt_params 64 (toy_cipher (-4294967296)) world0
        (dtls_ccm_params_t.mk [1, 2] 2 3) none 2 [144, 144, 0] key16 [5]).map
          Prod.fst = some 0 := by
  decide

/-- C6: when `rijndael_set_key_enc_only` rejects the key (negative result),
`dtls_encrypt_params` and `dtls_decrypt_params` return that value, leave `buf`
as it was for every `src`, and the events of the call are lock, key install,
unlock: the CCM transform is not invoked. -/
theorem key_install_rejected {KS : Type} (ws : Nat) (P : CipherProvider KS) (w : World KS)
    (hfree : w.cipher_context_mutex = false) (params : dtls_ccm_params_t)
    (src : Option (List Nat)) (length : Nat) (buf key aad : List Nat)
    (hrej : (P.rijndael_set_key_enc_only w.cipher_context.ctx key
      (to_int (to_size_t ws (8 * key.length)))).1 < 0) :
    dtls_encrypt_params ws P w params src length buf key aad
      = some ((P.rijndael_set_key_enc_only w.cipher_context.ctx key
            (to_int (to_size_t ws (8 * key.length)))).1, buf,
          { cipher_context :=
              { ctx := (P.rijndael_set_key_enc_only w.cipher_context.ctx key
                  (to_int (to_size_t ws (8 * key.length)))).2,
                tag_length := params.tag_length, l := params.l },
            cipher_context_mutex := false,
            trace := w.trace ++ [Event.mutex_lock, Event.key_install true,
              Event.mutex_unlock] })
    ∧ dtls_decrypt_params ws P w params src length buf key aad
      = some ((P.rijndael_set_key_enc_only w.cipher_context.ctx key
            (to_int (to_size_t ws (8 * key.length)))).1, buf,
          { cipher_context :=
              { ctx := (P.rijndael_set_key_enc_only w.cipher_context.ctx key
                  (to_int (to_size_t ws (8 * key.length)))).2,
                tag_length := params.tag_length, l := params.l },
            cipher_context_mutex := false,
            trace := w.trace ++ [Event.mutex_lock, Event.key_install true,
              Event.mutex_unlock] }) := by
  rw [dtls_encrypt_params_eq ws P w hfree, if_pos hrej, dtls_decrypt_params_eq ws P w hfree,
    if_pos hrej]
  exact ⟨rfl, rfl⟩

/-- Witness for C6: a 3-byte key, which the toy cipher rejects with -1. -/
theorem key_install_rejected_witness :
    dtls_encrypt_params 64 (toy_cipher (-1)) world0 (dtls_ccm_params_t.mk [1, 2] 2 3)
        (some [10, 20, 30]) 3 [0, 0, 0, 0, 0, 0] [1, 2, 3] [5]
      = some (((toy_cipher (-1)).rijndael_set_key_enc_only world0.cipher_context.ctx [1, 2, 3]
            (to_int (to_size_t 64 (8 * [1, 2, 3].length)))).1, [0, 0, 0, 0, 0, 0],
          { cipher_context :=
              { ctx := ((toy_cipher (-1)).rijndael_set_key_enc_only world0.cipher_context.ctx
                  [1, 2, 3] (to_int (to_size_t 64 (8 * [1, 2, 3].length)))).2,
                tag_length := (dtls_ccm_params_t.mk [1, 2] 2 3).tag_length,
                l := (dtls_ccm_params_t.mk [1, 2] 2 3).l },
            cipher_context_mutex := false,
            trace := world0.trace ++ [Event.mutex_lock, Event.key_install true,
              Event.mutex_unlock] })
    ∧ dtls_decrypt_params 64 (toy_cipher (-1)) world0 (dtls_ccm_params_t.mk [1, 2] 2 3)
        (some [10, 20, 30]) 3 [0, 0, 0, 0, 0, 0] [1, 2, 3] [5]
      = some (((toy_cipher (-1)).rijndael_set_key_enc_only world0.cipher_context.ctx [1, 2, 3]
            (to_int (to_size_t 64 (8 * [1, 2, 3].length)))).1, [0, 0, 0, 0, 0, 0],
          { cipher_context :=
              { ctx := ((toy_cipher (-1)).rijndael_set_key_enc_only world0.cipher_context.ctx
                  [1, 2, 3] (to_int (to_size_t 64 (8 * [1, 2, 3].length)))).2,
                tag_length := (dtls_ccm_params_t.mk [1, 2] 2 3).tag_length,
                l := (dtls_ccm_params_t.mk [1, 2] 2 3).l },
            cipher_context_mutex := false,
            trace := world0.trace ++ [Event.mutex_lock, Event.key_install true,
              Event.mutex_unlock] }) :=
  key_install_rejected 64 (toy_cipher (-1)) world0 rfl (dtls_ccm_params_t.mk [1, 2] 2 3)
    (some [10, 20, 30]) 3 [0, 0, 0, 0, 0, 0] [1, 2, 3] [5] (by decide)

/-- C7: a call of `dtls_encrypt_params` or `dtls_decrypt_params` that starts
with the mutex free returns, ends with the mutex free, and adds to the history
exactly one lock, then the key install and (unless the install failed) the CCM
transform, both run with the mutex held, then the unlock. -/
theorem cipher_context_mutex_released {KS : Type} (ws : Nat) (P : CipherProvider KS)
    (w : World KS) (hfree : w.cipher_context_mutex = false) (params : dtls_ccm_params_t)
    (src : Option (List Nat)) (length : Nat) (buf key aad : List Nat) :
    (∃ ret out w',
      dtls_encrypt_params ws P w params src length buf key aad = some (ret, out, w')
      ∧ w'.cipher_context_mutex = false
      ∧ w'.trace = w.trace ++
          (if (P.rijndael_set_key_enc_only w.cipher_context.ctx key
              (to_int (to_size_t ws (8 * key.length)))).1 < 0
           then [Event.mutex_lock, Event.key_install true, Event.mutex_unlock]
           else [Event.mutex_lock, Event.key_install true, Event.ccm_encrypt true,
             Event.mutex_unlock]))
    ∧ (∃ ret out w',
      dtls_decrypt_params ws P w params src length buf key aad = some (ret, out, w')
      ∧ w'.cipher_context_mutex = false
      ∧ w'.trace = w.trace ++
          (if (P.rijndael_set_key_enc_only w.cipher_context.ctx key
              (to_int (to_size_t ws (8 * key.length)))).1 < 0
           then [Event.mutex_lock, Event.key_install true, Event.mutex_unlock]
           else [Event.mutex_lock, Event.key_install true, Event.ccm_decrypt true,
             Event.mutex_unlock])) := by
  rw [dtls_encrypt_params_eq ws P w hfree, dtls_decrypt_params_eq ws P w hfree]
  by_cases h : (P.rijndael_set_key_enc_only w.cipher_context.ctx key
      (to_int (to_size_t ws (8 * key.length)))).1 < 0
  · simp only [if_pos h]
    exact ⟨⟨_, _, _, rfl, rfl, rfl⟩, ⟨_, _, _, rfl, rfl, rfl⟩⟩
  · simp only [if_neg h]
    exact ⟨⟨_, _, _, rfl, rfl, rfl⟩, ⟨_, _, _, rfl, rfl, rfl⟩⟩

/-- Witness for C7: a call on the initial state with a tampered tag, the CCM
failure path. -/
theorem cipher_context_mutex_released_witness :
    (∃ ret out w',
      dtls_encrypt_params 64 (toy_cipher (-1)) world0 (dtls_ccm_params_t.mk [1, 2] 2 3) none 5
        [11, 21, 31, 144, 145, 0] key16 [5] = some (ret, out, w')
      ∧ w'.cipher_context_mutex = false
      ∧ w'.trace = world0.trace ++
          (if ((toy_cipher (-1)).rijndael_set_key_enc_only world0.cipher_context.ctx key16
              (to_int (to_size_t 64 (8 * key16.length)))).1 < 0
           then [Event.mutex_lock, Event.key_install true, Event.mutex_unlock]
           else [Event.mutex_lock, Event.key_install true, Event.ccm_encrypt true,
             Event.mutex_unlock]))
    ∧ (∃ ret out w',
      dtls_decrypt_params 64 (toy_cipher (-1)) world0 (dtls_ccm_params_t.mk [1, 2] 2 3) none 5
        [11, 21, 31, 144, 145, 0] key16 [5] = some (ret, out, w')
      ∧ w'.cipher_context_mutex = false
      ∧ w'.trace = world0.trace ++
          (if ((toy_cipher (-1)).rijndael_set_key_enc_only world0.cipher_context.ctx key16
              (to_int (to_size_t 64 (8 * key16.length)))).1 < 0
           then [Event.mutex_lock, Event.key_install true, Event.mutex_unlock]
           else [Event.mutex_lock, Event.key_install true, Event.ccm_decrypt true,
             Event.mutex_unlock])) :=
  cipher_context_mutex_released 64 (toy_cipher (-1)) world0 rfl
    (dtls_ccm_params_t.mk [1, 2] 2 3) none 5 [11, 21, 31, 144, 145, 0] key16 [5]


theorem toy_cipher_encrypt_length (fail_code : Int) (ks nonce buf aad : List Nat) (M L n : Nat) :
    ((toy_cipher fail_code).dtls_ccm_encrypt_message ks M L nonce buf n aad).1
      = (n : Int) + (M : Int) := rfl

theorem toy_cipher_decrypt_short (fail_code : Int) (ks nonce buf aad : List Nat) (M L m : Nat)
    (h : m < M) :
    ((toy_cipher fail_code).dtls_ccm_decrypt_message ks M L nonce buf m aad).1 = fail_code := by
  simp only [toy_cipher, if_neg (not_le.mpr h)]

/-- C4 as stated fails: with a 64-bit `size_t`, M = 8 and a plaintext of
2^32 - 8 bytes the toy cipher (whose decrypt transform inverts its encrypt
transform) reports the length 2^32, `dtls_encrypt_params` returns m = 0 >= 0,
and `dtls_decrypt_params` on `c[0..0)` returns -1, not the plaintext length. -/
theorem encrypt_decrypt_roundtrip_counterexample :
    ccm_inverts (toy_cipher (-1))
    ∧ (∀ ks, 0 ≤ ((toy_cipher (-1)).rijndael_set_key_enc_only ks key16
        (to_int (to_size_t 64 (8 * key16.length)))).1)
    ∧ ∃ m c w',
        dtls_encrypt_params 64 (toy_cipher (-1)) world0 (dtls_ccm_params_t.mk [1, 2] 8 3) none
          4294967288 (List.replicate 4294967296 0) key16 [] = some (m, c, w')
        ∧ 0 ≤ m
        ∧ (dtls_decrypt_params 64 (toy_cipher (-1)) w' (dtls_ccm_params_t.mk [1, 2] 8 3) none
            m.toNat c key16 []).map Prod.fst = some (-1)
        ∧ (-1 : Int) ≠ 4294967288 := by
  refine ⟨toy_cipher_inverts (-1), fun ks => by rw [toy_cipher_accepts_key16], ?_⟩
  have hz : to_int (to_size_t 64 (((4294967288 : Nat) : Int) + ((8 : Nat) : Int))) = 0 := by
    decide
  have he := dtls_encrypt_params_eq 64 (toy_cipher (-1)) world0 rfl
    (dtls_ccm_params_t.mk [1, 2] 8 3) none 4294967288 (List.replicate 4294967296 0) key16 []
  rw [toy_cipher_accepts_key16, if_neg (by decide), toy_cipher_encrypt_length, hz] at he
  refine ⟨_, _, _, he, le_refl 0, ?_, by decide⟩
  rw [dtls_decrypt_params_eq 64 (toy_cipher (-1)) _ rfl, toy_cipher_accepts_key16,
    if_neg (by decide)]
  simp only [Option.map_some', Int.toNat_zero]
  rw [toy_cipher_decrypt_short (-1) _ _ _ _ _ _ _ (by decide)]
  decide


/-! ## Lemmas on the EC key conversion and the ASN.1 encoding -/

theorem store_store (a : List Nat) : ∀ (mem : List Nat) (off : Nat) (b : List Nat),
    store (store mem off a) (off + a.length) b = store mem off (a ++ b) := by
  induction a with
  | nil => intro mem off b; rfl
  | cons x a ih =>
    intro mem off b
    have e : off + (x :: a).length = off + 1 + a.length := by
      simp only [List.length_cons]; omega
    rw [e]
    exact ih (mem.set off x) (off + 1) b

theorem ec_key_bytes_length (key : List Nat) : ∀ n, (ec_key_bytes key n).length = 4 * n := by
  intro n
  induction n with
  | zero => rfl
  | succ n ih => simp [ec_key_bytes, dtls_int_to_uint32, ih]; omega

theorem ec_key_from_uint32_loop_eq (key : List Nat) : ∀ (n : Nat) (result : List Nat) (off : Nat),
    ec_key_from_uint32_loop key n result off = store result off (ec_key_bytes key n) := by
  intro n
  induction n with
  | zero => intro result off; rfl
  | succ n ih =>
    intro result off
    simp only [ec_key_from_uint32_loop, ec_key_bytes, ih]
    rw [← store_store]
    rfl

theorem to_size_t_of_lt (ws : Nat) (hws : 32 ≤ ws) (n : Nat) (h : n < 2 ^ 32) :
    to_size_t ws (n : Int) = n := by
  unfold to_size_t
  have hp : (2 : Nat) ^ 32 ≤ 2 ^ ws := Nat.pow_le_pow_right (by decide) hws
  have : ((n : Int) % (2 : Int) ^ ws) = (n : Int) := by
    apply Int.emod_eq_of_lt (by omega)
    have : ((2 : Nat) ^ ws : Nat) = ((2 : Int) ^ ws) := by push_cast; rfl
    rw [← this]
    exact_mod_cast lt_of_lt_of_le h hp
  rw [this]
  simp

theorem to_int_of_lt (n : Nat) (h : n < 2 ^ 31) : to_int (n : Int) = n := by
  unfold to_int
  rw [Int.emod_eq_of_lt (by omega) (by omega)]
  omega

theorem dtls_ec_key_from_uint32_eq (ws : Nat) (hws : 32 ≤ ws) (key : List Nat) (key_size : Nat)
    (hk : key_size / 4 < 2 ^ 31) (result : List Nat) (off : Nat) :
    dtls_ec_key_from_uint32 ws key key_size result off
      = store result off (ec_key_bytes key (key_size / 4)) := by
  unfold dtls_ec_key_from_uint32
  simp only
  rw [to_int_to_size_t ws hws _ (by omega) (by omega), ec_key_from_uint32_loop_eq]
  congr 2
  omega


theorem skip_leading_zeros_eq (buf : List Nat) (off : Nat) :
    ∀ (z rem i : Nat), (∀ k, k < z → buf.getD (off + i + k) 0 = 0) →
      buf.getD (off + i + z) 0 ≠ 0 → z < rem →
      skip_leading_zeros buf off rem i = i + z := by
  intro z
  induction z with
  | zero =>
    intro rem i _ hx hrem
    obtain ⟨rem', rfl⟩ : ∃ r, rem = r + 1 := ⟨rem - 1, by omega⟩
    simp only [skip_leading_zeros, Nat.add_zero] at hx ⊢
    rw [if_neg hx]
  | succ z ih =>
    intro rem i hz hx hrem
    obtain ⟨rem', rfl⟩ : ∃ r, rem = r + 1 := ⟨rem - 1, by omega⟩
    have h0 : buf.getD (off + i) 0 = 0 := by simpa using hz 0 (by omega)
    simp only [skip_leading_zeros]
    rw [if_pos h0, ih rem' (i + 1) ?_ ?_ (by omega)]
    · omega
    · intro k hk
      have := hz (k + 1) (by omega)
      rwa [show off + (i + 1) + k = off + i + (k + 1) by omega]
    · rwa [show off + (i + 1) + z = off + i + (z + 1) by omega]

theorem getD_header_zeros (x0 x1 : Nat) (z k : Nat) (r : List Nat) (hk : k < z) :
    (x0 :: x1 :: (List.replicate z 0 ++ r)).getD (2 + k) 0 = 0 := by
  rw [show 2 + k = k + 1 + 1 by omega]
  simp only [List.getD_cons_succ]
  rw [List.getD_append _ _ _ _ (by simpa using hk)]
  simp [List.getD_eq_getElem?_getD, hk]

theorem getD_header_first (x0 x1 : Nat) (z x : Nat) (r : List Nat) :
    (x0 :: x1 :: (List.replicate z 0 ++ x :: r)).getD (2 + z) 0 = x := by
  rw [show 2 + z = z + 1 + 1 by omega]
  simp only [List.getD_cons_succ]
  rw [List.getD_append_right _ _ _ _ (by simp)]
  simp

theorem asn1_value_decomp (z x : Nat) (tl : List Nat) (hx : x ≠ 0) :
    asn1_value (List.replicate z 0 ++ x :: tl) = if x ≥ 0x80 then 0 :: x :: tl else x :: tl := by
  have h : (List.replicate z 0 ++ x :: tl).dropWhile (fun y => y = 0) = x :: tl := by
    induction z with
    | zero => simp [List.dropWhile, hx]
    | succ z ih => simpa [List.replicate_succ, List.dropWhile] using ih
  simp only [asn1_value, h, List.headD_cons]


theorem strip_shift (x0 x1 : Nat) (b tail : List Nat) (s : Nat) (hs : s ≤ b.length) :
    store (x0 :: x1 :: (b ++ tail)) 2 (load (x0 :: x1 :: (b ++ tail)) (2 + s) (b.length - s))
      = x0 :: x1 :: (b.drop s ++ (b ++ tail).drop (b.length - s)) := by
  have hl : load (x0 :: x1 :: (b ++ tail)) (2 + s) (b.length - s) = b.drop s := by
    unfold load
    rw [show 2 + s = s + 1 + 1 by omega]
    simp only [List.drop_succ_cons]
    rw [List.drop_append_of_le_length hs, List.take_append_of_le_length (by simp),
      List.take_of_length_le (by simp)]
  rw [hl]
  have := store_append (b.drop s) [x0, x1] (b ++ tail) (by simp; omega)
  simpa using this

theorem strip_prepend (x0 x1 : Nat) (b tail : List Nat) (hb : 1 ≤ b.length)
    (ht : 1 ≤ tail.length) :
    (store (x0 :: x1 :: (b ++ tail)) 3 (load (x0 :: x1 :: (b ++ tail)) 2 b.length)).set 2 0
      = x0 :: x1 :: ((0 :: b) ++ tail.drop 1) := by
  have hl : load (x0 :: x1 :: (b ++ tail)) 2 b.length = b := by
    simp [load]
  rw [hl]
  cases b with
  | nil => simp at hb
  | cons y b' =>
    have := store_append (y :: b') [x0, x1, y] (b' ++ tail) (by simp; omega)
    have e : store (x0 :: x1 :: (y :: b' ++ tail)) 3 (y :: b')
        = x0 :: x1 :: y :: y :: (b' ++ List.drop (b'.length + 1) (b' ++ tail)) := by
      simpa using this
    rw [e]
    simp [List.drop_append_eq_append_drop]

theorem store_length_byte (x0 x1 : Nat) (v junk : List Nat) (n : Nat) (hn : n < 256) :
    store (x0 :: x1 :: (v ++ junk)) 1 (dtls_int_to_uint8 n) = x0 :: n :: (v ++ junk) := by
  simp [store, dtls_int_to_uint8, Nat.mod_eq_of_lt hn]

theorem to_size_t_sub (ws : Nat) (hws : 32 ≤ ws) (n s : Nat) (hs : s ≤ n) (hn : n < 2 ^ 32) :
    to_size_t ws ((n : Int) - (s : Int)) = n - s := by
  rw [show (n : Int) - (s : Int) = ((n - s : Nat) : Int) by omega]
  exact to_size_t_of_lt ws hws _ (by omega)

theorem to_size_t_succ (ws : Nat) (hws : 32 ≤ ws) (n : Nat) (hn : n + 1 < 2 ^ 32) :
    to_size_t ws ((n : Int) + 1) = n + 1 := by
  rw [show (n : Int) + 1 = ((n + 1 : Nat) : Int) by omega]
  exact to_size_t_of_lt ws hws _ hn

theorem to_int_return (ws : Nat) (hws : 32 ≤ ws) (n : Nat) (hn : n + 2 < 2 ^ 31) :
    to_int (to_size_t ws ((n : Int) + 2)) = ((2 + n : Nat) : Int) := by
  rw [show (n : Int) + 2 = ((2 + n : Nat) : Int) by omega]
  exact to_int_to_size_t_nat ws hws _ (by omega)

theorem ec_key_asn1_move_pos (ws : Nat) (hws : 32 ≤ ws) (x0 x1 : Nat) (b tail : List Nat)
    (s : Nat) (hs0 : 0 < s) (hs : s ≤ b.length) (hn : b.length < 2 ^ 32) :
    ec_key_asn1_move ws b.length (x0 :: x1 :: (b ++ tail)) (s : Int)
      = (x0 :: x1 :: (b.drop s ++ (b ++ tail).drop (b.length - s)), b.length - s) := by
  unfold ec_key_asn1_move
  rw [if_pos (by omega)]
  simp only [Int.toNat_ofNat, to_size_t_sub ws hws _ _ hs hn, strip_shift x0 x1 b tail s hs]

theorem ec_key_asn1_move_neg (ws : Nat) (hws : 32 ≤ ws) (x0 x1 : Nat) (b tail : List Nat)
    (hb : 1 ≤ b.length) (ht : 1 ≤ tail.length) (hn : b.length + 1 < 2 ^ 32) :
    ec_key_asn1_move ws b.length (x0 :: x1 :: (b ++ tail)) (-1)
      = (x0 :: x1 :: ((0 :: b) ++ tail.drop 1), b.length + 1) := by
  unfold ec_key_asn1_move
  rw [if_neg (by decide), if_pos rfl]
  simp only [to_size_t_succ ws hws _ hn, strip_prepend x0 x1 b tail hb ht]

theorem ec_key_asn1_move_zero (ws : Nat) (n : Nat) (buf : List Nat) :
    ec_key_asn1_move ws n buf 0 = (buf, n) := by
  unfold ec_key_asn1_move
  rw [if_neg (by decide), if_neg (by decide)]


theorem strip_finish (ws : Nat) (hws : 32 ≤ ws) (x0 x1 : Nat) (v junk : List Nat)
    (hv : v.length < 256) (r : List Nat × Nat) (hr : r = (x0 :: x1 :: (v ++ junk), v.length)) :
    (to_int (to_size_t ws ((r.2 : Int) + 2)), store r.1 1 (dtls_int_to_uint8 r.2))
      = (((2 + v.length : Nat) : Int), x0 :: v.length :: (v ++ junk)) := by
  subst hr
  simp only
  rw [to_int_return ws hws _ (by omega), store_length_byte x0 x1 v junk _ hv]

theorem drop_leading_zeros (z x k : Nat) (tl : List Nat) (hk : k ≤ z) :
    (List.replicate z 0 ++ x :: tl).drop k = List.replicate (z - k) 0 ++ x :: tl := by
  rw [List.drop_append_of_le_length (by simpa using hk), List.drop_replicate]

theorem ec_key_asn1_strip_eq (ws : Nat) (hws : 32 ≤ ws) (x0 x1 : Nat) (b tail : List Nat)
    (z x : Nat) (tl : List Nat) (hdec : b = List.replicate z 0 ++ x :: tl)
    (hx : x ≠ 0) (hn : b.length < 255) (htail : 1 ≤ tail.length) :
    ∃ junk, ec_key_asn1_strip ws b.length (x0 :: x1 :: (b ++ tail))
      = (((2 + (asn1_value b).length : Nat) : Int),
          x0 :: (asn1_value b).length :: (asn1_value b ++ junk)) := by
  have hblen : b.length = z + 1 + tl.length := by
    rw [hdec]; simp; omega
  have hskip : skip_leading_zeros (x0 :: x1 :: (b ++ tail)) 2 b.length 0 = z := by
    have := skip_leading_zeros_eq (x0 :: x1 :: (b ++ tail)) 2 z b.length 0
      (fun k hk => by
        rw [hdec]
        simpa [List.append_assoc] using getD_header_zeros x0 x1 z k (x :: tl ++ tail) hk)
      (by
        rw [hdec]
        simpa [List.append_assoc] using
          (show (x0 :: x1 :: (List.replicate z 0 ++ x :: (tl ++ tail))).getD (2 + z) 0 ≠ 0 by
            rw [getD_header_first]; exact hx))
      (by omega)
    simpa using this
  have hget : (x0 :: x1 :: (b ++ tail)).getD (2 + z) 0 = x := by
    rw [hdec]
    simpa [List.append_assoc] using getD_header_first x0 x1 z x (tl ++ tail)
  have hti : to_int ((b.length : Nat) : Int) = ((b.length : Nat) : Int) :=
    to_int_of_lt _ (by omega)
  have hval := asn1_value_decomp z x tl hx
  rw [← hdec] at hval
  unfold ec_key_asn1_strip
  simp only [hti, Int.toNat_ofNat, hskip, hget]
  rw [if_neg (by omega)]
  by_cases h80 : x ≥ 0x80
  · rw [if_pos h80] at hval
    simp only [if_pos h80]
    rcases Nat.eq_zero_or_pos z with hz | hz
    · -- no leading zero: one 0x00 is put in front
      subst hz
      have hb : b = x :: tl := by simpa using hdec
      rw [show ((0 : Nat) : Int) - 1 = -1 by rfl,
        ec_key_asn1_move_neg ws hws x0 x1 b tail (by omega) htail (by omega)]
      refine ⟨tail.drop 1, strip_finish ws hws x0 x1 _ _ (by rw [hval]; simp; omega) _ ?_⟩
      rw [hval, hb]
      simp
    · rcases Nat.eq_or_lt_of_le hz with h1 | h1
      · -- one leading zero, kept as the sign byte
        subst h1
        have hb : b = 0 :: x :: tl := by simpa using hdec
        rw [show ((1 : Nat) : Int) - 1 = 0 by rfl, ec_key_asn1_move_zero]
        refine ⟨tail, strip_finish ws hws x0 x1 _ _ (by rw [hval]; simp; omega) _ ?_⟩
        rw [hval, hb]
      · -- z - 1 leading zeros are removed
        have hd : b.drop (z - 1) = 0 :: x :: tl := by
          rw [hdec, drop_leading_zeros z x (z - 1) tl (by omega),
            show z - (z - 1) = 1 by omega]
          rfl
        rw [show ((z : Nat) : Int) - 1 = ((z - 1 : Nat) : Int) by omega,
          ec_key_asn1_move_pos ws hws x0 x1 b tail (z - 1) (by omega) (by omega) (by omega)]
        refine ⟨(b ++ tail).drop (b.length - (z - 1)),
          strip_finish ws hws x0 x1 _ _ (by rw [hval]; simp; omega) _ ?_⟩
        rw [hval, hd]
        simp
        omega
  · rw [if_neg h80] at hval
    simp only [if_neg h80]
    rcases Nat.eq_zero_or_pos z with hz | hz
    · subst hz
      have hb : b = x :: tl := by simpa using hdec
      rw [show ((0 : Nat) : Int) = 0 by rfl, ec_key_asn1_move_zero]
      refine ⟨tail, strip_finish ws hws x0 x1 _ _ (by rw [hval]; simp; omega) _ ?_⟩
      rw [hval, hb]
    · have hd : b.drop z = x :: tl := by
        rw [hdec, drop_leading_zeros z x z tl (le_refl z)]
        simp
      rw [ec_key_asn1_move_pos ws hws x0 x1 b tail z hz (by omega) (by omega)]
      refine ⟨(b ++ tail).drop (b.length - z),
        strip_finish ws hws x0 x1 _ _ (by rw [hval]; simp; omega) _ ?_⟩
      rw [hval, hd]
      simp
      omega


theorem exists_leading_zeros : ∀ (b : List Nat), (∃ y ∈ b, y ≠ 0) →
    ∃ z x tl, b = List.replicate z 0 ++ x :: tl ∧ x ≠ 0 := by
  intro b
  induction b with
  | nil => rintro ⟨y, hy, _⟩; simp at hy
  | cons a b ih =>
    rintro ⟨y, hy, hy0⟩
    by_cases ha : a = 0
    · have : ∃ y ∈ b, y ≠ 0 := by
        rcases List.mem_cons.mp hy with h | h
        · exact absurd (h ▸ ha) hy0
        · exact ⟨y, h, hy0⟩
      obtain ⟨z, x, tl, hb, hx⟩ := ih this
      exact ⟨z + 1, x, tl, by rw [hb, ha]; rfl, hx⟩
    · exact ⟨0, a, b, rfl, ha⟩

theorem uint32_bytes_nonzero (w : Nat) (hw : w % 4294967296 ≠ 0) :
    ∃ y ∈ dtls_int_to_uint32 w, y ≠ 0 := by
  by_contra h
  simp only [dtls_int_to_uint32, List.mem_cons, List.mem_singleton, not_exists, not_and,
    not_not] at h
  have h1 := h _ (Or.inl rfl)
  have h2 := h _ (Or.inr (Or.inl rfl))
  have h3 := h _ (Or.inr (Or.inr (Or.inl rfl)))
  have h4 := h ((w % 256)) (by simp)
  omega

theorem ec_key_bytes_nonzero (key : List Nat) : ∀ (n i : Nat), i < n →
    key.getD i 0 % 4294967296 ≠ 0 → ∃ y ∈ ec_key_bytes key n, y ≠ 0 := by
  intro n
  induction n with
  | zero => intro i hi; omega
  | succ n ih =>
    intro i hi hw
    simp only [ec_key_bytes, List.mem_append]
    rcases Nat.lt_succ_iff_lt_or_eq.mp hi with h | h
    · obtain ⟨y, hy, hy0⟩ := ih i h hw
      exact ⟨y, Or.inr hy, hy0⟩
    · subst h
      obtain ⟨y, hy, hy0⟩ := uint32_bytes_nonzero _ hw
      exact ⟨y, Or.inl hy, hy0⟩

theorem ec_key_from_uint32_bytes_eq (ws : Nat) (hws : 32 ≤ ws) (key : List Nat) (key_size : Nat)
    (h4 : key_size % 4 = 0) (hk : key_size < 2 ^ 31) :
    ec_key_from_uint32_bytes ws key key_size = ec_key_bytes key (key_size / 4) := by
  have hl : (ec_key_bytes key (key_size / 4)).length = key_size := by
    rw [ec_key_bytes_length]; omega
  unfold ec_key_from_uint32_bytes
  rw [dtls_ec_key_from_uint32_eq ws hws key key_size (by omega),
    store_zero _ _ (by simp [hl])]
  unfold load
  simp [hl]

theorem be_value_cons_zero (s : List Nat) : be_value (0 :: s) = be_value s := by
  simp [be_value]

theorem be_value_asn1_value (b : List Nat) : be_value (asn1_value b) = be_value b := by
  have h : be_value (b.dropWhile (fun x => x = 0)) = be_value b := by
    induction b with
    | nil => rfl
    | cons a b ih =>
      by_cases ha : a = 0
      · subst ha
        simp only [List.dropWhile, decide_True]
        rw [ih, be_value_cons_zero]
      · simp [List.dropWhile, ha]
  unfold asn1_value
  simp only
  split_ifs
  · rw [be_value_cons_zero, h]
  · exact h

theorem asn1_value_head (b : List Nat) : (asn1_value b).headD 0 < 0x80 := by
  unfold asn1_value
  simp only
  split_ifs with h
  · simp
  · omega

theorem dtls_ec_key_asn1_from_uint32_eq (ws : Nat) (hws : 32 ≤ ws) (key : List Nat)
    (key_size : Nat) (buf : List Nat) (h4 : key_size % 4 = 0) (hmax : key_size < 255)
    (hlen : key.length = key_size / 4) (hnz : ∃ w ∈ key, w % 4294967296 ≠ 0)
    (hcap : key_size + 3 ≤ buf.length) :
    asn1_value (ec_key_from_uint32_bytes ws key key_size) ≠ []
    ∧ ∃ junk, dtls_ec_key_asn1_from_uint32 ws key key_size buf
      = (((2 + (asn1_value (ec_key_from_uint32_bytes ws key key_size)).length : Nat) : Int),
          0x02 :: (asn1_value (ec_key_from_uint32_bytes ws key key_size)).length
            :: (asn1_value (ec_key_from_uint32_bytes ws key key_size) ++ junk)) := by
  rw [ec_key_from_uint32_bytes_eq ws hws key key_size h4 (by omega)]
  have hl : (ec_key_bytes key (key_size / 4)).length = key_size := by
    rw [ec_key_bytes_length]; omega
  have hb : ∃ y ∈ ec_key_bytes key (key_size / 4), y ≠ 0 := by
    obtain ⟨w, hw, hw0⟩ := hnz
    obtain ⟨i, hi, rfl⟩ := List.getElem_of_mem hw
    refine ec_key_bytes_nonzero key (key_size / 4) i (by omega) ?_
    rwa [List.getD_eq_getElem _ _ hi]
  obtain ⟨z, x, tl, hdec, hx⟩ := exists_leading_zeros _ hb
  refine ⟨by rw [hdec, asn1_value_decomp z x tl hx]; split_ifs <;> simp, ?_⟩
  obtain ⟨y0, y1, rest, rfl⟩ : ∃ y0 y1 rest, buf = y0 :: y1 :: rest := by
    match buf, hcap with
    | y0 :: y1 :: rest, _ => exact ⟨y0, y1, rest, rfl⟩
  have hrest : key_size + 1 ≤ rest.length := by simpa using hcap
  have hbuf : dtls_ec_key_from_uint32 ws key key_size
      (store (y0 :: y1 :: rest) 0 (dtls_int_to_uint8 0x02)) 2
      = 0x02 :: y1 :: (ec_key_bytes key (key_size / 4) ++ rest.drop key_size) := by
    rw [dtls_ec_key_from_uint32_eq ws hws key key_size (by omega)]
    have := store_append (ec_key_bytes key (key_size / 4)) [0x02, y1] rest (by omega)
    rw [hl] at this
    simpa [store, dtls_int_to_uint8] using this
  unfold dtls_ec_key_asn1_from_uint32
  simp only [hbuf]
  have := ec_key_asn1_strip_eq ws hws 0x02 y1 (ec_key_bytes key (key_size / 4))
    (rest.drop key_size) z x tl hdec hx (by omega) (by simp; omega)
  rw [hl] at this
  exact this


/-- C8: for a non-zero input of `key_size` bytes (a multiple of 4 between 4
and 32) `dtls_ec_key_asn1_from_uint32` returns `2 + |v|` and writes
`[0x02, |v|]` followed by `v`, where `v` is the byte string produced by
`dtls_ec_key_from_uint32` with its leading zero bytes removed and one 0x00 put
in front exactly when the first remaining byte is >= 0x80.  A word counts as
zero when it is zero as a `uint32_t`. -/
theorem dtls_ec_key_asn1_from_uint32_spec (ws : Nat) (hws : 32 ≤ ws) (key : List Nat)
    (key_size : Nat) (buf : List Nat) (h4 : key_size % 4 = 0) (hmin : 4 ≤ key_size)
    (hmax : key_size ≤ 32) (hlen : key.length = key_size / 4)
    (hnz : ∃ w ∈ key, w % 4294967296 ≠ 0) (hcap : key_size + 3 ≤ buf.length) :
    (dtls_ec_key_asn1_from_uint32 ws key key_size buf).1
        = ((2 + (asn1_value (ec_key_from_uint32_bytes ws key key_size)).length : Nat) : Int)
    ∧ (dtls_ec_key_asn1_from_uint32 ws key key_size buf).2.take
          (2 + (asn1_value (ec_key_from_uint32_bytes ws key key_size)).length)
        = 0x02 :: (asn1_value (ec_key_from_uint32_bytes ws key key_size)).length
            :: asn1_value (ec_key_from_uint32_bytes ws key key_size) := by
  have hmin' : 0 < key_size := by omega
  obtain ⟨_, junk, h⟩ := dtls_ec_key_asn1_from_uint32_eq ws hws key key_size buf h4
    (by omega) hlen hnz hcap
  rw [h]
  refine ⟨rfl, ?_⟩
  rw [show 2 + (asn1_value (ec_key_from_uint32_bytes ws key key_size)).length
    = (asn1_value (ec_key_from_uint32_bytes ws key key_size)).length + 1 + 1 by omega]
  simp

/-- Witness for C8: two words whose 8 bytes are 00 00 80 03 04 05 06 07. -/
theorem dtls_ec_key_asn1_from_uint32_spec_witness :
    (dtls_ec_key_asn1_from_uint32 64 [0x04050607, 0x00008003] 8
          [9, 9, 9, 9, 9, 9, 9, 9, 9, 9, 9, 9]).1
        = ((2 + (asn1_value (ec_key_from_uint32_bytes 64 [0x04050607, 0x00008003] 8)).length
            : Nat) : Int)
    ∧ (dtls_ec_key_asn1_from_uint32 64 [0x04050607, 0x00008003] 8
          [9, 9, 9, 9, 9, 9, 9, 9, 9, 9, 9, 9]).2.take
          (2 + (asn1_value (ec_key_from_uint32_bytes 64 [0x04050607, 0x00008003] 8)).length)
        = 0x02 :: (asn1_value (ec_key_from_uint32_bytes 64 [0x04050607, 0x00008003] 8)).length
            :: asn1_value (ec_key_from_uint32_bytes 64 [0x04050607, 0x00008003] 8) :=
  dtls_ec_key_asn1_from_uint32_spec 64 (by decide) [0x04050607, 0x00008003] 8
    [9, 9, 9, 9, 9, 9, 9, 9, 9, 9, 9, 9] (by decide) (by decide) (by decide) (by decide)
    (by decide) (by decide)

/-- C9: for a non-zero input (`key_size` a multiple of 4 between 4 and 32) the
output byte at index 2, the first value byte, is below 0x80. -/
theorem dtls_ec_key_asn1_first_value_byte (ws : Nat) (hws : 32 ≤ ws) (key : List Nat)
    (key_size : Nat) (buf : List Nat) (h4 : key_size % 4 = 0) (hmin : 4 ≤ key_size)
    (hmax : key_size ≤ 32) (hlen : key.length = key_size / 4)
    (hnz : ∃ w ∈ key, w % 4294967296 ≠ 0) (hcap : key_size + 3 ≤ buf.length) :
    (dtls_ec_key_asn1_from_uint32 ws key key_size buf).2.getD 2 0 < 0x80 := by
  have hmin' : 0 < key_size := by omega
  obtain ⟨hne, junk, h⟩ := dtls_ec_key_asn1_from_uint32_eq ws hws key key_size buf h4
    (by omega) hlen hnz hcap
  rw [h]
  have hh := asn1_value_head (ec_key_from_uint32_bytes ws key key_size)
  cases hv : asn1_value (ec_key_from_uint32_bytes ws key key_size) with
  | nil => exact absurd hv hne
  | cons a v =>
    rw [hv] at hh
    simpa using hh

/-- Witness for C9: the first word byte is 0x80, so 0x00 comes first. -/
theorem dtls_ec_key_asn1_first_value_byte_witness :
    (dtls_ec_key_asn1_from_uint32 64 [0x04050607, 0x80000003] 8
        [9, 9, 9, 9, 9, 9, 9, 9, 9, 9, 9, 9]).2.getD 2 0 < 0x80 :=
  dtls_ec_key_asn1_first_value_byte 64 (by decide) [0x04050607, 0x80000003] 8
    [9, 9, 9, 9, 9, 9, 9, 9, 9, 9, 9, 9] (by decide) (by decide) (by decide) (by decide)
    (by decide) (by decide)

/-- C10: for a non-zero input (`key_size` a multiple of 4 between 4 and 32) the
value bytes emitted, from index 2 to the returned length, denote the same
big-endian unsigned integer as the `key_size` bytes produced by
`dtls_ec_key_from_uint32`. -/
theorem dtls_ec_key_asn1_value_preserved (ws : Nat) (hws : 32 ≤ ws) (key : List Nat)
    (key_size : Nat) (buf : List Nat) (h4 : key_size % 4 = 0) (hmin : 4 ≤ key_size)
    (hmax : key_size ≤ 32) (hlen : key.length = key_size / 4)
    (hnz : ∃ w ∈ key, w % 4294967296 ≠ 0) (hcap : key_size + 3 ≤ buf.length) :
    be_value (load (dtls_ec_key_asn1_from_uint32 ws key key_size buf).2 2
        ((dtls_ec_key_asn1_from_uint32 ws key key_size buf).1.toNat - 2))
      = be_value (ec_key_from_uint32_bytes ws key key_size) := by
  have hmin' : 0 < key_size := by omega
  obtain ⟨_, junk, h⟩ := dtls_ec_key_asn1_from_uint32_eq ws hws key key_size buf h4
    (by omega) hlen hnz hcap
  rw [h]
  simp only [Int.toNat_ofNat, load, Nat.add_sub_cancel_left]
  rw [show (2 : Nat) = 0 + 1 + 1 by rfl]
  simp only [List.drop_succ_cons, List.drop_zero]
  rw [List.take_append_of_le_length (le_refl _), List.take_of_length_le (le_refl _),
    be_value_asn1_value]

/-- Witness for C10: two leading zero bytes removed, one 0x00 put back. -/
theorem dtls_ec_key_asn1_value_preserved_witness :
    be_value (load (dtls_ec_key_asn1_from_uint32 64 [0x04050607, 0x00008003] 8
        [9, 9, 9, 9, 9, 9, 9, 9, 9, 9, 9, 9]).2 2
        ((dtls_ec_key_asn1_from_uint32 64 [0x04050607, 0x00008003] 8
          [9, 9, 9, 9, 9, 9, 9, 9, 9, 9, 9, 9]).1.toNat - 2))
      = be_value (ec_key_from_uint32_bytes 64 [0x04050607, 0x00008003] 8) :=
  dtls_ec_key_asn1_value_preserved 64 (by decide) [0x04050607, 0x00008003] 8
    [9, 9, 9, 9, 9, 9, 9, 9, 9, 9, 9, 9] (by decide) (by decide) (by decide) (by decide)
    (by decide) (by decide)

/-! ## Lemmas on the PSK pre-master secret -/

theorem psk_size (ws : Nat) (hws : 32 ≤ ws) (n : Nat) (hn : 2 * (2 + n) < 2 ^ 31) :
    to_size_t ws (2 * (2 + (n : Int))) = 2 * (2 + n)
    ∧ to_int ((2 * (2 + n) : Nat) : Int) = ((2 * (2 + n) : Nat) : Int) := by
  constructor
  · rw [show 2 * (2 + (n : Int)) = ((2 * (2 + n) : Nat) : Int) by push_cast; ring]
    exact to_size_t_of_lt ws hws _ (by omega)
  · exact to_int_of_lt _ hn

theorem dtls_psk_pre_master_secret_fail (ws : Nat) (key result : List Nat) (result_len : Nat)
    (h : result_len < to_size_t ws (2 * (2 + (key.length : Int)))) :
    dtls_psk_pre_master_secret ws key result result_len = (-1, result) := by
  unfold dtls_psk_pre_master_secret
  simp only [if_pos h]

theorem dtls_psk_pre_master_secret_eq (ws : Nat) (hws : 32 ≤ ws) (key result : List Nat)
    (result_len : Nat) (hn : key.length < 65536) (hlen : 2 * (2 + key.length) ≤ result_len)
    (hcap : result_len ≤ result.length) :
    dtls_psk_pre_master_secret ws key result result_len
      = (((2 * (2 + key.length) : Nat) : Int),
          [key.length / 256, key.length % 256] ++ List.replicate key.length 0
            ++ [key.length / 256, key.length % 256] ++ key
            ++ result.drop (2 * (2 + key.length))) := by
  obtain ⟨hs, hi⟩ := psk_size ws hws key.length (by omega)
  unfold dtls_psk_pre_master_secret
  simp only [hs, hi, if_neg (not_lt.mpr hlen)]
  have hA : dtls_int_to_uint16 key.length = [key.length / 256, key.length % 256] := by
    simp [dtls_int_to_uint16, Nat.mod_eq_of_lt hn]
  have h1 : store result 0 (dtls_int_to_uint16 key.length)
      = [key.length / 256, key.length % 256] ++ result.drop 2 := by
    rw [hA, store_zero _ _ (by simp; omega)]
    rfl
  have h2 : store ([key.length / 256, key.length % 256] ++ result.drop 2) 2
      (List.replicate key.length 0)
      = [key.length / 256, key.length % 256] ++ List.replicate key.length 0
        ++ result.drop (2 + key.length) := by
    have := store_append (List.replicate key.length 0) [key.length / 256, key.length % 256]
      (result.drop 2) (by simp; omega)
    simpa [Nat.add_comm] using this
  have h3 : load ([key.length / 256, key.length % 256] ++ List.replicate key.length 0
        ++ result.drop (2 + key.length)) 0 2 = [key.length / 256, key.length % 256] := by
    simp [load, List.append_assoc]
  have h4 : store ([key.length / 256, key.length % 256] ++ List.replicate key.length 0
        ++ result.drop (2 + key.length)) (2 + key.length)
        [key.length / 256, key.length % 256]
      = [key.length / 256, key.length % 256] ++ List.replicate key.length 0
        ++ [key.length / 256, key.length % 256] ++ result.drop (2 + key.length + 2) := by
    have := store_append [key.length / 256, key.length % 256]
      ([key.length / 256, key.length % 256] ++ List.replicate key.length 0)
      (result.drop (2 + key.length)) (by simp; omega)
    simpa [Nat.add_comm, Nat.add_left_comm] using this
  have h5 : store ([key.length / 256, key.length % 256] ++ List.replicate key.length 0
        ++ [key.length / 256, key.length % 256] ++ result.drop (2 + key.length + 2))
        (2 + key.length + 2) (load key 0 key.length)
      = [key.length / 256, key.length % 256] ++ List.replicate key.length 0
        ++ [key.length / 256, key.length % 256] ++ key
        ++ result.drop (2 * (2 + key.length)) := by
    have hk : load key 0 key.length = key := by simp [load]
    rw [hk]
    have := store_append key
      ([key.length / 256, key.length % 256] ++ List.replicate key.length 0
        ++ [key.length / 256, key.length % 256])
      (result.drop (2 + key.length + 2)) (by simp; omega)
    have e : 2 * (2 + key.length) = key.length + (key.length + 4) := by omega
    rw [e]
    simpa [Nat.add_comm, Nat.add_left_comm] using this
  rw [h1, h2, h3, h4, h5]

/-- C12: for a PSK of `n < 65536` bytes and a destination of at least
`2 * (2 + n)` bytes, `dtls_psk_pre_master_secret` returns `2 * (2 + n)` and
leaves be16(n), `n` zero bytes, be16(n) and the PSK in `result[0..2n+4)`; the
bytes from index `2n + 4` on are unchanged. -/
theorem dtls_psk_pre_master_secret_spec (ws : Nat) (hws : 32 ≤ ws) (key result : List Nat)
    (result_len : Nat) (hn : key.length < 65536) (hlen : 2 * (2 + key.length) ≤ result_len)
    (hcap : result_len ≤ result.length) :
    (dtls_psk_pre_master_secret ws key result result_len).1
        = ((2 * (2 + key.length) : Nat) : Int)
    ∧ (dtls_psk_pre_master_secret ws key result result_len).2.take (2 * (2 + key.length))
        = [key.length / 256, key.length % 256] ++ List.replicate key.length 0
            ++ [key.length / 256, key.length % 256] ++ key
    ∧ (dtls_psk_pre_master_secret ws key result result_len).2.drop (2 * (2 + key.length))
        = result.drop (2 * (2 + key.length)) := by
  rw [dtls_psk_pre_master_secret_eq ws hws key result result_len hn hlen hcap]
  have hl : ([key.length / 256, key.length % 256] ++ List.replicate key.length 0
      ++ [key.length / 256, key.length % 256] ++ key).length = 2 * (2 + key.length) := by
    simp; omega
  refine ⟨rfl, ?_, ?_⟩
  · simp only
    rw [List.take_append_of_le_length (le_of_eq hl.symm), List.take_of_length_le (le_of_eq hl)]
  · simp only
    rw [List.drop_append_of_le_length (le_of_eq hl.symm), List.drop_of_length_le (le_of_eq hl)]
    rfl

/-- Witness for C12: a 3-byte PSK and a 12-byte destination of which 10 are
declared. -/
theorem dtls_psk_pre_master_secret_spec_witness :
    (dtls_psk_pre_master_secret 64 [7, 8, 9] [5, 5, 5, 5, 5, 5, 5, 5, 5, 5, 5, 5] 10).1
        = ((2 * (2 + [7, 8, 9].length) : Nat) : Int)
    ∧ (dtls_psk_pre_master_secret 64 [7, 8, 9] [5, 5, 5, 5, 5, 5, 5, 5, 5, 5, 5, 5] 10).2.take
          (2 * (2 + [7, 8, 9].length))
        = [[7, 8, 9].length / 256, [7, 8, 9].length % 256] ++ List.replicate [7, 8, 9].length 0
            ++ [[7, 8, 9].length / 256, [7, 8, 9].length % 256] ++ [7, 8, 9]
    ∧ (dtls_psk_pre_master_secret 64 [7, 8, 9] [5, 5, 5, 5, 5, 5, 5, 5, 5, 5, 5, 5] 10).2.drop
          (2 * (2 + [7, 8, 9].length))
        = [5, 5, 5, 5, 5, 5, 5, 5, 5, 5, 5, 5].drop (2 * (2 + [7, 8, 9].length)) :=
  dtls_psk_pre_master_secret_spec 64 (by decide) [7, 8, 9] [5, 5, 5, 5, 5, 5, 5, 5, 5, 5, 5, 5]
    10 (by decide) (by decide) (by decide)

/-- C13: for a PSK of `n` bytes with `2 * (2 + n)` below 2^31 and every
`result_len`, `dtls_psk_pre_master_secret` returns -1 exactly when
`result_len < 2 * (2 + n)`, and then the destination is as before. -/
theorem dtls_psk_pre_master_secret_fails_iff (ws : Nat) (hws : 32 ≤ ws) (key result : List Nat)
    (result_len : Nat) (hrep : 2 * (2 + key.length) < 2 ^ 31) :
    ((dtls_psk_pre_master_secret ws key result result_len).1 = -1
        ↔ result_len < 2 * (2 + key.length))
    ∧ (result_len < 2 * (2 + key.length)
        → (dtls_psk_pre_master_secret ws key result result_len).2 = result) := by
  obtain ⟨hs, hi⟩ := psk_size ws hws key.length hrep
  by_cases h : result_len < 2 * (2 + key.length)
  · rw [dtls_psk_pre_master_secret_fail ws key result result_len (by rw [hs]; exact h)]
    exact ⟨⟨fun _ => h, fun _ => rfl⟩, fun _ => rfl⟩
  · refine ⟨⟨fun hr => ?_, fun h' => absurd h' h⟩, fun h' => absurd h' h⟩
    exfalso
    unfold dtls_psk_pre_master_secret at hr
    simp only [hs, hi, if_neg h] at hr
    omega

/-- Witness for C13: a 3-byte PSK, nine bytes declared where ten are needed. -/
theorem dtls_psk_pre_master_secret_fails_iff_witness :
    ((dtls_psk_pre_master_secret 64 [7, 8, 9] [5, 5, 5, 5, 5, 5, 5, 5, 5, 5, 5, 5] 9).1 = -1
        ↔ 9 < 2 * (2 + [7, 8, 9].length))
    ∧ (9 < 2 * (2 + [7, 8, 9].length)
        → (dtls_psk_pre_master_secret 64 [7, 8, 9] [5, 5, 5, 5, 5, 5, 5, 5, 5, 5, 5, 5] 9).2
          = [5, 5, 5, 5, 5, 5, 5, 5, 5, 5, 5, 5]) :=
  dtls_psk_pre_master_secret_fails_iff 64 (by decide) [7, 8, 9]
    [5, 5, 5, 5, 5, 5, 5, 5, 5, 5, 5, 5] 9 (by decide)

/-- C14, amended: for the PSK 01 02 03 04 and a destination of at least 12
bytes `dtls_psk_pre_master_secret` returns 12 and the pre-master secret is the
12 bytes 00 04 00 00 00 00 00 04 01 02 03 04. -/
theorem dtls_psk_pre_master_secret_scenario (ws : Nat) (hws : 32 ≤ ws) (result : List Nat)
    (result_len : Nat) (hlen : 12 ≤ result_len) (hcap : result_len ≤ result.length) :
    (dtls_psk_pre_master_secret ws [1, 2, 3, 4] result result_len).1 = 12
    ∧ (dtls_psk_pre_master_secret ws [1, 2, 3, 4] result result_len).2.take 12
        = [0, 4, 0, 0, 0, 0, 0, 4, 1, 2, 3, 4] := by
  rw [dtls_psk_pre_master_secret_eq ws hws [1, 2, 3, 4] result result_len (by decide)
    (by simpa using hlen) hcap]
  exact ⟨rfl, rfl⟩

/-- Witness for C14: a destination of 16 bytes. -/
theorem dtls_psk_pre_master_secret_scenario_witness :
    (dtls_psk_pre_master_secret 64 [1, 2, 3, 4]
        [9, 9, 9, 9, 9, 9, 9, 9, 9, 9, 9, 9, 9, 9, 9, 9] 16).1 = 12
    ∧ (dtls_psk_pre_master_secret 64 [1, 2, 3, 4]
        [9, 9, 9, 9, 9, 9, 9, 9, 9, 9, 9, 9, 9, 9, 9, 9] 16).2.take 12
        = [0, 4, 0, 0, 0, 0, 0, 4, 1, 2, 3, 4] :=
  dtls_psk_pre_master_secret_scenario 64 (by decide)
    [9, 9, 9, 9, 9, 9, 9, 9, 9, 9, 9, 9, 9, 9, 9, 9] 16 (by decide) (by decide)

/-- C14 as stated fails: for the PSK 01 02 03 04 and a 16-byte destination the
returned length is 12, not 16, and the bytes from index 12 on are not part of
the secret (they are as before). -/
theorem dtls_psk_pre_master_secret_scenario_counterexample :
    (dtls_psk_pre_master_secret 64 [1, 2, 3, 4]
        [9, 9, 9, 9, 9, 9, 9, 9, 9, 9, 9, 9, 9, 9, 9, 9] 16).1 = 12
    ∧ (dtls_psk_pre_master_secret 64 [1, 2, 3, 4]
        [9, 9, 9, 9, 9, 9, 9, 9, 9, 9, 9, 9, 9, 9, 9, 9] 16).1 ≠ 16
    ∧ (dtls_psk_pre_master_secret 64 [1, 2, 3, 4]
        [9, 9, 9, 9, 9, 9, 9, 9, 9, 9, 9, 9, 9, 9, 9, 9] 16).2
        = [0, 4, 0, 0, 0, 0, 0, 4, 1, 2, 3, 4, 9, 9, 9, 9] := by
  decide

/-! ## Lemmas on the ASN.1 encoding of all-zero and of large inputs -/

theorem uint32_bytes_zero (w : Nat) (hw : w % 4294967296 = 0) :
    dtls_int_to_uint32 w = [0, 0, 0, 0] := by
  have h1 : w % 4294967296 / 16777216 = 0 := by omega
  have h2 : w / 65536 % 256 = 0 := by omega
  have h3 : w / 256 % 256 = 0 := by omega
  have h4 : w % 256 = 0 := by omega
  simp only [dtls_int_to_uint32, h1, h2, h3, h4]

theorem ec_key_bytes_zero (key : List Nat) : ∀ (n : Nat),
    (∀ i, i < n → key.getD i 0 % 4294967296 = 0) →
    ec_key_bytes key n = List.replicate (4 * n) 0 := by
  intro n
  induction n with
  | zero => intro _; rfl
  | succ n ih =>
    intro h
    simp only [ec_key_bytes]
    rw [uint32_bytes_zero _ (h n (by omega)), ih (fun i hi => h i (by omega)),
      show 4 * (n + 1) = 4 * n + 1 + 1 + 1 + 1 by omega]
    simp only [List.replicate_succ, List.cons_append, List.nil_append]

theorem skip_leading_zeros_all (buf : List Nat) (off : Nat) :
    ∀ (rem i : Nat), (∀ k, k < rem → buf.getD (off + i + k) 0 = 0) →
      skip_leading_zeros buf off rem i = i + rem := by
  intro rem
  induction rem with
  | zero => intro i _; rfl
  | succ rem ih =>
    intro i h
    have h0 : buf.getD (off + i) 0 = 0 := by simpa using h 0 (by omega)
    simp only [skip_leading_zeros]
    rw [if_pos h0, ih (i + 1) ?_]
    · omega
    · intro k hk
      have := h (k + 1) (by omega)
      rwa [show off + (i + 1) + k = off + i + (k + 1) by omega]

theorem asn1_buffer_after_copy (ws : Nat) (hws : 32 ≤ ws) (key : List Nat) (key_size : Nat)
    (buf : List Nat) (h4 : key_size % 4 = 0) (hk : key_size / 4 < 2 ^ 31)
    (hcap : key_size + 2 ≤ buf.length) :
    ∃ y1 rest, rest.length = buf.length - 2 - key_size
      ∧ dtls_ec_key_from_uint32 ws key key_size (store buf 0 (dtls_int_to_uint8 0x02)) 2
        = 0x02 :: y1 :: (ec_key_bytes key (key_size / 4) ++ rest) := by
  have hl : (ec_key_bytes key (key_size / 4)).length = key_size := by
    rw [ec_key_bytes_length]; omega
  obtain ⟨y0, y1, rest, rfl⟩ : ∃ y0 y1 rest, buf = y0 :: y1 :: rest := by
    match buf, hcap with
    | y0 :: y1 :: rest, _ => exact ⟨y0, y1, rest, rfl⟩
  have hrest : key_size ≤ rest.length := by simpa using hcap
  refine ⟨y1, rest.drop key_size, by simp, ?_⟩
  rw [dtls_ec_key_from_uint32_eq ws hws key key_size hk]
  have := store_append (ec_key_bytes key (key_size / 4)) [0x02, y1] rest (by omega)
  rw [hl] at this
  simpa [store, dtls_int_to_uint8] using this

theorem all_zero_words (key : List Nat) (n : Nat)
    (hz : ∀ w ∈ key, w % 4294967296 = 0) : ∀ i, i < n → key.getD i 0 % 4294967296 = 0 := by
  intro i _
  by_cases hi : i < key.length
  · rw [List.getD_eq_getElem _ _ hi]
    exact hz _ (List.getElem_mem hi)
  · rw [List.getD_eq_default _ _ (by omega)]

theorem ec_key_asn1_strip_zero (ws : Nat) (key_size : Nat) (buf : List Nat)
    (hti : to_int ((key_size : Nat) : Int) = ((key_size : Nat) : Int))
    (hskip : skip_leading_zeros buf 2 key_size 0 = key_size) :
    ec_key_asn1_strip ws key_size buf = (0, buf) := by
  unfold ec_key_asn1_strip
  simp only [hti, Int.toNat_ofNat, hskip]
  rw [if_pos trivial]

theorem dtls_ec_key_asn1_from_uint32_zero (ws : Nat) (hws : 32 ≤ ws) (key : List Nat)
    (key_size : Nat) (buf : List Nat) (h4 : key_size % 4 = 0) (hk : key_size < 2 ^ 31)
    (hz : ∀ w ∈ key, w % 4294967296 = 0) (hcap : key_size + 2 ≤ buf.length) :
    ∃ out, dtls_ec_key_asn1_from_uint32 ws key key_size buf = (0, out) := by
  have hk4 : key_size / 4 < 2 ^ 31 := by omega
  obtain ⟨y1, rest, _, hbuf⟩ := asn1_buffer_after_copy ws hws key key_size buf h4 hk4 hcap
  have e4 : 4 * (key_size / 4) = key_size := by omega
  rw [ec_key_bytes_zero key _ (all_zero_words key _ hz), e4] at hbuf
  have hti : to_int ((key_size : Nat) : Int) = ((key_size : Nat) : Int) := to_int_of_lt _ hk
  have hskip : skip_leading_zeros (0x02 :: y1 :: (List.replicate key_size 0 ++ rest)) 2
      key_size 0 = key_size := by
    have := skip_leading_zeros_all (0x02 :: y1 :: (List.replicate key_size 0 ++ rest)) 2
      key_size 0 (fun k hk' => by
        have := getD_header_zeros 0x02 y1 key_size k rest hk'
        rw [Nat.add_zero]
        exact this)
    rw [Nat.zero_add] at this
    exact this
  have hs := ec_key_asn1_strip_zero ws key_size _ hti hskip
  unfold dtls_ec_key_asn1_from_uint32
  simp only [hbuf]
  exact ⟨_, hs⟩

theorem strip_finish_ret (ws : Nat) (hws : 32 ≤ ws) (n : Nat) (hn : n + 2 < 2 ^ 31)
    (r : List Nat × Nat) (hr : r.2 = n) :
    ∃ out, (to_int (to_size_t ws ((r.2 : Int) + 2)), store r.1 1 (dtls_int_to_uint8 r.2))
      = (((2 + n : Nat) : Int), out) := by
  rw [hr, to_int_return ws hws _ hn]
  exact ⟨_, rfl⟩

theorem ec_key_asn1_strip_ret (ws : Nat) (hws : 32 ≤ ws) (x0 x1 : Nat) (b tail : List Nat)
    (z x : Nat) (tl : List Nat) (hdec : b = List.replicate z 0 ++ x :: tl)
    (hx : x ≠ 0) (hn : b.length + 3 < 2 ^ 31) (htail : 1 ≤ tail.length) :
    ∃ out, ec_key_asn1_strip ws b.length (x0 :: x1 :: (b ++ tail))
      = (((2 + (asn1_value b).length : Nat) : Int), out) := by
  have hblen : b.length = z + 1 + tl.length := by
    rw [hdec]; simp; omega
  have hskip : skip_leading_zeros (x0 :: x1 :: (b ++ tail)) 2 b.length 0 = z := by
    have := skip_leading_zeros_eq (x0 :: x1 :: (b ++ tail)) 2 z b.length 0
      (fun k hk => by
        rw [hdec]
        simpa [List.append_assoc] using getD_header_zeros x0 x1 z k (x :: tl ++ tail) hk)
      (by
        rw [hdec]
        simpa [List.append_assoc] using
          (show (x0 :: x1 :: (List.replicate z 0 ++ x :: (tl ++ tail))).getD (2 + z) 0 ≠ 0 by
            rw [getD_header_first]; exact hx))
      (by omega)
    simpa using this
  have hget : (x0 :: x1 :: (b ++ tail)).getD (2 + z) 0 = x := by
    rw [hdec]
    simpa [List.append_assoc] using getD_header_first x0 x1 z x (tl ++ tail)
  have hti : to_int ((b.length : Nat) : Int) = ((b.length : Nat) : Int) :=
    to_int_of_lt _ (by omega)
  have hval := asn1_value_decomp z x tl hx
  rw [← hdec] at hval
  have h232 : (2 : Nat) ^ 31 < 2 ^ 32 := by decide
  unfold ec_key_asn1_strip
  simp only [hti, Int.toNat_ofNat, hskip, hget]
  rw [if_neg (by omega)]
  by_cases h80 : x ≥ 0x80
  · rw [if_pos h80] at hval
    simp only [if_pos h80]
    rcases Nat.eq_zero_or_pos z with hz | hz
    · subst hz
      rw [show ((0 : Nat) : Int) - 1 = -1 by rfl,
        ec_key_asn1_move_neg ws hws x0 x1 b tail (by omega) htail (by omega)]
      exact strip_finish_ret ws hws _ (by rw [hval]; simp; omega) _ (by rw [hval]; simp; omega)
    · rcases Nat.eq_or_lt_of_le hz with h1 | h1
      · subst h1
        rw [show ((1 : Nat) : Int) - 1 = 0 by rfl, ec_key_asn1_move_zero]
        exact strip_finish_ret ws hws _ (by rw [hval]; simp; omega) _
          (by rw [hval]; simp; omega)
      · rw [show ((z : Nat) : Int) - 1 = ((z - 1 : Nat) : Int) by omega,
          ec_key_asn1_move_pos ws hws x0 x1 b tail (z - 1) (by omega) (by omega) (by omega)]
        exact strip_finish_ret ws hws _ (by rw [hval]; simp; omega) _
          (by rw [hval]; simp; omega)
  · rw [if_neg h80] at hval
    simp only [if_neg h80]
    rcases Nat.eq_zero_or_pos z with hz | hz
    · subst hz
      rw [show ((0 : Nat) : Int) = 0 by rfl, ec_key_asn1_move_zero]
      exact strip_finish_ret ws hws _ (by rw [hval]; simp; omega) _ (by rw [hval]; simp; omega)
    · rw [ec_key_asn1_move_pos ws hws x0 x1 b tail z hz (by omega) (by omega)]
      exact strip_finish_ret ws hws _ (by rw [hval]; simp; omega) _ (by rw [hval]; simp; omega)

theorem asn1_value_nonempty (z x : Nat) (tl : List Nat) (hx : x ≠ 0) :
    1 ≤ (asn1_value (List.replicate z 0 ++ x :: tl)).length := by
  rw [asn1_value_decomp z x tl hx]
  split_ifs <;> simp

theorem dtls_ec_key_asn1_from_uint32_ret (ws : Nat) (hws : 32 ≤ ws) (key : List Nat)
    (key_size : Nat) (buf : List Nat) (h4 : key_size % 4 = 0) (hk : key_size < 2 ^ 31)
    (hlen : key.length = key_size / 4) (hnz : ∃ w ∈ key, w % 4294967296 ≠ 0)
    (hcap : key_size + 3 ≤ buf.length) :
    ∃ (n : Nat) (out : List Nat), 3 ≤ n
      ∧ dtls_ec_key_asn1_from_uint32 ws key key_size buf = ((n : Int), out) := by
  have hl : (ec_key_bytes key (key_size / 4)).length = key_size := by
    rw [ec_key_bytes_length]; omega
  have hb : ∃ y ∈ ec_key_bytes key (key_size / 4), y ≠ 0 := by
    obtain ⟨w, hw, hw0⟩ := hnz
    obtain ⟨i, hi, rfl⟩ := List.getElem_of_mem hw
    refine ec_key_bytes_nonzero key (key_size / 4) i (by omega) ?_
    rwa [List.getD_eq_getElem _ _ hi]
  obtain ⟨z, x, tl, hdec, hx⟩ := exists_leading_zeros _ hb
  obtain ⟨y1, rest, hrest, hbuf⟩ := asn1_buffer_after_copy ws hws key key_size buf h4
    (by omega) (by omega)
  have hs := ec_key_asn1_strip_ret ws hws 0x02 y1 (ec_key_bytes key (key_size / 4)) rest z x tl
    hdec hx (by rw [hl]; omega) (by omega)
  rw [hl] at hs
  obtain ⟨out, hs⟩ := hs
  have hne : 1 ≤ (asn1_value (ec_key_bytes key (key_size / 4))).length := by
    rw [hdec]; exact asn1_value_nonempty z x tl hx
  refine ⟨2 + (asn1_value (ec_key_bytes key (key_size / 4))).length, out, by omega, ?_⟩
  unfold dtls_ec_key_asn1_from_uint32
  simp only [hbuf]
  exact hs

theorem ec_key_asn1_strip_negative (ws : Nat) (key_size : Nat) (buf : List Nat)
    (hneg : to_int ((key_size : Nat) : Int) < 0) (hb0 : buf.getD 2 0 = 0) :
    ec_key_asn1_strip ws key_size buf
      = (to_int (to_size_t ws ((key_size : Int) + 2)),
          store buf 1 (dtls_int_to_uint8 key_size)) := by
  have h0 : (to_int ((key_size : Nat) : Int)).toNat = 0 := Int.toNat_of_nonpos (le_of_lt hneg)
  have hs : skip_leading_zeros buf 2 0 0 = 0 := rfl
  have hne : ¬ (((0 : Nat) : Int) = to_int ((key_size : Nat) : Int)) := by omega
  have hb : ¬ buf.getD (2 + 0) 0 ≥ 0x80 := by
    rw [Nat.add_zero, hb0]; decide
  unfold ec_key_asn1_strip
  simp only [h0, hs, Int.toNat_ofNat]
  rw [if_neg hne, if_neg hb, show ((0 : Nat) : Int) = 0 from rfl, ec_key_asn1_move_zero]

theorem dtls_ec_key_asn1_from_uint32_negative (ws : Nat) (hws : 32 ≤ ws) (key : List Nat)
    (key_size : Nat) (buf : List Nat) (h4 : key_size % 4 = 0) (hpos : 0 < key_size)
    (hk : key_size / 4 < 2 ^ 31) (hneg : to_int ((key_size : Nat) : Int) < 0)
    (hz : ∀ w ∈ key, w % 4294967296 = 0) (hcap : key_size + 2 ≤ buf.length) :
    ∃ out, dtls_ec_key_asn1_from_uint32 ws key key_size buf
      = (to_int (to_size_t ws ((key_size : Int) + 2)), out) := by
  obtain ⟨y1, rest, _, hbuf⟩ := asn1_buffer_after_copy ws hws key key_size buf h4 hk hcap
  have e4 : 4 * (key_size / 4) = key_size := by omega
  rw [ec_key_bytes_zero key _ (all_zero_words key _ hz), e4] at hbuf
  have hb0 : (0x02 :: y1 :: (List.replicate key_size 0 ++ rest)).getD 2 0 = 0 :=
    getD_header_zeros 0x02 y1 key_size 0 rest hpos
  have hs := ec_key_asn1_strip_negative ws key_size _ hneg hb0
  unfold dtls_ec_key_asn1_from_uint32
  simp only [hbuf]
  exact ⟨_, hs⟩

/-- C11, amended: for `key_size` a multiple of 4 below 2^31 (so that it is
itself as an `int`), `dtls_ec_key_asn1_from_uint32` returns 0 for every input
whose words are all zero and a value >= 3 for every non-zero input, so 0 is
returned exactly for the all-zero input.  A word counts as zero when it is
zero as a `uint32_t`. -/
theorem dtls_ec_key_asn1_zero_iff (ws : Nat) (hws : 32 ≤ ws) (key : List Nat)
    (key_size : Nat) (buf : List Nat) (h4 : key_size % 4 = 0) (hk : key_size < 2 ^ 31)
    (hlen : key.length = key_size / 4) (hcap : key_size + 3 ≤ buf.length) :
    ((∀ w ∈ key, w % 4294967296 = 0)
        → (dtls_ec_key_asn1_from_uint32 ws key key_size buf).1 = 0)
    ∧ ((∃ w ∈ key, w % 4294967296 ≠ 0)
        → 3 ≤ (dtls_ec_key_asn1_from_uint32 ws key key_size buf).1)
    ∧ ((dtls_ec_key_asn1_from_uint32 ws key key_size buf).1 = 0
        ↔ ∀ w ∈ key, w % 4294967296 = 0) := by
  have hzero : (∀ w ∈ key, w % 4294967296 = 0)
      → (dtls_ec_key_asn1_from_uint32 ws key key_size buf).1 = 0 := by
    intro hz
    obtain ⟨out, h⟩ := dtls_ec_key_asn1_from_uint32_zero ws hws key key_size buf h4 hk hz
      (by omega)
    rw [h]
  have hnz : (∃ w ∈ key, w % 4294967296 ≠ 0)
      → 3 ≤ (dtls_ec_key_asn1_from_uint32 ws key key_size buf).1 := by
    intro hz
    obtain ⟨n, out, hn, h⟩ := dtls_ec_key_asn1_from_uint32_ret ws hws key key_size buf h4 hk
      hlen hz hcap
    rw [h]
    show (3 : Int) ≤ (n : Int)
    exact_mod_cast hn
  refine ⟨hzero, hnz, ⟨fun h0 => ?_, hzero⟩⟩
  by_contra hcon
  have hex : ∃ w ∈ key, w % 4294967296 ≠ 0 := by
    by_contra hno
    exact hcon (fun w hw => by
      by_contra hw0
      exact hno ⟨w, hw, hw0⟩)
  have := hnz hex
  omega

/-- Witness for C11: eight all-zero bytes. -/
theorem dtls_ec_key_asn1_zero_iff_witness :
    ((∀ w ∈ [0, 0], w % 4294967296 = 0)
        → (dtls_ec_key_asn1_from_uint32 64 [0, 0] 8 [9, 9, 9, 9, 9, 9, 9, 9, 9, 9, 9, 9]).1 = 0)
    ∧ ((∃ w ∈ [0, 0], w % 4294967296 ≠ 0)
        → 3 ≤ (dtls_ec_key_asn1_from_uint32 64 [0, 0] 8 [9, 9, 9, 9, 9, 9, 9, 9, 9, 9, 9, 9]).1)
    ∧ ((dtls_ec_key_asn1_from_uint32 64 [0, 0] 8 [9, 9, 9, 9, 9, 9, 9, 9, 9, 9, 9, 9]).1 = 0
        ↔ ∀ w ∈ [0, 0], w % 4294967296 = 0) :=
  dtls_ec_key_asn1_zero_iff 64 (by decide) [0, 0] 8 [9, 9, 9, 9, 9, 9, 9, 9, 9, 9, 9, 9]
    (by decide) (by decide) (by decide) (by decide)

/-- C11 as stated fails: for `key_size` = 2^31, a multiple of 4, and 2^29
all-zero words, `(int)key_size` is negative, the loop over the leading zeros
is not entered, and the function returns -2147483646 instead of 0. -/
theorem dtls_ec_key_asn1_zero_iff_counterexample :
    2147483648 % 4 = 0
    ∧ (List.replicate 536870912 0).length = 2147483648 / 4
    ∧ (∀ w ∈ List.replicate 536870912 0, w % 4294967296 = 0)
    ∧ (dtls_ec_key_asn1_from_uint32 64 (List.replicate 536870912 0) 2147483648
        (List.replicate 2147483651 0)).1 = -2147483646 := by
  refine ⟨by decide, by rw [List.length_replicate], ?_, ?_⟩
  · intro w hw
    rw [List.eq_of_mem_replicate hw]
  · obtain ⟨out, h⟩ := dtls_ec_key_asn1_from_uint32_negative 64 (by decide)
      (List.replicate 536870912 0) 2147483648 (List.replicate 2147483651 0)
      (by decide) (by decide) (by decide) (by decide)
      (fun w hw => by rw [List.eq_of_mem_replicate hw])
      (by rw [List.length_replicate]; decide)
    rw [h]
    show to_int (to_size_t 64 (((2147483648 : Nat) : Int) + 2)) = -2147483646
    decide

/-! ## Lemmas on the curve registry, ECDH and ECDSA -/

theorem get_uecc_curve_supported (U : uECC) :
    get_uecc_curve U TLS_EXT_ELLIPTIC_CURVES_SECP256R1 = (1, some U.secp256r1) := by
  simp [get_uecc_curve, known_curves, get_uecc_curve_loop]

theorem get_uecc_curve_unsupported (U : uECC) (curve : Nat)
    (hc : curve ≠ TLS_EXT_ELLIPTIC_CURVES_SECP256R1) :
    get_uecc_curve U curve = (0, none) := by
  simp [get_uecc_curve, known_curves, get_uecc_curve_loop, Ne.symm hc]

theorem dtls_ecdh_pre_master_secret2_eq (U : uECC) (priv_key pub_key : List Nat)
    (key_size : Nat) (result : List Nat) (result_len : Nat) (hlen : key_size ≤ result_len) :
    dtls_ecdh_pre_master_secret2 U priv_key pub_key key_size TLS_EXT_ELLIPTIC_CURVES_SECP256R1
        result result_len
      = if (U.shared_secret pub_key priv_key result U.secp256r1).1 = 0 then
          (0, (U.shared_secret pub_key priv_key result U.secp256r1).2,
            [CurveOp.valid_public_key, CurveOp.shared_secret])
        else
          (to_int key_size, (U.shared_secret pub_key priv_key result U.secp256r1).2,
            [CurveOp.valid_public_key, CurveOp.shared_secret]) := by
  unfold dtls_ecdh_pre_master_secret2
  simp only [get_uecc_curve_supported, Option.getD_some, one_ne_zero, if_false,
    if_neg (not_lt.mpr hlen)]

theorem dtls_ecdh_pre_master_secret2_short (U : uECC) (priv_key pub_key : List Nat)
    (key_size curve : Nat) (result : List Nat) (result_len : Nat)
    (h : result_len < key_size) :
    dtls_ecdh_pre_master_secret2 U priv_key pub_key key_size curve result result_len
      = (-1, result, []) := by
  unfold dtls_ecdh_pre_master_secret2
  simp only [if_pos h]
  split_ifs <;> rfl

theorem ec_key_to_uint32_loop_eq (key : List Nat) (koff : Nat) :
    ∀ (n : Nat) (result : List Nat) (off : Nat),
      ec_key_to_uint32_loop key koff n result off = store result off (ec_key_words key koff n) := by
  intro n
  induction n with
  | zero => intro result off; rfl
  | succ n ih =>
    intro result off
    simp only [ec_key_to_uint32_loop, ec_key_words, ih, store]

theorem uint32_eq_be_value (l : List Nat) (h : l.length = 4) :
    dtls_uint32_to_int l = be_value l := by
  match l, h with
  | [a, b, c, d], _ =>
    simp only [dtls_uint32_to_int, be_value, List.getD_cons_zero, List.getD_cons_succ,
      List.foldl_cons, List.foldl_nil]
    ring

theorem load_length (mem : List Nat) (off n : Nat) (h : off + n ≤ mem.length) :
    (load mem off n).length = n := by
  simp [load]; omega

theorem dtls_ec_key_to_uint32_eq (ws : Nat) (hws : 32 ≤ ws) (sig : List Nat) (koff : Nat)
    (result : List Nat) (hsig : koff + 32 ≤ sig.length) (hres : 8 ≤ result.length) :
    dtls_ec_key_to_uint32 ws sig koff 32 result = sig_words sig koff ++ result.drop 8 := by
  unfold dtls_ec_key_to_uint32
  simp only
  rw [to_int_to_size_t ws hws _ (by decide) (by decide), ec_key_to_uint32_loop_eq]
  have h8 : (((32 / 4 : Nat) : Int) - 1 + 1).toNat = 8 := by decide
  rw [h8]
  have hw : ec_key_words sig koff 8 = sig_words sig koff := by
    simp only [ec_key_words, sig_words]
    rw [show List.range 8 = [0, 1, 2, 3, 4, 5, 6, 7] from rfl]
    simp only [List.map_cons, List.map_nil]
    rw [uint32_eq_be_value _ (load_length sig _ 4 (by omega)),
      uint32_eq_be_value _ (load_length sig _ 4 (by omega)),
      uint32_eq_be_value _ (load_length sig _ 4 (by omega)),
      uint32_eq_be_value _ (load_length sig _ 4 (by omega)),
      uint32_eq_be_value _ (load_length sig _ 4 (by omega)),
      uint32_eq_be_value _ (load_length sig _ 4 (by omega)),
      uint32_eq_be_value _ (load_length sig _ 4 (by omega)),
      uint32_eq_be_value _ (load_length sig _ 4 (by omega))]
  rw [hw]
  have hl : (sig_words sig koff).length = 8 := by simp [sig_words]
  have := store_zero (sig_words sig koff) result (by rw [hl]; exact hres)
  rw [hl] at this
  exact this

theorem toy_uecc_verify_accepts_sign (private_key message_hash : List Nat) (n c : Nat)
    (hlen : private_key.length = 32) (hne : private_key.sum ≠ 0) :
    toy_uecc.verify (private_key ++ private_key) message_hash n
      (toy_uecc.sign private_key message_hash n c).2 c = 1 := by
  have ht : (private_key ++ private_key).take 32 = private_key := by
    rw [List.take_append_of_le_length (by omega), List.take_of_length_le (by omega)]
  simp only [toy_uecc, if_neg hne, ht, if_true]

theorem dtls_ecdsa_create_sig_hash2_eq (ws : Nat) (hws : 32 ≤ ws) (U : uECC)
    (priv_key : List Nat) (key_size : Nat) (sign_hash : List Nat) (sign_hash_size : Nat)
    (point_r point_s sig : List Nat) (ret : Int)
    (hsize : U.curve_private_key_size U.secp256r1 = 32)
    (hsign : U.sign priv_key sign_hash sign_hash_size U.secp256r1 = (ret, sig))
    (hret : ret ≠ 0) (hsig : sig.length = 64)
    (hr : 8 ≤ point_r.length) (hs : 8 ≤ point_s.length) :
    dtls_ecdsa_create_sig_hash2 ws U priv_key key_size sign_hash sign_hash_size
        TLS_EXT_ELLIPTIC_CURVES_SECP256R1 point_r point_s
      = (64, sig_words sig 0 ++ point_r.drop 8, sig_words sig 32 ++ point_s.drop 8,
          [CurveOp.sign]) := by
  have h32 : to_size_t ws (32 : Int) = 32 := to_size_t_of_lt ws hws 32 (by decide)
  have h64 : to_int (2 * (32 : Int)) = 64 := by decide
  unfold dtls_ecdsa_create_sig_hash2
  simp only [get_uecc_curve_supported, Option.getD_some, one_ne_zero, if_false, hsize, hsign,
    if_neg hret, h32, h64]
  rw [dtls_ec_key_to_uint32_eq ws hws sig 0 point_r (by omega) hr,
    show (32 : Int).toNat = 32 from rfl,
    dtls_ec_key_to_uint32_eq ws hws sig 32 point_s (by omega) hs]

theorem sig_words_getD (sig : List Nat) (off : Nat) (rest : List Nat) (j : Nat) (hj : j < 8) :
    (sig_words sig off ++ rest).getD j 0 = be_value (load sig (off + 4 * (7 - j)) 4) := by
  have hl : (sig_words sig off).length = 8 := by simp [sig_words]
  rw [List.getD_append _ _ _ _ (by rw [hl]; exact hj)]
  unfold sig_words
  interval_cases j <;> rfl

/-- C16, amended: when the provider's sign succeeds for secp256r1 (private
key size 32) with the 64 signature bytes `sig`, `dtls_ecdsa_create_sig_hash2`
returns 64 and fills `point_r` and `point_s` from the first and second 32
bytes, each as eight 32-bit words with the least-significant word first: word
`j` is the big-endian value of the bytes `[4(7-j), 4(7-j)+4)` of that half, so
word 0 holds the last four bytes of the half; the ninth word is untouched. -/
theorem dtls_ecdsa_create_sig_hash2_words (ws : Nat) (hws : 32 ≤ ws) (U : uECC)
    (priv_key : List Nat) (key_size : Nat) (sign_hash : List Nat) (sign_hash_size : Nat)
    (point_r point_s sig : List Nat) (ret : Int)
    (hsize : U.curve_private_key_size U.secp256r1 = 32)
    (hsign : U.sign priv_key sign_hash sign_hash_size U.secp256r1 = (ret, sig))
    (hret : ret ≠ 0) (hsig : sig.length = 64)
    (hr : 8 ≤ point_r.length) (hs : 8 ≤ point_s.length) :
    (dtls_ecdsa_create_sig_hash2 ws U priv_key key_size sign_hash sign_hash_size
        TLS_EXT_ELLIPTIC_CURVES_SECP256R1 point_r point_s).1 = 64
    ∧ (∀ j, j < 8 →
        (dtls_ecdsa_create_sig_hash2 ws U priv_key key_size sign_hash sign_hash_size
          TLS_EXT_ELLIPTIC_CURVES_SECP256R1 point_r point_s).2.1.getD j 0
          = be_value (load sig (4 * (7 - j)) 4))
    ∧ (∀ j, j < 8 →
        (dtls_ecdsa_create_sig_hash2 ws U priv_key key_size sign_hash sign_hash_size
          TLS_EXT_ELLIPTIC_CURVES_SECP256R1 point_r point_s).2.2.1.getD j 0
          = be_value (load sig (32 + 4 * (7 - j)) 4))
    ∧ (dtls_ecdsa_create_sig_hash2 ws U priv_key key_size sign_hash sign_hash_size
        TLS_EXT_ELLIPTIC_CURVES_SECP256R1 point_r point_s).2.1.drop 8 = point_r.drop 8
    ∧ (dtls_ecdsa_create_sig_hash2 ws U priv_key key_size sign_hash sign_hash_size
        TLS_EXT_ELLIPTIC_CURVES_SECP256R1 point_r point_s).2.2.1.drop 8 = point_s.drop 8 := by
  rw [dtls_ecdsa_create_sig_hash2_eq ws hws U priv_key key_size sign_hash sign_hash_size
    point_r point_s sig ret hsize hsign hret hsig hr hs]
  have hl0 : (sig_words sig 0).length = 8 := by simp [sig_words]
  have hl32 : (sig_words sig 32).length = 8 := by simp [sig_words]
  refine ⟨rfl, fun j hj => ?_, fun j hj => ?_, ?_, ?_⟩
  · have := sig_words_getD sig 0 (point_r.drop 8) j hj
    rw [Nat.zero_add] at this
    exact this
  · exact sig_words_getD sig 32 (point_s.drop 8) j hj
  · show (sig_words sig 0 ++ point_r.drop 8).drop 8 = point_r.drop 8
    rw [List.drop_append_of_le_length (by rw [hl0]), List.drop_of_length_le (by rw [hl0])]
    rfl
  · show (sig_words sig 32 ++ point_s.drop 8).drop 8 = point_s.drop 8
    rw [List.drop_append_of_le_length (by rw [hl32]), List.drop_of_length_le (by rw [hl32])]
    rfl

/-- Witness for C16: the toy provider, whose signature bytes are 6, 7, 8, ... -/
theorem dtls_ecdsa_create_sig_hash2_words_witness :
    (dtls_ecdsa_create_sig_hash2 64 toy_uecc toy_priv 32 (toy_hash [1, 2]) 32
        TLS_EXT_ELLIPTIC_CURVES_SECP256R1 (List.replicate 9 0) (List.replicate 9 0)).1 = 64
    ∧ (∀ j, j < 8 →
        (dtls_ecdsa_create_sig_hash2 64 toy_uecc toy_priv 32 (toy_hash [1, 2]) 32
          TLS_EXT_ELLIPTIC_CURVES_SECP256R1 (List.replicate 9 0) (List.replicate 9 0)).2.1.getD
            j 0
          = be_value (load (toy_signature toy_priv (toy_hash [1, 2])) (4 * (7 - j)) 4))
    ∧ (∀ j, j < 8 →
        (dtls_ecdsa_create_sig_hash2 64 toy_uecc toy_priv 32 (toy_hash [1, 2]) 32
          TLS_EXT_ELLIPTIC_CURVES_SECP256R1 (List.replicate 9 0)
            (List.replicate 9 0)).2.2.1.getD j 0
          = be_value (load (toy_signature toy_priv (toy_hash [1, 2])) (32 + 4 * (7 - j)) 4))
    ∧ (dtls_ecdsa_create_sig_hash2 64 toy_uecc toy_priv 32 (toy_hash [1, 2]) 32
        TLS_EXT_ELLIPTIC_CURVES_SECP256R1 (List.replicate 9 0) (List.replicate 9 0)).2.1.drop 8
        = (List.replicate 9 0).drop 8
    ∧ (dtls_ecdsa_create_sig_hash2 64 toy_uecc toy_priv 32 (toy_hash [1, 2]) 32
        TLS_EXT_ELLIPTIC_CURVES_SECP256R1 (List.replicate 9 0) (List.replicate 9 0)).2.2.1.drop 8
        = (List.replicate 9 0).drop 8 :=
  dtls_ecdsa_create_sig_hash2_words 64 (by decide) toy_uecc toy_priv 32 (toy_hash [1, 2]) 32
    (List.replicate 9 0) (List.replicate 9 0) (toy_signature toy_priv (toy_hash [1, 2])) 1
    rfl (by decide) (by decide) (by decide) (by decide) (by decide)

/-- C16 as stated fails: with the toy provider's signature bytes 6, 7, 8, ...
word 0 of `point_r` is the big-endian value of the bytes [28, 32) of the first
half, 0x22232425, not of its first four bytes, 0x06070809. -/
theorem dtls_ecdsa_create_sig_hash2_words_counterexample :
    (toy_uecc.sign toy_priv (toy_hash [1, 2]) 32 toy_uecc.secp256r1).1 = 1
    ∧ load (toy_uecc.sign toy_priv (toy_hash [1, 2]) 32 toy_uecc.secp256r1).2 0 4 = [6, 7, 8, 9]
    ∧ (dtls_ecdsa_create_sig_hash2 64 toy_uecc toy_priv 32 (toy_hash [1, 2]) 32
        TLS_EXT_ELLIPTIC_CURVES_SECP256R1 (List.replicate 9 0) (List.replicate 9 0)).2.1.getD 0 0
        = 0x22232425
    ∧ be_value [6, 7, 8, 9] = 0x06070809
    ∧ (dtls_ecdsa_create_sig_hash2 64 toy_uecc toy_priv 32 (toy_hash [1, 2]) 32
        TLS_EXT_ELLIPTIC_CURVES_SECP256R1 (List.replicate 9 0) (List.replicate 9 0)).2.1.getD 0 0
        ≠ be_value (load (toy_uecc.sign toy_priv (toy_hash [1, 2]) 32 toy_uecc.secp256r1).2 0 4) := by
  decide

theorem store_fill (stack x y : List Nat) (h : stack.length = x.length + y.length) :
    store (store stack 0 x) x.length y = x ++ y := by
  rw [store_zero x stack (by omega)]
  have e := store_append y x (stack.drop x.length) (by rw [List.length_drop]; omega)
  rw [e, List.drop_drop, List.drop_of_length_le (by omega), List.append_nil]

theorem dtls_ecdsa_verify_sig_hash2_eq (U : uECC) (pub_key : List Nat) (key_size : Nat)
    (sign_hash : List Nat) (sign_hash_size : Nat) (result_r result_s : List Nat) :
    dtls_ecdsa_verify_sig_hash2 U pub_key key_size sign_hash sign_hash_size
        TLS_EXT_ELLIPTIC_CURVES_SECP256R1 result_r result_s
      = (U.verify pub_key sign_hash sign_hash_size (List.replicate 64 0) U.secp256r1,
          [CurveOp.verify]) := by
  unfold dtls_ecdsa_verify_sig_hash2
  simp only [get_uecc_curve_supported]
  rw [if_neg (by decide)]
  rfl

theorem dtls_ecdsa_verify_sig_hash_eq (U : uECC) (stack pub_key_x pub_key_y : List Nat)
    (key_size : Nat) (sign_hash : List Nat) (sign_hash_size : Nat)
    (result_r result_s : List Nat) :
    dtls_ecdsa_verify_sig_hash U stack pub_key_x pub_key_y key_size sign_hash sign_hash_size
        result_r result_s
      = (if 32 < key_size then none
         else some (U.verify
            (store (store stack 0 (load pub_key_x 0 key_size)) key_size
              (load pub_key_y 0 key_size))
            sign_hash sign_hash_size (List.replicate 64 0) U.secp256r1, [CurveOp.verify])) := by
  unfold dtls_ecdsa_verify_sig_hash
  simp only
  by_cases h : 32 < key_size
  · rw [if_pos h, if_pos (by unfold DTLS_EC_KEY_SIZE; omega)]
  · rw [if_neg h, if_neg (by unfold DTLS_EC_KEY_SIZE; omega)]
    exact congrArg some (dtls_ecdsa_verify_sig_hash2_eq U _ _ _ _ _ _)

theorem dtls_ecdsa_verify_sig_hash_full (U : uECC) (stack pub_key_x pub_key_y : List Nat)
    (sign_hash : List Nat) (sign_hash_size : Nat) (result_r result_s : List Nat)
    (hstack : stack.length = 64) (hx : 32 ≤ pub_key_x.length) (hy : 32 ≤ pub_key_y.length) :
    dtls_ecdsa_verify_sig_hash U stack pub_key_x pub_key_y 32 sign_hash sign_hash_size
        result_r result_s
      = some (U.verify (load pub_key_x 0 32 ++ load pub_key_y 0 32) sign_hash sign_hash_size
          (List.replicate 64 0) U.secp256r1, [CurveOp.verify]) := by
  have lx : (load pub_key_x 0 32).length = 32 := load_length pub_key_x 0 32 (by omega)
  have ly : (load pub_key_y 0 32).length = 32 := load_length pub_key_y 0 32 (by omega)
  have e := store_fill stack (load pub_key_x 0 32) (load pub_key_y 0 32) (by omega)
  rw [lx] at e
  rw [dtls_ecdsa_verify_sig_hash_eq, if_neg (by decide), e]

/-- C15 fails on the code: with the toy provider, whose verify accepts every
signature its sign produces for the key pair, `dtls_ecdsa_create_sig` produces
a signature that the provider accepts for the matching public key and digest,
but `dtls_ecdsa_verify_sig` with the same transcript inputs and that
signature returns 0, whatever the local array held on entry: it hands the
provider 64 zero bytes. -/
theorem dtls_ecdsa_verify_sig_rejects_created :
    (∀ (private_key message_hash : List Nat) (n c : Nat),
        private_key.length = 32 → private_key.sum ≠ 0 →
        toy_uecc.verify (private_key ++ private_key) message_hash n
          (toy_uecc.sign private_key message_hash n c).2 c = 1)
    ∧ (toy_uecc.sign toy_priv (keyx_digest toy_hash [1] [2] [3]) DTLS_HMAC_DIGEST_SIZE
        toy_uecc.secp256r1).1 = 1
    ∧ (dtls_ecdsa_create_sig 64 toy_uecc toy_hash toy_priv 32 [1] [2] [3]
        (List.replicate 9 0) (List.replicate 9 0)).1
        = sig_words (toy_signature toy_priv (keyx_digest toy_hash [1] [2] [3])) 0 ++ [0]
    ∧ (dtls_ecdsa_create_sig 64 toy_uecc toy_hash toy_priv 32 [1] [2] [3]
        (List.replicate 9 0) (List.replicate 9 0)).2.1
        = sig_words (toy_signature toy_priv (keyx_digest toy_hash [1] [2] [3])) 32 ++ [0]
    ∧ toy_uecc.verify (toy_priv ++ toy_priv) (keyx_digest toy_hash [1] [2] [3])
        DTLS_HMAC_DIGEST_SIZE (toy_signature toy_priv (keyx_digest toy_hash [1] [2] [3]))
        toy_uecc.secp256r1 = 1
    ∧ (∀ stack : List Nat, stack.length = 64 →
        dtls_ecdsa_verify_sig toy_uecc toy_hash stack toy_priv toy_priv 32 [1] [2] [3]
          (load (toy_signature toy_priv (keyx_digest toy_hash [1] [2] [3])) 0 32)
          (load (toy_signature toy_priv (keyx_digest toy_hash [1] [2] [3])) 32 32)
          = some (0, [CurveOp.verify])) := by
  refine ⟨toy_uecc_verify_accepts_sign, by decide, by decide, by decide, by decide, ?_⟩
  intro stack hstack
  unfold dtls_ecdsa_verify_sig
  simp only
  rw [dtls_ecdsa_verify_sig_hash_full toy_uecc stack toy_priv toy_priv _ _ _ _ hstack
    (by decide) (by decide)]
  decide

/-- C17, amended: with the supported curve, `result_len >= key_size` and
`0 < key_size < 2^31`, `dtls_ecdh_pre_master_secret2` returns 0 when the
shared-secret computation fails and `key_size` when it succeeds, so the two
results differ. -/
theorem dtls_ecdh_failure_distinct (U : uECC) (priv_key pub_key result : List Nat)
    (priv_key' pub_key' result' : List Nat) (key_size result_len : Nat)
    (hpos : 0 < key_size) (hk : key_size < 2 ^ 31) (hlen : key_size ≤ result_len)
    (hfail : (U.shared_secret pub_key priv_key result U.secp256r1).1 = 0)
    (hok : (U.shared_secret pub_key' priv_key' result' U.secp256r1).1 ≠ 0) :
    (dtls_ecdh_pre_master_secret2 U priv_key pub_key key_size
        TLS_EXT_ELLIPTIC_CURVES_SECP256R1 result result_len).1 = 0
    ∧ (dtls_ecdh_pre_master_secret2 U priv_key' pub_key' key_size
        TLS_EXT_ELLIPTIC_CURVES_SECP256R1 result' result_len).1 = (key_size : Int)
    ∧ (dtls_ecdh_pre_master_secret2 U priv_key pub_key key_size
        TLS_EXT_ELLIPTIC_CURVES_SECP256R1 result result_len).1
      ≠ (dtls_ecdh_pre_master_secret2 U priv_key' pub_key' key_size
        TLS_EXT_ELLIPTIC_CURVES_SECP256R1 result' result_len).1 := by
  rw [dtls_ecdh_pre_master_secret2_eq U priv_key pub_key key_size result result_len hlen,
    if_pos hfail,
    dtls_ecdh_pre_master_secret2_eq U priv_key' pub_key' key_size result' result_len hlen,
    if_neg hok]
  have hti : to_int ((key_size : Nat) : Int) = ((key_size : Nat) : Int) := to_int_of_lt _ hk
  refine ⟨rfl, hti, ?_⟩
  show (0 : Int) ≠ to_int ((key_size : Nat) : Int)
  rw [hti]
  omega

/-- Witness for C17: the toy provider fails for the all-zero private key and
succeeds for `toy_priv`, with `key_size` 32. -/
theorem dtls_ecdh_failure_distinct_witness :
    (dtls_ecdh_pre_master_secret2 toy_uecc (List.replicate 32 0) (toy_priv ++ toy_priv) 32
        TLS_EXT_ELLIPTIC_CURVES_SECP256R1 (List.replicate 32 9) 32).1 = 0
    ∧ (dtls_ecdh_pre_master_secret2 toy_uecc toy_priv (toy_priv ++ toy_priv) 32
        TLS_EXT_ELLIPTIC_CURVES_SECP256R1 (List.replicate 32 9) 32).1 = ((32 : Nat) : Int)
    ∧ (dtls_ecdh_pre_master_secret2 toy_uecc (List.replicate 32 0) (toy_priv ++ toy_priv) 32
        TLS_EXT_ELLIPTIC_CURVES_SECP256R1 (List.replicate 32 9) 32).1
      ≠ (dtls_ecdh_pre_master_secret2 toy_uecc toy_priv (toy_priv ++ toy_priv) 32
        TLS_EXT_ELLIPTIC_CURVES_SECP256R1 (List.replicate 32 9) 32).1 :=
  dtls_ecdh_failure_distinct toy_uecc (List.replicate 32 0) (toy_priv ++ toy_priv)
    (List.replicate 32 9) toy_priv (toy_priv ++ toy_priv) (List.replicate 32 9) 32 32
    (by decide) (by decide) (by decide) (by decide) (by decide)

/-- C17 as stated fails: for `key_size` = 0 the toy provider's failing
computation (all-zero private key) and its succeeding one (`toy_priv`) both
make `dtls_ecdh_pre_master_secret2` return 0. -/
theorem dtls_ecdh_failure_distinct_counterexample :
    (toy_uecc.shared_secret (toy_priv ++ toy_priv) (List.replicate 32 0) (List.replicate 32 9)
        toy_uecc.secp256r1).1 = 0
    ∧ (toy_uecc.shared_secret (toy_priv ++ toy_priv) toy_priv (List.replicate 32 9)
        toy_uecc.secp256r1).1 = 1
    ∧ (dtls_ecdh_pre_master_secret2 toy_uecc (List.replicate 32 0) (toy_priv ++ toy_priv) 0
        TLS_EXT_ELLIPTIC_CURVES_SECP256R1 (List.replicate 32 9) 0).1 = 0
    ∧ (dtls_ecdh_pre_master_secret2 toy_uecc toy_priv (toy_priv ++ toy_priv) 0
        TLS_EXT_ELLIPTIC_CURVES_SECP256R1 (List.replicate 32 9) 0).1 = 0 := by
  decide

theorem dtls_ecdh_buffer_guard (U : uECC) (priv_key pub_key pub_key_x pub_key_y : List Nat)
    (key_size curve : Nat) (result : List Nat) (result_len : Nat)
    (h : result_len < key_size) :
    dtls_ecdh_pre_master_secret2 U priv_key pub_key key_size curve result result_len
        = (-1, result, [])
    ∧ dtls_ecdh_pre_master_secret U priv_key pub_key_x pub_key_y key_size result result_len
        = (-1, result, []) := by
  refine ⟨dtls_ecdh_pre_master_secret2_short U priv_key pub_key key_size curve result
    result_len h, ?_⟩
  unfold dtls_ecdh_pre_master_secret
  simp only [if_pos h]

/-- C18 fails on the code: the guard compares `result_len` with the `key_size`
the caller passes, not with the size the computation writes.  With the toy
provider, whose shared-secret computation writes the 32 bytes of the curve's
private-key size, `key_size` = 16 and `result_len` = 16,
`dtls_ecdh_pre_master_secret2` and `dtls_ecdh_pre_master_secret` do not
return -1: they invoke the computation and return 16, and the bytes of
`result` at index 16 to 31, past the declared length, are overwritten. -/
theorem dtls_ecdh_writes_past_result_len :
    toy_uecc.curve_private_key_size toy_uecc.secp256r1 = 32
    ∧ dtls_ecdh_pre_master_secret2 toy_uecc toy_priv (toy_priv ++ toy_priv) 16
        TLS_EXT_ELLIPTIC_CURVES_SECP256R1 (List.replicate 40 9) 16
        = (16, List.replicate 32 6 ++ List.replicate 8 9,
            [CurveOp.valid_public_key, CurveOp.shared_secret])
    ∧ dtls_ecdh_pre_master_secret toy_uecc toy_priv toy_priv toy_priv 16
        (List.replicate 40 9) 16
        = (16, List.replicate 32 6 ++ List.replicate 8 9,
            [CurveOp.valid_public_key, CurveOp.shared_secret])
    ∧ load (List.replicate 32 6 ++ List.replicate 8 9) 16 16 = List.replicate 16 6
    ∧ load (List.replicate 40 9) 16 16 = List.replicate 16 9 := by
  decide

/-- C19: `get_uecc_curve` returns 1 with the provider's curve for
TLS_EXT_ELLIPTIC_CURVES_SECP256R1 and 0 for every other identifier, and then
`dtls_ecdh_pre_master_secret2`, `dtls_ecdsa_generate_key2`,
`dtls_ecdsa_create_sig_hash2` and `dtls_ecdsa_verify_sig_hash2` return -1 with
no provider operation invoked and every output buffer as it was. -/
theorem unsupported_curve_rejected (ws : Nat) (U : uECC) (curve : Nat)
    (hc : curve ≠ TLS_EXT_ELLIPTIC_CURVES_SECP256R1)
    (priv_key pub_key result sign_hash point_r point_s result_r result_s : List Nat)
    (key_size result_len sign_hash_size : Nat) :
    get_uecc_curve U TLS_EXT_ELLIPTIC_CURVES_SECP256R1 = (1, some U.secp256r1)
    ∧ get_uecc_curve U curve = (0, none)
    ∧ dtls_ecdh_pre_master_secret2 U priv_key pub_key key_size curve result result_len
        = (-1, result, [])
    ∧ dtls_ecdsa_generate_key2 U priv_key pub_key key_size curve
        = (-1, priv_key, pub_key, [])
    ∧ dtls_ecdsa_create_sig_hash2 ws U priv_key key_size sign_hash sign_hash_size curve
        point_r point_s = (-1, point_r, point_s, [])
    ∧ dtls_ecdsa_verify_sig_hash2 U pub_key key_size sign_hash sign_hash_size curve
        result_r result_s = (-1, []) := by
  have hg := get_uecc_curve_unsupported U curve hc
  refine ⟨get_uecc_curve_supported U, hg, ?_, ?_, ?_, ?_⟩
  · unfold dtls_ecdh_pre_master_secret2
    simp only [hg, if_true]
  · unfold dtls_ecdsa_generate_key2
    simp only [hg, if_true]
  · unfold dtls_ecdsa_create_sig_hash2
    simp only [hg, if_true]
  · unfold dtls_ecdsa_verify_sig_hash2
    simp only [hg, if_true]

/-- Witness for C19: the identifier 24 (secp384r1) with the toy provider. -/
theorem unsupported_curve_rejected_witness :
    get_uecc_curve toy_uecc TLS_EXT_ELLIPTIC_CURVES_SECP256R1 = (1, some toy_uecc.secp256r1)
    ∧ get_uecc_curve toy_uecc 24 = (0, none)
    ∧ dtls_ecdh_pre_master_secret2 toy_uecc toy_priv (toy_priv ++ toy_priv) 32 24
        (List.replicate 32 9) 32 = (-1, List.replicate 32 9, [])
    ∧ dtls_ecdsa_generate_key2 toy_uecc toy_priv (toy_priv ++ toy_priv) 32 24
        = (-1, toy_priv, toy_priv ++ toy_priv, [])
    ∧ dtls_ecdsa_create_sig_hash2 64 toy_uecc toy_priv 32 (toy_hash [1, 2]) 32 24
        (List.replicate 9 0) (List.replicate 9 0)
        = (-1, List.replicate 9 0, List.replicate 9 0, [])
    ∧ dtls_ecdsa_verify_sig_hash2 toy_uecc (toy_priv ++ toy_priv) 64 (toy_hash [1, 2]) 32 24
        [1] [2] = (-1, []) :=
  unsupported_curve_rejected 64 toy_uecc 24 (by decide) toy_priv (toy_priv ++ toy_priv)
    (List.replicate 32 9) (toy_hash [1, 2]) (List.replicate 9 0) (List.replicate 9 0) [1] [2]
    32 32 32

/-- C20, amended: with the supported curve and `result_len >= key_size`, the
result of `dtls_ecdh_pre_master_secret2` (return value, bytes of `result`,
operations) is the same for a provider whose public-key validation answers
differently; the return value is 0 when the shared-secret computation fails
and `(int)key_size` otherwise, which is `key_size` when `key_size < 2^31`,
and `result` holds what the computation left there. -/
theorem dtls_ecdh_validation_only_logged (U : uECC) (valid : List Nat → Nat → Int)
    (priv_key pub_key : List Nat) (key_size : Nat) (result : List Nat) (result_len : Nat)
    (hlen : key_size ≤ result_len) :
    dtls_ecdh_pre_master_secret2 U priv_key pub_key key_size
        TLS_EXT_ELLIPTIC_CURVES_SECP256R1 result result_len
      = dtls_ecdh_pre_master_secret2 { U with valid_public_key := valid } priv_key pub_key
          key_size TLS_EXT_ELLIPTIC_CURVES_SECP256R1 result result_len
    ∧ (dtls_ecdh_pre_master_secret2 U priv_key pub_key key_size
        TLS_EXT_ELLIPTIC_CURVES_SECP256R1 result result_len).1
      = (if (U.shared_secret pub_key priv_key result U.secp256r1).1 = 0 then 0
         else to_int key_size)
    ∧ (key_size < 2 ^ 31 →
        (dtls_ecdh_pre_master_secret2 U priv_key pub_key key_size
          TLS_EXT_ELLIPTIC_CURVES_SECP256R1 result result_len).1
        = (if (U.shared_secret pub_key priv_key result U.secp256r1).1 = 0 then 0
           else (key_size : Int)))
    ∧ (dtls_ecdh_pre_master_secret2 U priv_key pub_key key_size
        TLS_EXT_ELLIPTIC_CURVES_SECP256R1 result result_len).2.1
      = (U.shared_secret pub_key priv_key result U.secp256r1).2 := by
  rw [dtls_ecdh_pre_master_secret2_eq U priv_key pub_key key_size result result_len hlen,
    dtls_ecdh_pre_master_secret2_eq { U with valid_public_key := valid } priv_key pub_key
      key_size result result_len hlen]
  refine ⟨rfl, ?_, ?_, ?_⟩
  · by_cases h : (U.shared_secret pub_key priv_key result U.secp256r1).1 = 0
    · rw [if_pos h, if_pos h]
    · rw [if_neg h, if_neg h]
  · intro hk
    by_cases h : (U.shared_secret pub_key priv_key result U.secp256r1).1 = 0
    · rw [if_pos h, if_pos h]
    · rw [if_neg h, if_neg h]
      exact to_int_of_lt _ hk
  · by_cases h : (U.shared_secret pub_key priv_key result U.secp256r1).1 = 0
    · rw [if_pos h]
    · rw [if_neg h]

/-- Witness for C20: a public key the toy provider finds invalid (its halves
differ), and a validation that accepts everything; `key_size` is 32 and the
computation succeeds, so 32 is returned. -/
theorem dtls_ecdh_validation_only_logged_witness :
    dtls_ecdh_pre_master_secret2 toy_uecc toy_priv (toy_priv ++ List.replicate 32 5) 32
        TLS_EXT_ELLIPTIC_CURVES_SECP256R1 (List.replicate 32 9) 32
      = dtls_ecdh_pre_master_secret2 { toy_uecc with valid_public_key := fun _ _ => 1 } toy_priv
          (toy_priv ++ List.replicate 32 5) 32 TLS_EXT_ELLIPTIC_CURVES_SECP256R1
          (List.replicate 32 9) 32
    ∧ (dtls_ecdh_pre_master_secret2 toy_uecc toy_priv (toy_priv ++ List.replicate 32 5) 32
        TLS_EXT_ELLIPTIC_CURVES_SECP256R1 (List.replicate 32 9) 32).1
      = (if (toy_uecc.shared_secret (toy_priv ++ List.replicate 32 5) toy_priv
            (List.replicate 32 9) toy_uecc.secp256r1).1 = 0 then 0
         else to_int (32 : Nat))
    ∧ (32 < 2 ^ 31 →
        (dtls_ecdh_pre_master_secret2 toy_uecc toy_priv (toy_priv ++ List.replicate 32 5) 32
          TLS_EXT_ELLIPTIC_CURVES_SECP256R1 (List.replicate 32 9) 32).1
        = (if (toy_uecc.shared_secret (toy_priv ++ List.replicate 32 5) toy_priv
              (List.replicate 32 9) toy_uecc.secp256r1).1 = 0 then 0
           else ((32 : Nat) : Int)))
    ∧ (dtls_ecdh_pre_master_secret2 toy_uecc toy_priv (toy_priv ++ List.replicate 32 5) 32
        TLS_EXT_ELLIPTIC_CURVES_SECP256R1 (List.replicate 32 9) 32).2.1
      = (toy_uecc.shared_secret (toy_priv ++ List.replicate 32 5) toy_priv
          (List.replicate 32 9) toy_uecc.secp256r1).2 :=
  dtls_ecdh_validation_only_logged toy_uecc (fun _ _ => 1) toy_priv
    (toy_priv ++ List.replicate 32 5) 32 (List.replicate 32 9) 32 (by decide)

/-- C20 as stated fails: for `key_size` = `result_len` = 2^31 the toy
provider's shared-secret computation succeeds, and
`dtls_ecdh_pre_master_secret2` returns -2147483648, the value of
`(int)key_size`, not `key_size`. -/
theorem dtls_ecdh_validation_only_logged_counterexample :
    (toy_uecc.shared_secret (toy_priv ++ toy_priv) toy_priv (List.replicate 2147483648 9)
        toy_uecc.secp256r1).1 = 1
    ∧ (dtls_ecdh_pre_master_secret2 toy_uecc toy_priv (toy_priv ++ toy_priv) 2147483648
        TLS_EXT_ELLIPTIC_CURVES_SECP256R1 (List.replicate 2147483648 9) 2147483648).1
      = -2147483648
    ∧ (-2147483648 : Int) ≠ ((2147483648 : Nat) : Int) := by
  refine ⟨by decide, ?_, by decide⟩
  rw [dtls_ecdh_pre_master_secret2_eq toy_uecc toy_priv (toy_priv ++ toy_priv) 2147483648
    (List.replicate 2147483648 9) 2147483648 (Nat.le_refl _)]
  have h : ¬ (toy_uecc.shared_secret (toy_priv ++ toy_priv) toy_priv
      (List.replicate 2147483648 9) toy_uecc.secp256r1).1 = 0 := by decide
  rw [if_neg h]
  show to_int ((2147483648 : Nat) : Int) = -2147483648
  decide

/-! ## The signature arguments of the verification functions -/

theorem dtls_ecdsa_verify_sig_eq (U : uECC) (hash : List Nat → List Nat)
    (stack pub_key_x pub_key_y : List Nat) (key_size : Nat)
    (client_random server_random keyx_params : List Nat) (result_r result_s : List Nat) :
    dtls_ecdsa_verify_sig U hash stack pub_key_x pub_key_y key_size client_random
        server_random keyx_params result_r result_s
      = dtls_ecdsa_verify_sig_hash U stack pub_key_x pub_key_y key_size
          (keyx_digest hash client_random server_random keyx_params) DTLS_HMAC_DIGEST_SIZE
          result_r result_s := rfl

theorem dtls_ecdsa_verify_sig_hash_reads_stack :
    dtls_ecdsa_verify_sig_hash probe_uecc (List.replicate 64 171) toy_priv toy_priv 16
        (toy_hash [1, 2]) 32 [1] [2] = some (171, [CurveOp.verify])
    ∧ dtls_ecdsa_verify_sig_hash probe_uecc (List.replicate 64 0) toy_priv toy_priv 16
        (toy_hash [1, 2]) 32 [1] [2] = some (0, [CurveOp.verify])
    ∧ dtls_ecdsa_verify_sig_hash probe_uecc (List.replicate 64 171) toy_priv toy_priv 33
        (toy_hash [1, 2]) 32 [1] [2] = none := by
  decide

/-- C21: the values returned by `dtls_ecdsa_verify_sig_hash2`,
`dtls_ecdsa_verify_sig_hash` and `dtls_ecdsa_verify_sig` do not depend on
`result_r` and `result_s`: two calls that differ only in these arguments
return the same value.  On the supported curve the value of
`dtls_ecdsa_verify_sig_hash2` is the answer of the provider's `verify` for the
public key, the digest and a signature of 64 zero bytes.  The two callers
return the answer of `verify` for that zero signature and the local array
`pub_key`: the content `stack` it had on entry, overwritten by `key_size`
bytes of each coordinate (no value when `key_size` exceeds 32).  For
`key_size` = 32 the array is overwritten entirely, and the value does not
depend on what it held on entry either. -/
theorem dtls_ecdsa_verify_ignores_signature (U : uECC) (hash : List Nat → List Nat)
    (stack stack2 pub_key pub_key_x pub_key_y : List Nat) (key_size : Nat)
    (sign_hash : List Nat) (sign_hash_size : Nat) (curve : Nat)
    (client_random server_random keyx_params : List Nat)
    (result_r result_s result_r2 result_s2 : List Nat)
    (hstack : stack.length = 64) (hstack2 : stack2.length = 64)
    (hx : 32 ≤ pub_key_x.length) (hy : 32 ≤ pub_key_y.length) :
    dtls_ecdsa_verify_sig_hash2 U pub_key key_size sign_hash sign_hash_size curve
        result_r result_s
      = dtls_ecdsa_verify_sig_hash2 U pub_key key_size sign_hash sign_hash_size curve
          result_r2 result_s2
    ∧ dtls_ecdsa_verify_sig_hash2 U pub_key key_size sign_hash sign_hash_size
        TLS_EXT_ELLIPTIC_CURVES_SECP256R1 result_r result_s
      = (U.verify pub_key sign_hash sign_hash_size (List.replicate 64 0) U.secp256r1,
          [CurveOp.verify])
    ∧ dtls_ecdsa_verify_sig_hash U stack pub_key_x pub_key_y key_size sign_hash
        sign_hash_size result_r result_s
      = dtls_ecdsa_verify_sig_hash U stack pub_key_x pub_key_y key_size sign_hash
          sign_hash_size result_r2 result_s2
    ∧ dtls_ecdsa_verify_sig_hash U stack pub_key_x pub_key_y key_size sign_hash
        sign_hash_size result_r result_s
      = (if 32 < key_size then none
         else some (U.verify
            (store (store stack 0 (load pub_key_x 0 key_size)) key_size
              (load pub_key_y 0 key_size))
            sign_hash sign_hash_size (List.replicate 64 0) U.secp256r1, [CurveOp.verify]))
    ∧ dtls_ecdsa_verify_sig U hash stack pub_key_x pub_key_y key_size client_random
        server_random keyx_params result_r result_s
      = dtls_ecdsa_verify_sig U hash stack pub_key_x pub_key_y key_size client_random
          server_random keyx_params result_r2 result_s2
    ∧ dtls_ecdsa_verify_sig U hash stack pub_key_x pub_key_y key_size client_random
        server_random keyx_params result_r result_s
      = (if 32 < key_size then none
         else some (U.verify
            (store (store stack 0 (load pub_key_x 0 key_size)) key_size
              (load pub_key_y 0 key_size))
            (keyx_digest hash client_random server_random keyx_params) DTLS_HMAC_DIGEST_SIZE
            (List.replicate 64 0) U.secp256r1, [CurveOp.verify]))
    ∧ dtls_ecdsa_verify_sig_hash U stack pub_key_x pub_key_y 32 sign_hash sign_hash_size
        result_r result_s
      = some (U.verify (load pub_key_x 0 32 ++ load pub_key_y 0 32) sign_hash sign_hash_size
          (List.replicate 64 0) U.secp256r1, [CurveOp.verify])
    ∧ dtls_ecdsa_verify_sig_hash U stack pub_key_x pub_key_y 32 sign_hash sign_hash_size
        result_r result_s
      = dtls_ecdsa_verify_sig_hash U stack2 pub_key_x pub_key_y 32 sign_hash sign_hash_size
          result_r2 result_s2
    ∧ dtls_ecdsa_verify_sig U hash stack pub_key_x pub_key_y 32 client_random
        server_random keyx_params result_r result_s
      = dtls_ecdsa_verify_sig U hash stack2 pub_key_x pub_key_y 32 client_random
          server_random keyx_params result_r2 result_s2 := by
  refine ⟨?_, dtls_ecdsa_verify_sig_hash2_eq U _ _ _ _ _ _, ?_,
    dtls_ecdsa_verify_sig_hash_eq U _ _ _ _ _ _ _ _, ?_, ?_,
    dtls_ecdsa_verify_sig_hash_full U stack _ _ _ _ _ _ hstack hx hy, ?_, ?_⟩
  · unfold dtls_ecdsa_verify_sig_hash2
    rfl
  · rw [dtls_ecdsa_verify_sig_hash_eq, dtls_ecdsa_verify_sig_hash_eq]
  · rw [dtls_ecdsa_verify_sig_eq, dtls_ecdsa_verify_sig_eq, dtls_ecdsa_verify_sig_hash_eq,
      dtls_ecdsa_verify_sig_hash_eq]
  · rw [dtls_ecdsa_verify_sig_eq]
    exact dtls_ecdsa_verify_sig_hash_eq U _ _ _ _ _ _ _ _
  · rw [dtls_ecdsa_verify_sig_hash_full U stack _ _ _ _ _ _ hstack hx hy,
      dtls_ecdsa_verify_sig_hash_full U stack2 _ _ _ _ _ _ hstack2 hx hy]
  · rw [dtls_ecdsa_verify_sig_eq, dtls_ecdsa_verify_sig_eq,
      dtls_ecdsa_verify_sig_hash_full U stack _ _ _ _ _ _ hstack hx hy,
      dtls_ecdsa_verify_sig_hash_full U stack2 _ _ _ _ _ _ hstack2 hx hy]

/-- Witness for C21: the toy provider with `key_size` 16, the local array
holding 64 bytes of value 171 on entry in one call and zeros in the other. -/
theorem dtls_ecdsa_verify_ignores_signature_witness :
    dtls_ecdsa_verify_sig_hash2 toy_uecc (toy_priv ++ toy_priv) 64 (toy_hash [1, 2]) 32 23
        [1] [2]
      = dtls_ecdsa_verify_sig_hash2 toy_uecc (toy_priv ++ toy_priv) 64 (toy_hash [1, 2]) 32 23
          [3] [4]
    ∧ dtls_ecdsa_verify_sig_hash2 toy_uecc (toy_priv ++ toy_priv) 64 (toy_hash [1, 2]) 32
        TLS_EXT_ELLIPTIC_CURVES_SECP256R1 [1] [2]
      = (toy_uecc.verify (toy_priv ++ toy_priv) (toy_hash [1, 2]) 32 (List.replicate 64 0)
          toy_uecc.secp256r1, [CurveOp.verify])
    ∧ dtls_ecdsa_verify_sig_hash toy_uecc (List.replicate 64 171) toy_priv toy_priv 16
        (toy_hash [1, 2]) 32 [1] [2]
      = dtls_ecdsa_verify_sig_hash toy_uecc (List.replicate 64 171) toy_priv toy_priv 16
          (toy_hash [1, 2]) 32 [3] [4]
    ∧ dtls_ecdsa_verify_sig_hash toy_uecc (List.replicate 64 171) toy_priv toy_priv 16
        (toy_hash [1, 2]) 32 [1] [2]
      = (if 32 < 16 then none
         else some (toy_uecc.verify
            (store (store (List.replicate 64 171) 0 (load toy_priv 0 16)) 16
              (load toy_priv 0 16))
            (toy_hash [1, 2]) 32 (List.replicate 64 0) toy_uecc.secp256r1, [CurveOp.verify]))
    ∧ dtls_ecdsa_verify_sig toy_uecc toy_hash (List.replicate 64 171) toy_priv toy_priv 16
        [1] [2] [3] [1] [2]
      = dtls_ecdsa_verify_sig toy_uecc toy_hash (List.replicate 64 171) toy_priv toy_priv 16
          [1] [2] [3] [3] [4]
    ∧ dtls_ecdsa_verify_sig toy_uecc toy_hash (List.replicate 64 171) toy_priv toy_priv 16
        [1] [2] [3] [1] [2]
      = (if 32 < 16 then none
         else some (toy_uecc.verify
            (store (store (List.replicate 64 171) 0 (load toy_priv 0 16)) 16
              (load toy_priv 0 16))
            (keyx_digest toy_hash [1] [2] [3]) DTLS_HMAC_DIGEST_SIZE
            (List.replicate 64 0) toy_uecc.secp256r1, [CurveOp.verify]))
    ∧ dtls_ecdsa_verify_sig_hash toy_uecc (List.replicate 64 171) toy_priv toy_priv 32
        (toy_hash [1, 2]) 32 [1] [2]
      = some (toy_uecc.verify (load toy_priv 0 32 ++ load toy_priv 0 32) (toy_hash [1, 2]) 32
          (List.replicate 64 0) toy_uecc.secp256r1, [CurveOp.verify])
    ∧ dtls_ecdsa_verify_sig_hash toy_uecc (List.replicate 64 171) toy_priv toy_priv 32
        (toy_hash [1, 2]) 32 [1] [2]
      = dtls_ecdsa_verify_sig_hash toy_uecc (List.replicate 64 0) toy_priv toy_priv 32
          (toy_hash [1, 2]) 32 [3] [4]
    ∧ dtls_ecdsa_verify_sig toy_uecc toy_hash (List.replicate 64 171) toy_priv toy_priv 32
        [1] [2] [3] [1] [2]
      = dtls_ecdsa_verify_sig toy_uecc toy_hash (List.replicate 64 0) toy_priv toy_priv 32
          [1] [2] [3] [3] [4] :=
  dtls_ecdsa_verify_ignores_signature toy_uecc toy_hash (List.replicate 64 171)
    (List.replicate 64 0) (toy_priv ++ toy_priv) toy_priv toy_priv 16 (toy_hash [1, 2]) 32 23
    [1] [2] [3] [1] [2] [3] [4] (by decide) (by decide) (by decide) (by decide)

/-! ## The word and byte conversions are mutually inverse -/

theorem uint32_to_int_to_uint32 (v : Nat) (h : v < 2 ^ 32) :
    dtls_uint32_to_int (dtls_int_to_uint32 v) = v := by
  simp only [dtls_int_to_uint32, dtls_uint32_to_int, List.getD_cons_zero, List.getD_cons_succ]
  omega

theorem int_to_uint32_to_int (l : List Nat) (hl : l.length = 4) (hb : ∀ x ∈ l, x < 256) :
    dtls_int_to_uint32 (dtls_uint32_to_int l) = l := by
  match l, hl, hb with
  | [a, b, c, d], _, hb =>
    have ha : a < 256 := hb a (by simp)
    have hb2 : b < 256 := hb b (by simp)
    have hc : c < 256 := hb c (by simp)
    have hd : d < 256 := hb d (by simp)
    simp only [dtls_int_to_uint32, dtls_uint32_to_int, List.getD_cons_zero,
      List.getD_cons_succ, List.cons.injEq, and_true]
    refine ⟨by omega, by omega, by omega, by omega⟩

theorem ec_key_words_length (key : List Nat) (koff : Nat) :
    ∀ n, (ec_key_words key koff n).length = n := by
  intro n
  induction n with
  | zero => rfl
  | succ n ih => simp [ec_key_words, ih]

theorem ec_key_words_succ_shift (key : List Nat) : ∀ (n koff : Nat),
    ec_key_words key koff (n + 1)
      = ec_key_words key (koff + 4) n ++ [dtls_uint32_to_int (load key koff 4)] := by
  intro n
  induction n with
  | zero => intro koff; simp [ec_key_words]
  | succ n ih =>
    intro koff
    have e : koff + (n + 1) * 4 = koff + 4 + n * 4 := by omega
    show dtls_uint32_to_int (load key (koff + (n + 1) * 4) 4) :: ec_key_words key koff (n + 1)
      = (dtls_uint32_to_int (load key (koff + 4 + n * 4) 4) :: ec_key_words key (koff + 4) n)
          ++ [dtls_uint32_to_int (load key koff 4)]
    rw [ih koff, e]
    rfl

theorem ec_key_bytes_cons (a : Nat) (w : List Nat) : ∀ n,
    ec_key_bytes (a :: w) (n + 1) = ec_key_bytes w n ++ dtls_int_to_uint32 a := by
  intro n
  induction n with
  | zero => simp [ec_key_bytes]
  | succ n ih =>
    show dtls_int_to_uint32 ((a :: w).getD (n + 1) 0) ++ ec_key_bytes (a :: w) (n + 1)
      = (dtls_int_to_uint32 (w.getD n 0) ++ ec_key_bytes w n) ++ dtls_int_to_uint32 a
    rw [ih, List.getD_cons_succ, List.append_assoc]

theorem load_split (mem : List Nat) (off m n : Nat) :
    load mem off (m + n) = load mem off m ++ load mem (off + m) n := by
  unfold load
  rw [List.take_add, List.drop_drop]

theorem load_mem_lt (mem : List Nat) (off n : Nat) (h : ∀ x ∈ mem, x < 256) :
    ∀ x ∈ load mem off n, x < 256 := by
  intro x hx
  exact h x (List.mem_of_mem_drop (List.mem_of_mem_take hx))

theorem load_append_at_length (pre rest : List Nat) (n : Nat) :
    load (pre ++ rest) pre.length n = rest.take n := by
  unfold load
  rw [List.drop_left]

theorem ec_key_bytes_of_words (b : List Nat) (hb : ∀ x ∈ b, x < 256) :
    ∀ (n koff : Nat) (rest : List Nat), koff + 4 * n ≤ b.length →
      ec_key_bytes (ec_key_words b koff n ++ rest) n = load b koff (4 * n) := by
  intro n
  induction n with
  | zero => intro koff rest _; simp [ec_key_bytes, load]
  | succ n ih =>
    intro koff rest hlen
    rw [ec_key_words_succ_shift, List.append_assoc, List.singleton_append]
    show dtls_int_to_uint32
          ((ec_key_words b (koff + 4) n
            ++ dtls_uint32_to_int (load b koff 4) :: rest).getD n 0)
        ++ ec_key_bytes
          (ec_key_words b (koff + 4) n ++ dtls_uint32_to_int (load b koff 4) :: rest) n
      = load b koff (4 * (n + 1))
    rw [ih (koff + 4) _ (by omega),
      List.getD_append_right _ _ _ _ (by rw [ec_key_words_length]),
      ec_key_words_length, Nat.sub_self, List.getD_cons_zero,
      int_to_uint32_to_int _ (load_length b koff 4 (by omega)) (load_mem_lt b koff 4 hb),
      show 4 * (n + 1) = 4 + 4 * n by omega, load_split]

theorem ec_key_words_of_bytes :
    ∀ (n : Nat) (w pre rest : List Nat), n ≤ w.length → (∀ x ∈ w, x < 2 ^ 32) →
      ec_key_words (pre ++ ec_key_bytes w n ++ rest) pre.length n = w.take n := by
  intro n
  induction n with
  | zero => intro w pre rest _ _; simp [ec_key_words]
  | succ n ih =>
    intro w pre rest hlen hw
    match w, hlen, hw with
    | a :: w, hlen, hw =>
      have ha : a < 2 ^ 32 := hw a (by simp)
      have hw2 : ∀ x ∈ w, x < 2 ^ 32 := fun x hx => hw x (by simp [hx])
      have hn : n ≤ w.length := by simpa using hlen
      rw [ec_key_bytes_cons]
      show dtls_uint32_to_int
            (load (pre ++ (ec_key_bytes w n ++ dtls_int_to_uint32 a) ++ rest)
              (pre.length + n * 4) 4)
          :: ec_key_words (pre ++ (ec_key_bytes w n ++ dtls_int_to_uint32 a) ++ rest)
              pre.length n
        = (a :: w).take (n + 1)
      have e1 : pre ++ (ec_key_bytes w n ++ dtls_int_to_uint32 a) ++ rest
          = pre ++ ec_key_bytes w n ++ (dtls_int_to_uint32 a ++ rest) := by
        simp only [List.append_assoc]
      have e2 : pre ++ ec_key_bytes w n ++ (dtls_int_to_uint32 a ++ rest)
          = (pre ++ ec_key_bytes w n) ++ (dtls_int_to_uint32 a ++ rest) := rfl
      have e3 : pre.length + n * 4 = (pre ++ ec_key_bytes w n).length := by
        rw [List.length_append, ec_key_bytes_length]; omega
      have e4 : (dtls_int_to_uint32 a ++ rest).take 4 = dtls_int_to_uint32 a := by
        simp [dtls_int_to_uint32]
      rw [e1, ih w pre _ hn hw2, e2, e3, load_append_at_length, e4,
        uint32_to_int_to_uint32 a ha]
      rfl

theorem dtls_ec_key_to_uint32_words (ws : Nat) (hws : 32 ≤ ws) (key : List Nat)
    (koff key_size : Nat) (hk : key_size / 4 ≤ 2 ^ 31) (result : List Nat) :
    dtls_ec_key_to_uint32 ws key koff key_size result
      = store result 0 (ec_key_words key koff (key_size / 4)) := by
  unfold dtls_ec_key_to_uint32
  simp only
  rw [to_int_to_size_t ws hws _ (by omega) (by omega), ec_key_to_uint32_loop_eq]
  congr 2
  omega

theorem dtls_ec_key_from_uint32_le (ws : Nat) (hws : 32 ≤ ws) (key : List Nat)
    (key_size : Nat) (hk : key_size / 4 ≤ 2 ^ 31) (result : List Nat) (off : Nat) :
    dtls_ec_key_from_uint32 ws key key_size result off
      = store result off (ec_key_bytes key (key_size / 4)) := by
  unfold dtls_ec_key_from_uint32
  simp only
  rw [to_int_to_size_t ws hws _ (by omega) (by omega), ec_key_from_uint32_loop_eq]
  congr 2
  omega

theorem dtls_ec_key_to_uint32_skip (ws : Nat) (key : List Nat) (koff key_size : Nat)
    (result : List Nat)
    (h : (to_int (to_size_t ws (((key_size / 4 : Nat) : Int) - 1)) + 1).toNat = 0) :
    dtls_ec_key_to_uint32 ws key koff key_size result = result := by
  unfold dtls_ec_key_to_uint32
  simp only
  rw [h]
  rfl

theorem dtls_ec_key_from_uint32_skip (ws : Nat) (key : List Nat) (key_size : Nat)
    (result : List Nat) (off : Nat)
    (h : (to_int (to_size_t ws (((key_size / 4 : Nat) : Int) - 1)) + 1).toNat = 0) :
    dtls_ec_key_from_uint32 ws key key_size result off = result := by
  unfold dtls_ec_key_from_uint32
  simp only
  rw [h]
  rfl

theorem ec_key_skip_count :
    (to_int (to_size_t 64 (((8589934596 / 4 : Nat) : Int) - 1)) + 1).toNat = 0 := by
  decide

theorem dtls_ec_key_bytes_words_bytes (ws : Nat) (hws : 32 ≤ ws) (key_size : Nat)
    (h4 : key_size % 4 = 0) (hk : key_size ≤ 2 ^ 33)
    (b : List Nat) (hb : b.length = key_size) (hbyte : ∀ x ∈ b, x < 256)
    (words bytes : List Nat) (hwords : key_size / 4 ≤ words.length)
    (hbytes : key_size ≤ bytes.length) :
    dtls_ec_key_from_uint32 ws (dtls_ec_key_to_uint32 ws b 0 key_size words) key_size bytes 0
      = b ++ bytes.drop key_size := by
  have hk4 : key_size / 4 ≤ 2 ^ 31 := by omega
  have h4n : 4 * (key_size / 4) = key_size := by omega
  rw [dtls_ec_key_to_uint32_words ws hws b 0 key_size hk4,
    dtls_ec_key_from_uint32_le ws hws _ key_size hk4,
    store_zero _ words (by rw [ec_key_words_length]; exact hwords),
    ec_key_bytes_of_words b hbyte (key_size / 4) 0 _ (by omega), h4n]
  have hl : load b 0 key_size = b := by
    unfold load
    rw [List.drop_zero, List.take_of_length_le (by omega)]
  rw [hl]
  have := store_zero b bytes (by omega)
  rw [hb] at this
  exact this

theorem dtls_ec_key_words_bytes_words (ws : Nat) (hws : 32 ≤ ws) (key_size : Nat)
    (hk : key_size ≤ 2 ^ 33)
    (w : List Nat) (hw : w.length = key_size / 4) (hword : ∀ x ∈ w, x < 2 ^ 32)
    (words bytes : List Nat) (hwords : key_size / 4 ≤ words.length)
    (hbytes : key_size ≤ bytes.length) :
    dtls_ec_key_to_uint32 ws (dtls_ec_key_from_uint32 ws w key_size bytes 0) 0 key_size words
      = w ++ words.drop (key_size / 4) := by
  have hk4 : key_size / 4 ≤ 2 ^ 31 := by omega
  have hlen : (ec_key_bytes w (key_size / 4)).length ≤ bytes.length := by
    rw [ec_key_bytes_length]; omega
  rw [dtls_ec_key_from_uint32_le ws hws w key_size hk4,
    dtls_ec_key_to_uint32_words ws hws _ 0 key_size hk4,
    store_zero _ bytes hlen]
  have e := ec_key_words_of_bytes (key_size / 4) w [] (bytes.drop (ec_key_bytes w (key_size / 4)).length)
    (by omega) hword
  rw [List.nil_append, List.length_nil] at e
  rw [e, List.take_of_length_le (by omega)]
  have := store_zero w words (by omega)
  rw [hw] at this
  exact this

/-- C22, amended: for `key_size` a multiple of 4 that is at most 2^33 (so that
`key_size / 4 - 1` is representable as an `int`), every string `b` of
`key_size` bytes and every array `w` of `key_size / 4` 32-bit words,
`dtls_ec_key_from_uint32` applied to the words `dtls_ec_key_to_uint32`
produces from `b` writes `b` again, and `dtls_ec_key_to_uint32` applied to the
bytes `dtls_ec_key_from_uint32` produces from `w` writes `w` again; the
destination buffers `words` and `bytes` are large enough and keep what lies
behind the converted part. -/
theorem dtls_ec_key_uint32_roundtrip (ws : Nat) (hws : 32 ≤ ws) (key_size : Nat)
    (h4 : key_size % 4 = 0) (hk : key_size ≤ 2 ^ 33)
    (b : List Nat) (hb : b.length = key_size) (hbyte : ∀ x ∈ b, x < 256)
    (w : List Nat) (hw : w.length = key_size / 4) (hword : ∀ x ∈ w, x < 2 ^ 32)
    (words bytes : List Nat) (hwords : key_size / 4 ≤ words.length)
    (hbytes : key_size ≤ bytes.length) :
    dtls_ec_key_from_uint32 ws (dtls_ec_key_to_uint32 ws b 0 key_size words) key_size bytes 0
      = b ++ bytes.drop key_size
    ∧ dtls_ec_key_to_uint32 ws (dtls_ec_key_from_uint32 ws w key_size bytes 0) 0 key_size
        words
      = w ++ words.drop (key_size / 4) :=
  ⟨dtls_ec_key_bytes_words_bytes ws hws key_size h4 hk b hb hbyte words bytes hwords hbytes,
    dtls_ec_key_words_bytes_words ws hws key_size hk w hw hword words bytes hwords hbytes⟩

/-- Witness for C22: eight bytes and two words, with destination buffers one
element larger than needed. -/
theorem dtls_ec_key_uint32_roundtrip_witness :
    dtls_ec_key_to_uint32 64 [1, 2, 3, 4, 5, 6, 7, 255] 0 8 [0, 0, 9] = [84281343, 16909060, 9]
    ∧ dtls_ec_key_from_uint32 64 [16909060, 4294967295] 8 (List.replicate 9 7) 0
      = [255, 255, 255, 255, 1, 2, 3, 4, 7]
    ∧ dtls_ec_key_from_uint32 64
        (dtls_ec_key_to_uint32 64 [1, 2, 3, 4, 5, 6, 7, 255] 0 8 [0, 0, 9]) 8
        (List.replicate 9 7) 0
      = [1, 2, 3, 4, 5, 6, 7, 255] ++ (List.replicate 9 7).drop 8
    ∧ dtls_ec_key_to_uint32 64
        (dtls_ec_key_from_uint32 64 [16909060, 4294967295] 8 (List.replicate 9 7) 0) 0 8
        [0, 0, 9]
      = [16909060, 4294967295] ++ [0, 0, 9].drop (8 / 4) :=
  ⟨by decide, by decide,
    dtls_ec_key_uint32_roundtrip 64 (by decide) 8 (by decide) (by decide)
      [1, 2, 3, 4, 5, 6, 7, 255] rfl (by decide) [16909060, 4294967295] rfl (by decide)
      [0, 0, 9] (List.replicate 9 7) (by decide) (by decide)⟩

/-- C22 as stated fails: with a 64-bit `size_t` and `key_size` = 2^33 + 4, a
multiple of 4, `key_size / 4 - 1` is 2^31, which as an `int` is negative, so
neither loop runs: `dtls_ec_key_to_uint32` leaves the word array as it was,
`dtls_ec_key_from_uint32` leaves the byte buffer as it was, and the byte
buffer, all zero before, does not hold the bytes `b`, all one. -/
theorem dtls_ec_key_uint32_roundtrip_counterexample :
    8589934596 % 4 = 0
    ∧ (List.replicate 8589934596 1).length = 8589934596
    ∧ (∀ x ∈ List.replicate 8589934596 1, x < 256)
    ∧ dtls_ec_key_to_uint32 64 (List.replicate 8589934596 1) 0 8589934596
        (List.replicate 2147483649 0) = List.replicate 2147483649 0
    ∧ dtls_ec_key_from_uint32 64
        (dtls_ec_key_to_uint32 64 (List.replicate 8589934596 1) 0 8589934596
          (List.replicate 2147483649 0))
        8589934596 (List.replicate 8589934596 0) 0 = List.replicate 8589934596 0
    ∧ List.replicate 8589934596 0 ≠ List.replicate 8589934596 1 := by
  refine ⟨by decide, List.length_replicate _ _, ?_, ?_, ?_, ?_⟩
  · intro x hx
    rw [List.eq_of_mem_replicate hx]
    decide
  · exact dtls_ec_key_to_uint32_skip 64 _ 0 8589934596 _ ec_key_skip_count
  · rw [dtls_ec_key_from_uint32_skip 64 _ 8589934596 _ 0 ec_key_skip_count]
  · intro h
    have h2 : List.replicate (8589934595 + 1) 0 = List.replicate (8589934595 + 1) 1 := h
    rw [List.replicate_succ, List.replicate_succ] at h2
    exact absurd (List.cons.inj h2).1 (by decide)

end TinyDTLS
